import Mathlib

/-!
# gjsp: a hand-written JSON parser (lexer.go, parser.go)

A shallow embedding of the cursor (`Lexer`) and of the recursive-descent
parsing routines, followed by theorems about them.

Conventions of the embedding

* A Go `string` is a sequence of bytes: `List Nat`, each byte a number below 256.
* The `*Lexer` receiver is mutated in place; here every routine returns the
  lexer it leaves behind.
* A Go `panic` is a result of its own (`Res.panic`), distinct from a returned
  `error` (`Res.err`).
* Loops are recursions on a fuel argument; a loop that runs out of fuel gives
  `Res.fuelOut`, which no Go behaviour corresponds to.
* On a non-nil `error` the Go value returned next to it (a zero value or a
  partial slice) is not kept.
-/

namespace Gjsp

/-! ## Data model -/

/-- The cursor of lexer.go: `type Lexer struct { input string; pos int }`. -/
structure Lexer where
  input : List Nat
  pos : Nat
deriving DecidableEq, Repr

/-- The dynamic values (`interface{}`) the parse routines return: the nil
interface, `bool`, `int`, `float64` (its 64 bits), `string`, `[]interface{}`
and `map[string]interface{}` (an association list with distinct keys). -/
inductive Value where
  | null : Value
  | bool (b : Bool) : Value
  | int (n : Int) : Value
  | float (bits : Nat) : Value
  | str (s : List Nat) : Value
  | arr (vs : List Value) : Value
  | obj (m : List (List Nat × Value)) : Value

/-- The errors of parser.go, one constructor for each message. -/
inductive Err where
  /-- unexpected character %s -/
  | unexpectedCharacter (ch : Nat)
  /-- invalid object: expected :, got %s -/
  | objectExpectedColon (ch : Nat)
  /-- invalid object: expected }, got %s -/
  | objectExpectedBrace (ch : Nat)
  /-- invalid array: expected ], got %s -/
  | arrayExpectedBracket (ch : Nat)
  /-- invalid string: unknown escape sequence %v -/
  | stringUnknownEscape (esc : Nat)
  /-- invalid string: Sorry, unicode escape sequence does not be supported yet -/
  | stringUnicodeEscape
  /-- invalid string: no closing quote -/
  | stringNoClosingQuote
  /-- expected true, got %s -/
  | expectedTrue (token : List Nat)
  /-- expected false, got %s -/
  | expectedFalse (token : List Nat)
  /-- expected null, got %s -/
  | expectedNull (token : List Nat)
  /-- invalid number: double dot -/
  | numberDoubleDot
  /-- invalid number: dot must be followed by digit -/
  | numberDotDigit
  /-- invalid number: exponent before fraction -/
  | numberExponentBeforeFraction
  /-- invalid number: double exponent -/
  | numberDoubleExponent
  /-- invalid number: e/E must be followed by a sign, plus or minus -/
  | numberExponentSign
  /-- invalid number: exponent must be followed by digit -/
  | numberExponentDigit
  /-- invalid number: 0 start -/
  | numberZeroStart
  /-- the error of strconv.Atoi: invalid syntax -/
  | atoiSyntax (token : List Nat)
  /-- the error of strconv.Atoi: value out of range -/
  | atoiRange (token : List Nat)
  /-- the error of strconv.ParseFloat -/
  | parseFloat (token : List Nat)
deriving DecidableEq, Repr

/-- The error kinds of the specification. -/
inductive ErrKind where
  | UnexpectedCharacter
  | UnexpectedLiteral
  | InvalidObject
  | InvalidArray
  | InvalidString
  | InvalidNumber
  | NumberFormat
deriving DecidableEq, Repr

/-- The kind of an error, read off the prefix of its message; the errors of
the strconv conversions are the NumberFormat kind. -/
def Err.kind : Err → ErrKind
  | .unexpectedCharacter _ => .UnexpectedCharacter
  | .objectExpectedColon _ => .InvalidObject
  | .objectExpectedBrace _ => .InvalidObject
  | .arrayExpectedBracket _ => .InvalidArray
  | .stringUnknownEscape _ => .InvalidString
  | .stringUnicodeEscape => .InvalidString
  | .stringNoClosingQuote => .InvalidString
  | .expectedTrue _ => .UnexpectedLiteral
  | .expectedFalse _ => .UnexpectedLiteral
  | .expectedNull _ => .UnexpectedLiteral
  | .numberDoubleDot => .InvalidNumber
  | .numberDotDigit => .InvalidNumber
  | .numberExponentBeforeFraction => .InvalidNumber
  | .numberDoubleExponent => .InvalidNumber
  | .numberExponentSign => .InvalidNumber
  | .numberExponentDigit => .InvalidNumber
  | .numberZeroStart => .InvalidNumber
  | .atoiSyntax _ => .NumberFormat
  | .atoiRange _ => .NumberFormat
  | .parseFloat _ => .NumberFormat

/-- The ways a routine can abort instead of returning. -/
inductive Panic where
  /-- panic("cannot read after EOF") in ReadChar -/
  | readAfterEOF
  /-- slice bounds out of range, in Range -/
  | sliceBounds
  /-- index out of range -/
  | indexRange
deriving DecidableEq, Repr

/-- The outcome of a routine: a value with a nil error, a non-nil error, a
panic, or the fuel of the embedding used up. -/
inductive Res (α : Type) where
  | ok (v : α) (l : Lexer) : Res α
  | err (e : Err) (l : Lexer) : Res α
  | panic (p : Panic) : Res α
  | fuelOut : Res α

/-! ## lexer.go -/

/-- Go `func NewLexer(input string) *Lexer`. -/
def NewLexer (input : List Nat) : Lexer := ⟨input, 0⟩

/-- Go `func (l *Lexer) Position() int`. -/
def Lexer.Position (l : Lexer) : Nat := l.pos

/-- Go `func (l *Lexer) Range(start, end int) string`: `l.input[start:end]`, which
panics unless `start <= end <= len(l.input)`. -/
def Lexer.Range (l : Lexer) (start stop : Nat) : Option (List Nat) :=
  if start ≤ stop ∧ stop ≤ l.input.length then
    some ((l.input.take stop).drop start)
  else none

/-- Go `func (l *Lexer) PeekChar() byte`: 0 at the end of the input. -/
def Lexer.PeekChar (l : Lexer) : Nat :=
  if l.pos ≥ l.input.length then 0 else l.input.getD l.pos 0

/-- Go `func (l *Lexer) ReadChar() byte`: panics at the end of the input, else
moves one byte on and peeks. -/
def Lexer.ReadChar (l : Lexer) : Res Nat :=
  if l.pos ≥ l.input.length then .panic .readAfterEOF
  else
    let l1 : Lexer := ⟨l.input, l.pos + 1⟩
    .ok l1.PeekChar l1

/-- Go `func (l *Lexer) ReadMany(n int) []byte`: n times, store the peeked byte
and call ReadChar. -/
def Lexer.ReadMany : Nat → Lexer → Res (List Nat)
  | 0, l => .ok [] l
  | n + 1, l =>
    let b := l.PeekChar
    match l.ReadChar with
    | .ok _ l1 =>
      match Lexer.ReadMany n l1 with
      | .ok bs l2 => .ok (b :: bs) l2
      | .err e l2 => .err e l2
      | .panic p => .panic p
      | .fuelOut => .fuelOut
    | .err e l1 => .err e l1
    | .panic p => .panic p
    | .fuelOut => .fuelOut

/-- The bytes SkipWhitespaces steps over: space, tab, line feed, carriage return. -/
def isSpace (ch : Nat) : Bool := ch == 32 || ch == 9 || ch == 10 || ch == 13

/-- The loop of SkipWhitespaces, `ch` the byte last peeked. -/
def skipLoop : Nat → Nat → Lexer → Res Unit
  | 0, _, _ => .fuelOut
  | fuel + 1, ch, l =>
    if isSpace ch then
      match l.ReadChar with
      | .ok ch1 l1 => skipLoop fuel ch1 l1
      | .err e l1 => .err e l1
      | .panic p => .panic p
      | .fuelOut => .fuelOut
    else .ok () l

/-- Go `func (l *Lexer) SkipWhitespaces()`. -/
def Lexer.SkipWhitespaces (l : Lexer) : Res Unit :=
  skipLoop (l.input.length + 1) l.PeekChar l

/-! ## parser.go: the leaf productions -/

/-- Go `var escapeChars map[byte]bool`, filled by `init` with
the bytes of `"`, `\`, `/`, `b`, `f`, `n`, `r`, `t`, `u`. -/
def escapeChars (ch : Nat) : Bool :=
  decide (ch ∈ [34, 92, 47, 98, 102, 110, 114, 116, 117])

/-- Go `func isDigit(ch byte) bool`. -/
def isDigit (ch : Nat) : Bool := decide (48 ≤ ch) && decide (ch ≤ 57)

/-- The loop of parseString: `ch` the current byte, `stop` the variable `end`.
It gives the final `closed` and `end`. -/
def parseStringLoop : Nat → Nat → Nat → Lexer → Res (Bool × Nat)
  | 0, _, _, _ => .fuelOut
  | fuel + 1, ch, stop, l =>
    if ch = 34 then .ok (true, stop) l
    else if ch = 0 then .ok (false, stop) l
    else if ch = 92 then
      match l.ReadChar with
      | .ok esc l1 =>
        if !escapeChars esc then .err (.stringUnknownEscape esc) l1
        else if esc = 117 then .err .stringUnicodeEscape l1
        else
          match l1.ReadChar with
          | .ok ch1 l2 => parseStringLoop fuel ch1 (stop + 1 + 1) l2
          | .err e l2 => .err e l2
          | .panic p => .panic p
          | .fuelOut => .fuelOut
      | .err e l1 => .err e l1
      | .panic p => .panic p
      | .fuelOut => .fuelOut
    else
      match l.ReadChar with
      | .ok ch1 l1 => parseStringLoop fuel ch1 (stop + 1) l1
      | .err e l1 => .err e l1
      | .panic p => .panic p
      | .fuelOut => .fuelOut

/-- Go `func parseString(l *Lexer) (string, error)`. -/
def parseString (l : Lexer) : Res (List Nat) :=
  match l.ReadChar with
  | .ok _ l0 =>
    let start := l0.Position
    match parseStringLoop (l0.input.length + 1) l0.PeekChar start l0 with
    | .ok (closed, stop) l1 =>
      if !closed then .err .stringNoClosingQuote l1
      else
        match l1.ReadChar with
        | .ok _ l2 =>
          match l2.Range start stop with
          | some s => .ok s l2
          | none => .panic .sliceBounds
        | .err e l2 => .err e l2
        | .panic p => .panic p
        | .fuelOut => .fuelOut
    | .err e l1 => .err e l1
    | .panic p => .panic p
    | .fuelOut => .fuelOut
  | .err e l0 => .err e l0
  | .panic p => .panic p
  | .fuelOut => .fuelOut

/-- Go `func parseTrue(l *Lexer) (b bool, err error)`; "true" is 116 114 117 101. -/
def parseTrue (l : Lexer) : Res Value :=
  match l.ReadMany 4 with
  | .ok token l1 =>
    if token ≠ [116, 114, 117, 101] then .err (.expectedTrue token) l1
    else .ok (.bool true) l1
  | .err e l1 => .err e l1
  | .panic p => .panic p
  | .fuelOut => .fuelOut

/-- Go `func parseFalse(l *Lexer) (b bool, err error)`; "false" is 102 97 108 115 101. -/
def parseFalse (l : Lexer) : Res Value :=
  match l.ReadMany 5 with
  | .ok token l1 =>
    if token ≠ [102, 97, 108, 115, 101] then .err (.expectedFalse token) l1
    else .ok (.bool false) l1
  | .err e l1 => .err e l1
  | .panic p => .panic p
  | .fuelOut => .fuelOut

/-- Go `func parseNull(l *Lexer) (v interface{}, err error)`; "null" is 110 117 108 108. -/
def parseNull (l : Lexer) : Res Value :=
  match l.ReadMany 4 with
  | .ok token l1 =>
    if token ≠ [110, 117, 108, 108] then .err (.expectedNull token) l1
    else .ok .null l1
  | .err e l1 => .err e l1
  | .panic p => .panic p
  | .fuelOut => .fuelOut

/-- The loop of parseNumber: `stop` is the variable `end`, `fraction` and
`exponent` the two flags. It gives the final `end` and `fraction`. -/
def parseNumberLoop : Nat → Nat → Bool → Bool → Lexer → Res (Nat × Bool)
  | 0, _, _, _, _ => .fuelOut
  | fuel + 1, stop, fraction, exponent, l =>
    match l.ReadChar with
    | .ok ch l1 =>
      if isDigit ch then parseNumberLoop fuel (stop + 1) fraction exponent l1
      else if ch = 46 then
        if fraction then .err .numberDoubleDot l1
        else
          match l1.ReadChar with
          | .ok next l2 =>
            if isDigit next then parseNumberLoop fuel (stop + 1 + 1) true exponent l2
            else .err .numberDotDigit l2
          | .err e l2 => .err e l2
          | .panic p => .panic p
          | .fuelOut => .fuelOut
      else if ch = 101 ∨ ch = 69 then
        if !fraction then .err .numberExponentBeforeFraction l1
        else if exponent then .err .numberDoubleExponent l1
        else
          match l1.ReadChar with
          | .ok sign l2 =>
            if sign ≠ 45 ∧ sign ≠ 43 then .err .numberExponentSign l2
            else
              match l2.ReadChar with
              | .ok digit l3 =>
                if !isDigit digit then .err .numberExponentDigit l3
                else parseNumberLoop fuel (stop + 1 + 1 + 1) fraction true l3
              | .err e l3 => .err e l3
              | .panic p => .panic p
              | .fuelOut => .fuelOut
          | .err e l2 => .err e l2
          | .panic p => .panic p
          | .fuelOut => .fuelOut
      else .ok (stop, fraction) l1
    | .err e l1 => .err e l1
    | .panic p => .panic p
    | .fuelOut => .fuelOut

/-- The value of a run of decimal digit bytes, most significant first. -/
def digitsValue (ds : List Nat) : Nat :=
  ds.foldl (fun acc c => 10 * acc + (c - 48)) 0

/-- The outcome of strconv.Atoi, from its documentation (`int` of 64 bits):
an optional sign `+` or `-`, then one or more decimal digits; the value, or a
syntax error, or a range error when the value does not fit in 64 bits. -/
inductive AtoiResult where
  | value (n : Int)
  | syntaxError
  | rangeError
deriving DecidableEq, Repr

/-- A model of strconv.Atoi of the Go standard library. -/
def atoi (s : List Nat) : AtoiResult :=
  let neg : Bool := s.head? == some 45
  let ds : List Nat := if s.head? == some 45 || s.head? == some 43 then s.tail else s
  if ds.isEmpty || !ds.all isDigit then .syntaxError
  else
    let n : Int := if neg then - (digitsValue ds : Int) else (digitsValue ds : Int)
    if n < -(2 : Int) ^ 63 ∨ (2 : Int) ^ 63 - 1 < n then .rangeError
    else .value n

/-- The part of parseNumber after its loop: the leading zero check on the
token, then the conversion. `parseFloat` stands for strconv.ParseFloat(num, 64):
the 64 bits of the result, or none for a non-nil error. -/
def convertNumber (parseFloat : List Nat → Option Nat) (num : List Nat) (fraction : Bool)
    (l : Lexer) : Res Value :=
  match num with
  | [] => .panic .indexRange
  | c0 :: _ =>
    let head : Nat := if c0 = 45 then 1 else 0
    if num.length > head + 1 ∧ num.getD head 0 = 48 ∧ isDigit (num.getD (head + 1) 0) then
      .err .numberZeroStart l
    else if fraction then
      match parseFloat num with
      | some bits => .ok (.float bits) l
      | none => .err (.parseFloat num) l
    else
      match atoi num with
      | .value n => .ok (.int n) l
      | .syntaxError => .err (.atoiSyntax num) l
      | .rangeError => .err (.atoiRange num) l

/-- Go `func parseNumber(l *Lexer) (v interface{}, err error)`. -/
def parseNumber (parseFloat : List Nat → Option Nat) (l : Lexer) : Res Value :=
  let start := l.Position
  match parseNumberLoop (l.input.length + 1) (start + 1) false false l with
  | .ok (stop, fraction) l1 =>
    match l1.Range start stop with
    | some num => convertNumber parseFloat num fraction l1
    | none => .panic .sliceBounds
  | .err e l1 => .err e l1
  | .panic p => .panic p
  | .fuelOut => .fuelOut

/-! ## parser.go: values, arrays, objects -/

/-- The Go statement `obj[key] = v` on the association list: the binding of
`key` is replaced, or added. -/
def mapSet (m : List (List Nat × Value)) (key : List Nat) (v : Value) :
    List (List Nat × Value) :=
  m.filter (fun p => p.1 ≠ key) ++ [(key, v)]

/-- The Go expression `obj[key]` with its presence flag. -/
def mapGet (m : List (List Nat × Value)) (key : List Nat) : Option Value :=
  (m.find? (fun p => p.1 = key)).map (fun p => p.2)

/-- The trailing `l.SkipWhitespaces()` of parseValue, which runs whatever the
production returned. -/
def skipAfter (r : Res Value) : Res Value :=
  match r with
  | .ok v l =>
    match l.SkipWhitespaces with
    | .ok _ l1 => .ok v l1
    | .err e l1 => .err e l1
    | .panic p => .panic p
    | .fuelOut => .fuelOut
  | .err e l =>
    match l.SkipWhitespaces with
    | .ok _ l1 => .err e l1
    | .err e1 l1 => .err e1 l1
    | .panic p => .panic p
    | .fuelOut => .fuelOut
  | .panic p => .panic p
  | .fuelOut => .fuelOut

mutual

/-- Go `func parseValue(l *Lexer) (v interface{}, err error)`. -/
def parseValue (parseFloat : List Nat → Option Nat) : Nat → Lexer → Res Value
  | 0, _ => .fuelOut
  | fuel + 1, l =>
    match l.SkipWhitespaces with
    | .ok _ l1 =>
      let ch := l1.PeekChar
      skipAfter
        (if ch = 0 then .ok .null l1
        else if ch = 34 then
          match parseString l1 with
          | .ok s l2 => .ok (.str s) l2
          | .err e l2 => .err e l2
          | .panic p => .panic p
          | .fuelOut => .fuelOut
        else if ch = 91 then parseArray parseFloat fuel l1
        else if ch = 123 then parseObject parseFloat fuel l1
        else if ch = 116 then parseTrue l1
        else if ch = 102 then parseFalse l1
        else if ch = 110 then parseNull l1
        else if ch = 45 ∨ isDigit ch then parseNumber parseFloat l1
        else .err (.unexpectedCharacter ch) l1)
    | .err e l1 => .err e l1
    | .panic p => .panic p
    | .fuelOut => .fuelOut

/-- Go `func parseObject(l *Lexer) (obj map[string]interface{}, err error)`. -/
def parseObject (parseFloat : List Nat → Option Nat) : Nat → Lexer → Res Value
  | 0, _ => .fuelOut
  | fuel + 1, l =>
    match l.ReadChar with
    | .ok _ l1 => parseObjectLoop parseFloat fuel [] l1
    | .err e l1 => .err e l1
    | .panic p => .panic p
    | .fuelOut => .fuelOut

/-- The `for` loop of parseObject, `obj` the map built so far. -/
def parseObjectLoop (parseFloat : List Nat → Option Nat) :
    Nat → List (List Nat × Value) → Lexer → Res Value
  | 0, _, _ => .fuelOut
  | fuel + 1, obj, l =>
    match l.SkipWhitespaces with
    | .ok _ l1 =>
      match parseString l1 with
      | .ok key l2 =>
        match l2.SkipWhitespaces with
        | .ok _ l3 =>
          let ch := l3.PeekChar
          if ch ≠ 58 then .err (.objectExpectedColon ch) l3
          else
            match l3.ReadChar with
            | .ok _ l4 =>
              match parseValue parseFloat fuel l4 with
              | .ok v l5 =>
                let obj1 := mapSet obj key v
                let ch1 := l5.PeekChar
                if ch1 = 44 then
                  match l5.ReadChar with
                  | .ok _ l6 => parseObjectLoop parseFloat fuel obj1 l6
                  | .err e l6 => .err e l6
                  | .panic p => .panic p
                  | .fuelOut => .fuelOut
                else if ch1 = 125 then
                  match l5.ReadChar with
                  | .ok _ l6 => .ok (.obj obj1) l6
                  | .err e l6 => .err e l6
                  | .panic p => .panic p
                  | .fuelOut => .fuelOut
                else .err (.objectExpectedBrace ch1) l5
              | .err e l5 => .err e l5
              | .panic p => .panic p
              | .fuelOut => .fuelOut
            | .err e l4 => .err e l4
            | .panic p => .panic p
            | .fuelOut => .fuelOut
        | .err e l3 => .err e l3
        | .panic p => .panic p
        | .fuelOut => .fuelOut
      | .err e l2 => .err e l2
      | .panic p => .panic p
      | .fuelOut => .fuelOut
    | .err e l1 => .err e l1
    | .panic p => .panic p
    | .fuelOut => .fuelOut

/-- Go `func parseArray(l *Lexer) (vs []interface{}, err error)`. -/
def parseArray (parseFloat : List Nat → Option Nat) : Nat → Lexer → Res Value
  | 0, _ => .fuelOut
  | fuel + 1, l =>
    match l.ReadChar with
    | .ok _ l1 => parseArrayLoop parseFloat fuel [] l1
    | .err e l1 => .err e l1
    | .panic p => .panic p
    | .fuelOut => .fuelOut

/-- The `for` loop of parseArray, `vs` the slice built so far. -/
def parseArrayLoop (parseFloat : List Nat → Option Nat) :
    Nat → List Value → Lexer → Res Value
  | 0, _, _ => .fuelOut
  | fuel + 1, vs, l =>
    match parseValue parseFloat fuel l with
    | .ok v l1 =>
      let vs1 := vs ++ [v]
      let ch := l1.PeekChar
      if ch = 44 then
        match l1.ReadChar with
        | .ok _ l2 => parseArrayLoop parseFloat fuel vs1 l2
        | .err e l2 => .err e l2
        | .panic p => .panic p
        | .fuelOut => .fuelOut
      else if ch = 93 then
        match l1.ReadChar with
        | .ok _ l2 => .ok (.arr vs1) l2
        | .err e l2 => .err e l2
        | .panic p => .panic p
        | .fuelOut => .fuelOut
      else .err (.arrayExpectedBracket ch) l1
    | .err e l1 => .err e l1
    | .panic p => .panic p
    | .fuelOut => .fuelOut

end

/-- The fuel Parse gives parseValue: three units for each byte of input, and one. -/
def parseFuel (l : Lexer) : Nat := 3 * l.input.length + 1

/-- Go `func Parse(l *Lexer) (interface{}, error)`. -/
def Parse (parseFloat : List Nat → Option Nat) (l : Lexer) : Res Value :=
  parseValue parseFloat (parseFuel l) l

/-- The bytes of an ASCII text. -/
def ascii (s : String) : List Nat := s.toList.map Char.toNat

/-! ## Texts and values the theorems speak about -/

/-- The lexer over `pre ++ rest` that has read `pre`. -/
def cursor (pre rest : List Nat) : Lexer := ⟨pre ++ rest, pre.length⟩

/-- A unit of the text between the quotes of a string token: one plain byte,
a backslash with one more byte, or a backslash, `u` and four more bytes. -/
inductive StrUnit where
  | plain (c : Nat)
  | escape (e : Nat)
  | unicode (h1 h2 h3 h4 : Nat)
deriving DecidableEq, Repr

/-- The bytes of a unit as they stand in the text. -/
def StrUnit.bytes : StrUnit → List Nat
  | .plain c => [c]
  | .escape e => [92, e]
  | .unicode h1 h2 h3 h4 => [92, 117, h1, h2, h3, h4]

/-- The bytes of a run of units. -/
def strBytes : List StrUnit → List Nat
  | [] => []
  | u :: us => u.bytes ++ strBytes us

/-- The two-byte escapes: a backslash before one of `"`, `\`, `/`, `b`, `f`, `n`, `r`, `t`. -/
def simpleEscape (e : Nat) : Bool := decide (e ∈ [34, 92, 47, 98, 102, 110, 114, 116])

/-- The units parseString steps over: a byte other than `"`, `\` and NUL, or a
two-byte escape. -/
def StrUnit.accepted : StrUnit → Bool
  | .plain c => decide (c ≠ 34) && decide (c ≠ 92) && decide (c ≠ 0)
  | .escape e => simpleEscape e
  | .unicode _ _ _ _ => false

/-- Whether the text after an opening quote holds a closing quote: a `"` that
is not the byte right after an unescaped backslash. -/
def hasClosingQuote : List Nat → Bool
  | [] => false
  | c :: s =>
    if c = 34 then true
    else if c = 92 then
      match s with
      | [] => false
      | _ :: t => hasClosingQuote t
    else hasClosingQuote s

/-- Whether the text after an opening quote has, before any closing quote, an
unescaped backslash followed by a byte outside `"`, `\`, `/`, `b`, `f`, `n`,
`r`, `t`, or by the end of the input. -/
def hasBadEscape : List Nat → Bool
  | [] => false
  | c :: s =>
    if c = 34 then false
    else if c = 92 then
      match s with
      | [] => true
      | e :: t => !simpleEscape e || hasBadEscape t
    else hasBadEscape s

/-- A byte that ends a number token: not a digit, not `.`, not `e`, not `E`. -/
def endsNumber (ch : Nat) : Bool :=
  !isDigit ch && decide (ch ≠ 46) && decide (ch ≠ 101) && decide (ch ≠ 69)

/-- The optional minus sign of a number token. -/
def signBytes (neg : Bool) : List Nat := if neg then [45] else []

/-- Canonical decimal digits: at least one digit byte, and no leading `0`
unless `0` is the only digit. -/
def canonicalDigits (ds : List Nat) : Bool :=
  match ds with
  | [] => false
  | d :: rest => ds.all isDigit && (rest.isEmpty || decide (d ≠ 48))

/-- The integer a sign and a run of digits denote. -/
def signedValue (neg : Bool) (ds : List Nat) : Int :=
  if neg then - (digitsValue ds : Int) else (digitsValue ds : Int)

/-- Whether an integer fits the 64-bit `int`. -/
def inInt64 (n : Int) : Bool := decide (-(2 : Int) ^ 63 ≤ n) && decide (n ≤ (2 : Int) ^ 63 - 1)

/-- The result parseNumber gives for an integer token of value `v`. -/
def intResult (tok : List Nat) (v : Int) (l : Lexer) : Res Value :=
  if inInt64 v then .ok (.int v) l else .err (.atoiRange tok) l

/-- The decimal digit bytes of `n`, most significant first, by repeated
division; `fuel` bounds the number of digits. -/
def natDigits : Nat → Nat → List Nat
  | 0, _ => []
  | fuel + 1, n => if n < 10 then [n + 48] else natDigits fuel (n / 10) ++ [n % 10 + 48]

/-- The canonical decimal text of an integer: a `-` for a negative one, then
the digits of its absolute value with no leading zero. -/
def decimalText (n : Int) : List Nat :=
  signBytes (decide (n < 0)) ++ natDigits (n.natAbs + 1) n.natAbs

/-- The exponent part of a number literal: the byte `e` or `E`, an optional
sign byte, the digits. -/
structure JExponent where
  e : Nat
  sign : Option Nat
  digits : List Nat
deriving DecidableEq, Repr

/-- A number literal of the JSON grammar: an optional minus, the digits of the
integer part, an optional fraction (the digits after the dot), an optional
exponent. -/
structure JNumber where
  neg : Bool
  intDigits : List Nat
  frac : Option (List Nat)
  exp : Option JExponent
deriving DecidableEq, Repr

mutual
/-- A JSON text as a tree that keeps its whitespace (`pad`), so that every
text of the grammar is the rendering of a tree. -/
inductive Json where
  | null : Json
  | bool (b : Bool) : Json
  | number (n : JNumber) : Json
  | string (us : List StrUnit) : Json
  | emptyArray (ws : List Nat) : Json
  | array (elems : Elems) : Json
  | emptyObject (ws : List Nat) : Json
  | object (members : Members) : Json
  | pad (ws1 : List Nat) (v : Json) (ws2 : List Nat) : Json
/-- One or more array elements, separated by commas. -/
inductive Elems where
  | one (v : Json) : Elems
  | cons (v : Json) (rest : Elems) : Elems
/-- One or more object members: whitespace, the key (the units between its
quotes), whitespace, a colon, the value. -/
inductive Members where
  | one (ws1 : List Nat) (key : List StrUnit) (ws2 : List Nat) (v : Json) : Members
  | cons (ws1 : List Nat) (key : List StrUnit) (ws2 : List Nat) (v : Json)
      (rest : Members) : Members
end

/-- The bytes of an optional exponent sign. -/
def expSignBytes (sign : Option Nat) : List Nat :=
  match sign with
  | some s => [s]
  | none => []

/-- The bytes of an exponent part. -/
def JExponent.bytes (x : JExponent) : List Nat :=
  x.e :: (expSignBytes x.sign ++ x.digits)

/-- The bytes of an optional fraction part. -/
def fracBytes (frac : Option (List Nat)) : List Nat :=
  match frac with
  | some f => 46 :: f
  | none => []

/-- The bytes of an optional exponent part. -/
def expBytes (exp : Option JExponent) : List Nat :=
  match exp with
  | some x => x.bytes
  | none => []

/-- The bytes of a number literal. -/
def JNumber.bytes (n : JNumber) : List Nat :=
  signBytes n.neg ++ (n.intDigits ++ (fracBytes n.frac ++ expBytes n.exp))

/-- The bytes of a quoted string. -/
def quoted (us : List StrUnit) : List Nat := 34 :: (strBytes us ++ [34])

mutual
/-- The text of a tree. -/
def Json.render : Json → List Nat
  | .null => [110, 117, 108, 108]
  | .bool true => [116, 114, 117, 101]
  | .bool false => [102, 97, 108, 115, 101]
  | .number n => n.bytes
  | .string us => quoted us
  | .emptyArray ws => 91 :: (ws ++ [93])
  | .array es => 91 :: (es.render ++ [93])
  | .emptyObject ws => 123 :: (ws ++ [125])
  | .object ms => 123 :: (ms.render ++ [125])
  | .pad ws1 v ws2 => ws1 ++ (v.render ++ ws2)
/-- The text of the elements of an array, between the brackets. -/
def Elems.render : Elems → List Nat
  | .one v => v.render
  | .cons v rest => v.render ++ 44 :: rest.render
/-- The text of the members of an object, between the braces. -/
def Members.render : Members → List Nat
  | .one ws1 key ws2 v => ws1 ++ (quoted key ++ (ws2 ++ 58 :: v.render))
  | .cons ws1 key ws2 v rest =>
    ws1 ++ (quoted key ++ (ws2 ++ 58 :: (v.render ++ 44 :: rest.render)))
end

/-- A hexadecimal digit byte. -/
def isHex (c : Nat) : Bool :=
  isDigit c || (decide (65 ≤ c) && decide (c ≤ 70)) || (decide (97 ≤ c) && decide (c ≤ 102))

/-- The units the JSON grammar allows in a string: a byte from 0x20 on other
than `"` and `\`, a two-byte escape, or `\u` and four hexadecimal digits. -/
def StrUnit.valid : StrUnit → Bool
  | .plain c => decide (32 ≤ c) && decide (c < 256) && decide (c ≠ 34) && decide (c ≠ 92)
  | .escape e => simpleEscape e
  | .unicode h1 h2 h3 h4 => isHex h1 && isHex h2 && isHex h3 && isHex h4

/-- The exponent parts of the JSON grammar. -/
def JExponent.valid (x : JExponent) : Bool :=
  (x.e == 101 || x.e == 69) &&
    (x.sign == none || x.sign == some 43 || x.sign == some 45) &&
    !x.digits.isEmpty && x.digits.all isDigit

/-- The number literals of the JSON grammar. -/
def JNumber.valid (n : JNumber) : Bool :=
  canonicalDigits n.intDigits &&
    (match n.frac with
      | some f => !f.isEmpty && f.all isDigit
      | none => true) &&
    (match n.exp with
      | some x => x.valid
      | none => true)

mutual
/-- The trees of the JSON grammar (json.org): every part well formed. -/
def Json.valid : Json → Bool
  | .null => true
  | .bool _ => true
  | .number n => n.valid
  | .string us => us.all StrUnit.valid
  | .emptyArray ws => ws.all isSpace
  | .array es => es.valid
  | .emptyObject ws => ws.all isSpace
  | .object ms => ms.valid
  | .pad ws1 v ws2 => ws1.all isSpace && v.valid && ws2.all isSpace
/-- Every element well formed. -/
def Elems.valid : Elems → Bool
  | .one v => v.valid
  | .cons v rest => v.valid && rest.valid
/-- Every member well formed. -/
def Members.valid : Members → Bool
  | .one ws1 key ws2 v => ws1.all isSpace && key.all StrUnit.valid && ws2.all isSpace && v.valid
  | .cons ws1 key ws2 v rest =>
    ws1.all isSpace && key.all StrUnit.valid && ws2.all isSpace && v.valid && rest.valid
end

/-- Whether a unit is a `\u` escape. -/
def StrUnit.isUnicode : StrUnit → Bool
  | .unicode _ _ _ _ => true
  | _ => false

/-- Whether a number literal has neither fraction nor exponent. -/
def JNumber.isInt (n : JNumber) : Bool := n.frac.isNone && n.exp.isNone

/-- The number literals parseNumber converts: an exponent only after a
fraction and with an explicit sign; an integer that fits in 64 bits; a float
that strconv.ParseFloat converts. -/
def JNumber.supported (parseFloat : List Nat → Option Nat) (n : JNumber) : Bool :=
  (match n.exp with
    | some x => n.frac.isSome && x.sign.isSome
    | none => true) &&
  (if n.isInt then inInt64 (signedValue n.neg n.intDigits) else (parseFloat n.bytes).isSome)

mutual
/-- The trees within the design of the parser: no `\u` escape, numbers that
parseNumber converts, arrays and objects with at least one entry. -/
def Json.supported (parseFloat : List Nat → Option Nat) : Json → Bool
  | .null => true
  | .bool _ => true
  | .number n => n.supported parseFloat
  | .string us => us.all (fun u => !u.isUnicode)
  | .emptyArray _ => false
  | .array es => es.supported parseFloat
  | .emptyObject _ => false
  | .object ms => ms.supported parseFloat
  | .pad _ v _ => v.supported parseFloat
/-- Every element within the design of the parser. -/
def Elems.supported (parseFloat : List Nat → Option Nat) : Elems → Bool
  | .one v => v.supported parseFloat
  | .cons v rest => v.supported parseFloat && rest.supported parseFloat
/-- Every member within the design of the parser. -/
def Members.supported (parseFloat : List Nat → Option Nat) : Members → Bool
  | .one _ key _ v => key.all (fun u => !u.isUnicode) && v.supported parseFloat
  | .cons _ key _ v rest =>
    key.all (fun u => !u.isUnicode) && v.supported parseFloat && rest.supported parseFloat
end

/-- The value of a number literal: the integer when there is neither fraction
nor exponent, else the float strconv.ParseFloat gives for the literal. -/
def JNumber.refValue (parseFloat : List Nat → Option Nat) (n : JNumber) : Value :=
  if n.isInt then .int (signedValue n.neg n.intDigits)
  else .float ((parseFloat n.bytes).getD 0)

mutual
/-- The value a decoder gives a tree: strings and keys are the raw text
between their quotes, arrays keep the order of their elements, and in an
object a later member overwrites an earlier one of the same key. -/
def Json.refValue (parseFloat : List Nat → Option Nat) : Json → Value
  | .null => .null
  | .bool b => .bool b
  | .number n => n.refValue parseFloat
  | .string us => .str (strBytes us)
  | .emptyArray _ => .arr []
  | .array es => .arr (es.refValues parseFloat)
  | .emptyObject _ => .obj []
  | .object ms => .obj (ms.refBindings parseFloat [])
  | .pad _ v _ => v.refValue parseFloat
/-- The values of the elements, in order. -/
def Elems.refValues (parseFloat : List Nat → Option Nat) : Elems → List Value
  | .one v => [v.refValue parseFloat]
  | .cons v rest => v.refValue parseFloat :: rest.refValues parseFloat
/-- The map of the members, added in order to `acc`. -/
def Members.refBindings (parseFloat : List Nat → Option Nat) :
    Members → List (List Nat × Value) → List (List Nat × Value)
  | .one _ key _ v, acc => mapSet acc (strBytes key) (v.refValue parseFloat)
  | .cons _ key _ v rest, acc =>
    rest.refBindings parseFloat (mapSet acc (strBytes key) (v.refValue parseFloat))
end

/-- The JSON text `1e5`. -/
def oneE5 : Json := .number ⟨false, [49], none, some ⟨101, none, [53]⟩⟩

/-- A sample text: ` {"a": [1, -2.5e+3, "x\n", true, null], "a" :false} `. -/
def sampleJson : Json :=
  .pad [32]
    (.object
      (.cons [] [.plain 97] [] (.pad [32]
          (.array
            (.cons (.number ⟨false, [49], none, none⟩)
              (.cons (.pad [32] (.number ⟨true, [50], some [53], some ⟨101, some 43, [51]⟩⟩) [])
                (.cons (.pad [32] (.string [.plain 120, .escape 110]) [])
                  (.cons (.pad [32] (.bool true) [])
                    (.one (.pad [32] .null [])))))))
          [])
        (.one [32] [.plain 97] [32] (.bool false))))
    [32]

/-- A stand-in for strconv.ParseFloat that converts every token to the bits 0. -/
def sampleParseFloat : List Nat → Option Nat := fun _ => some 0

/-- An array element as written: whitespace, an integer in canonical decimal
text, whitespace. -/
structure IntElem where
  ws1 : List Nat
  n : Int
  ws2 : List Nat
deriving DecidableEq, Repr

/-- The bytes of an element. -/
def IntElem.bytes (e : IntElem) : List Nat := e.ws1 ++ (decimalText e.n ++ e.ws2)

/-- The whitespace of an element is whitespace and its integer fits in 64 bits. -/
def IntElem.wellFormed (e : IntElem) : Bool :=
  e.ws1.all isSpace && e.ws2.all isSpace && inInt64 e.n

/-- The elements `e, es` separated by commas. -/
def intElemsText : IntElem → List IntElem → List Nat
  | e, [] => e.bytes
  | e, e2 :: es => e.bytes ++ 44 :: intElemsText e2 es

/-- The text `[e_1,...,e_k]` of a non-empty array of integers. -/
def intArrayText (e : IntElem) (es : List IntElem) : List Nat :=
  91 :: (intElemsText e es ++ [93])

/-- A key without `"`, `\` and NUL bytes. -/
def plainKey (k : List Nat) : Bool :=
  k.all (fun c => decide (c ≠ 34) && decide (c ≠ 92) && decide (c ≠ 0))

/-- The text `"k":n` of a member. -/
def intMemberText (m : List Nat × Int) : List Nat :=
  34 :: (m.1 ++ 34 :: 58 :: decimalText m.2)

/-- The members `m, ms` separated by commas. -/
def intMembersText : List Nat × Int → List (List Nat × Int) → List Nat
  | m, [] => intMemberText m
  | m, m2 :: ms => intMemberText m ++ 44 :: intMembersText m2 ms

/-- The text `{"k_1":n_1,...,"k_m":n_m}` of a non-empty object of integers. -/
def intObjectText (m : List Nat × Int) (ms : List (List Nat × Int)) : List Nat :=
  123 :: (intMembersText m ms ++ [125])

/-- The value of the last member of the list whose key is `k`. -/
def lastValue : List (List Nat × Int) → List Nat → Option Int
  | [], _ => none
  | m :: rest, k =>
    match lastValue rest k with
    | some v => some v
    | none => if m.1 = k then some m.2 else none

/-- The map the members give when written one after the other into `acc`. -/
def intBindings (acc : List (List Nat × Value)) (ms : List (List Nat × Int)) :
    List (List Nat × Value) :=
  ms.foldl (fun a m => mapSet a m.1 (.int m.2)) acc

/-- Sequencing of two routines: the second runs on the value and the lexer the
first returned; an error, a panic or exhausted fuel ends the sequence. -/
def Res.bind {α β : Type} (r : Res α) (k : α → Lexer → Res β) : Res β :=
  match r with
  | .ok v l => k v l
  | .err e l => .err e l
  | .panic p => .panic p
  | .fuelOut => .fuelOut

/-- The lexer `l1` is `l` moved on by at least `n` bytes: same input, and a
position within the input. -/
def Adv (n : Nat) (l l1 : Lexer) : Prop :=
  l1.input = l.input ∧ l.pos + n ≤ l1.pos ∧ l1.pos ≤ l.input.length

/-- A result is fine for the start lexer `l`: a returned lexer (with a value or
an error) is `l` moved on within the input, and the fuel runs out only if the
condition `T` on the fuel is false. -/
def Res.Fine {α : Type} (T : Prop) (l : Lexer) : Res α → Prop
  | .ok _ l1 => Adv 0 l l1
  | .err _ l1 => Adv 0 l l1
  | .panic _ => True
  | .fuelOut => ¬ T

/-- The cursor invariant across a routine: when the routine returns (a value
or an error), the lexer it leaves has the same input, a position that did not
decrease, and a position within the input. -/
def Res.Keeps {α : Type} (l : Lexer) : Res α → Prop
  | .ok _ l1 => l1.input = l.input ∧ l.pos ≤ l1.pos ∧ l1.pos ≤ l1.input.length
  | .err _ l1 => l1.input = l.input ∧ l.pos ≤ l1.pos ∧ l1.pos ≤ l1.input.length
  | .panic _ => True
  | .fuelOut => True

/-- The cursor invariant across a routine can be computed on a result. -/
instance Res.decKeeps {α : Type} (l : Lexer) (r : Res α) : Decidable (Res.Keeps l r) := by
  cases r <;> unfold Res.Keeps <;> infer_instance

/-! ## Lemmas -/

theorem cursor_nil (t : List Nat) : NewLexer t = cursor [] t := rfl

theorem cursor_snoc (pre : List Nat) (c : Nat) (rest : List Nat) :
    cursor (pre ++ [c]) rest = ⟨pre ++ c :: rest, pre.length + 1⟩ := by
  simp [cursor]

theorem cursor_append (pre a rest : List Nat) :
    cursor (pre ++ a) rest = ⟨pre ++ (a ++ rest), pre.length + a.length⟩ := by
  simp [cursor]

theorem peek_cursor (pre rest : List Nat) : (cursor pre rest).PeekChar = rest.headD 0 := by
  cases rest with
  | nil => simp [cursor, Lexer.PeekChar]
  | cons c r => simp [cursor, Lexer.PeekChar, List.getD, List.getElem_append_right]

theorem read_cursor_nil (pre : List Nat) : (cursor pre []).ReadChar = .panic .readAfterEOF := by
  simp [cursor, Lexer.ReadChar]

theorem read_cursor (pre : List Nat) (c : Nat) (rest : List Nat) :
    (cursor pre (c :: rest)).ReadChar = .ok (rest.headD 0) (cursor (pre ++ [c]) rest) := by
  have h := peek_cursor (pre ++ [c]) rest
  rw [cursor_snoc] at h ⊢
  simp [cursor, Lexer.ReadChar, h]

theorem range_cursor (a tok b : List Nat) (pos : Nat) :
    (Lexer.mk (a ++ (tok ++ b)) pos).Range a.length (a.length + tok.length) = some tok := by
  have h : a.length + tok.length = (a ++ tok).length := by simp
  have h2 : (a ++ (tok ++ b)).take (a.length + tok.length) = a ++ tok := by
    rw [h, ← List.append_assoc, List.take_left]
  simp [Lexer.Range, h2]

theorem isSpace_zero : isSpace 0 = false := by decide

theorem skipLoop_run (ws : List Nat) (hws : ∀ c ∈ ws, isSpace c = true) (rest : List Nat)
    (hrest : isSpace (rest.headD 0) = false) :
    ∀ (fuel : Nat) (pre : List Nat), ws.length < fuel →
      skipLoop fuel ((ws ++ rest).headD 0) (cursor pre (ws ++ rest)) =
        .ok () (cursor (pre ++ ws) rest) := by
  induction ws with
  | nil =>
    intro fuel pre hf
    cases fuel with
    | zero => simp at hf
    | succ f => simp [skipLoop, hrest, -List.headD_eq_head?_getD]
  | cons c ws ih =>
    intro fuel pre hf
    cases fuel with
    | zero => simp at hf
    | succ f =>
      have hc : isSpace c = true := hws c (by simp)
      have ih2 := ih (fun d hd => hws d (by simp [hd])) f (pre ++ [c]) (by simpa using hf)
      simp only [List.cons_append, List.headD_cons, skipLoop, hc, if_true, read_cursor]
      rw [ih2]
      simp

theorem skip_cursor (pre ws rest : List Nat) (hws : ∀ c ∈ ws, isSpace c = true)
    (hrest : isSpace (rest.headD 0) = false) :
    (cursor pre (ws ++ rest)).SkipWhitespaces = .ok () (cursor (pre ++ ws) rest) := by
  unfold Lexer.SkipWhitespaces
  rw [peek_cursor]
  apply skipLoop_run ws hws rest hrest
  simp [cursor]
  omega

theorem skip_cursor_none (pre rest : List Nat) (hrest : isSpace (rest.headD 0) = false) :
    (cursor pre rest).SkipWhitespaces = .ok () (cursor pre rest) := by
  simpa using skip_cursor pre [] rest (by simp) hrest

theorem simpleEscape_spec {e : Nat} (h : simpleEscape e = true) :
    escapeChars e = true ∧ e ≠ 117 := by
  simp [simpleEscape] at h
  rcases h with h | h | h | h | h | h | h | h <;> subst h <;> decide

theorem parseStringLoop_units (us : List StrUnit) (hus : ∀ u ∈ us, u.accepted = true)
    (rest : List Nat) :
    ∀ (fuel : Nat) (pre : List Nat) (stop : Nat), (strBytes us).length < fuel →
      parseStringLoop fuel ((strBytes us ++ 34 :: rest).headD 0) stop
          (cursor pre (strBytes us ++ 34 :: rest)) =
        .ok (true, stop + (strBytes us).length) (cursor (pre ++ strBytes us) (34 :: rest)) := by
  induction us with
  | nil =>
    intro fuel pre stop hf
    cases fuel with
    | zero => simp at hf
    | succ f => simp [strBytes, parseStringLoop]
  | cons u us ih =>
    intro fuel pre stop hf
    have hu : u.accepted = true := hus u (by simp)
    have ih1 := ih (fun v hv => hus v (by simp [hv]))
    cases fuel with
    | zero => simp at hf
    | succ f =>
      cases u with
      | plain c =>
        simp [StrUnit.accepted] at hu
        obtain ⟨⟨h1, h2⟩, h3⟩ := hu
        have ih2 := ih1 f (pre ++ [c]) (stop + 1) (by simp [strBytes, StrUnit.bytes] at hf; omega)
        simp only [strBytes, StrUnit.bytes, List.cons_append, List.nil_append, List.headD_cons,
          parseStringLoop, h1, h2, h3, if_false, read_cursor]
        rw [ih2]
        simp [Nat.add_assoc, Nat.add_comm 1]
      | escape e =>
        simp [StrUnit.accepted] at hu
        obtain ⟨he1, he2⟩ := simpleEscape_spec hu
        have ih2 := ih1 f (pre ++ [92] ++ [e]) (stop + 1 + 1)
          (by simp [strBytes, StrUnit.bytes] at hf; omega)
        simp only [strBytes, StrUnit.bytes, List.cons_append, List.nil_append, List.headD_cons,
          parseStringLoop, read_cursor]
        simp only [he1, he2]
        simp only [Bool.not_true, if_false, if_true]
        simp +decide only [if_false]
        rw [ih2]
        simp [Nat.add_assoc, Nat.add_comm 2]
      | unicode h1 h2 h3 h4 => simp [StrUnit.accepted] at hu

theorem parseString_units (us : List StrUnit) (hus : ∀ u ∈ us, u.accepted = true)
    (pre rest : List Nat) :
    parseString (cursor pre (34 :: (strBytes us ++ 34 :: rest))) =
      .ok (strBytes us) (cursor (pre ++ 34 :: (strBytes us ++ [34])) rest) := by
  unfold parseString
  rw [read_cursor]
  simp only [peek_cursor]
  rw [parseStringLoop_units us hus rest _ _ _ (by simp [cursor]; omega)]
  simp only [Bool.not_true, if_false, read_cursor]
  have hr := range_cursor (pre ++ [34]) (strBytes us) (34 :: rest)
    ((pre ++ [34] ++ strBytes us ++ [34]).length)
  simp [cursor, Lexer.Position] at hr ⊢
  simp [hr]

theorem parseFuel_pos (l : Lexer) : parseFuel l = (3 * l.input.length) + 1 := rfl

theorem isSpace_quote : isSpace 34 = false := by decide

theorem parseValue_string (pf : List Nat → Option Nat) (fuel : Nat) (pre ws1 : List Nat)
    (us : List StrUnit) (ws2 post : List Nat)
    (hws1 : ∀ c ∈ ws1, isSpace c = true) (hus : ∀ u ∈ us, u.accepted = true)
    (hws2 : ∀ c ∈ ws2, isSpace c = true) (hpost : isSpace (post.headD 0) = false) :
    parseValue pf (fuel + 1) (cursor pre (ws1 ++ 34 :: (strBytes us ++ 34 :: (ws2 ++ post)))) =
      .ok (.str (strBytes us)) (cursor (pre ++ ws1 ++ 34 :: (strBytes us ++ [34]) ++ ws2) post) := by
  unfold parseValue
  rw [skip_cursor pre ws1 _ hws1 (by simp [isSpace_quote])]
  simp only [peek_cursor, List.headD_cons]
  simp +decide only [if_false, if_true]
  rw [parseString_units us hus]
  simp only [skipAfter]
  rw [skip_cursor _ ws2 post hws2 hpost]

theorem hasClosingQuote_plain (c : Nat) (s : List Nat) (h1 : c ≠ 34) (h2 : c ≠ 92) :
    hasClosingQuote (c :: s) = hasClosingQuote s := by
  rw [hasClosingQuote.eq_def]; simp [h1, h2]

theorem hasClosingQuote_quote (s : List Nat) : hasClosingQuote (34 :: s) = true := by
  rw [hasClosingQuote.eq_def]; simp

theorem hasClosingQuote_escape (e : Nat) (s : List Nat) :
    hasClosingQuote (92 :: e :: s) = hasClosingQuote s := by
  rw [hasClosingQuote.eq_def]; simp

theorem hasBadEscape_plain (c : Nat) (s : List Nat) (h1 : c ≠ 34) (h2 : c ≠ 92) :
    hasBadEscape (c :: s) = hasBadEscape s := by
  rw [hasBadEscape.eq_def]; simp [h1, h2]

theorem hasBadEscape_quote (s : List Nat) : hasBadEscape (34 :: s) = false := by
  rw [hasBadEscape.eq_def]; simp

theorem hasBadEscape_escape (e : Nat) (s : List Nat) :
    hasBadEscape (92 :: e :: s) = (!simpleEscape e || hasBadEscape s) := by
  rw [hasBadEscape.eq_def]; simp

theorem escape_cases (e : Nat) :
    escapeChars e = false ∨ e = 117 ∨ simpleEscape e = true := by
  by_cases h : simpleEscape e = true
  · exact Or.inr (Or.inr h)
  · by_cases h2 : e = 117
    · exact Or.inr (Or.inl h2)
    · left
      simp [simpleEscape] at h
      simp [escapeChars, h, h2]

theorem parseStringLoop_invalid :
    ∀ (n : Nat) (s : List Nat), s.length ≤ n → ∀ (fuel : Nat) (pre : List Nat) (stop : Nat),
      s.length < fuel → (hasBadEscape s = true ∨ hasClosingQuote s = false) →
      (∃ e l, parseStringLoop fuel (s.headD 0) stop (cursor pre s) = .err e l ∧
          e.kind = .InvalidString) ∨
      (∃ stop1 l, parseStringLoop fuel (s.headD 0) stop (cursor pre s) = .ok (false, stop1) l) := by
  intro n
  induction n with
  | zero =>
    intro s hs fuel pre stop hf _
    have : s = [] := List.length_eq_zero.mp (Nat.le_zero.mp hs)
    subst this
    cases fuel with
    | zero => simp at hf
    | succ f => right; exact ⟨stop, cursor pre [], by simp [parseStringLoop]⟩
  | succ n ih =>
    intro s hs fuel pre stop hf h
    cases fuel with
    | zero => simp at hf
    | succ f =>
      cases s with
      | nil => right; exact ⟨stop, cursor pre [], by simp [parseStringLoop]⟩
      | cons c t =>
        by_cases h34 : c = 34
        · subst h34; simp [hasBadEscape_quote, hasClosingQuote_quote] at h
        by_cases h0 : c = 0
        · subst h0; right; exact ⟨stop, cursor pre (0 :: t), by simp [parseStringLoop]⟩
        by_cases h92 : c = 92
        · subst h92
          cases t with
          | nil =>
            left
            refine ⟨.stringUnknownEscape 0, cursor (pre ++ [92]) [], ?_, rfl⟩
            simp only [List.headD_cons, parseStringLoop, read_cursor]
            simp +decide
          | cons e t1 =>
            rcases escape_cases e with he | he | he
            · left
              refine ⟨.stringUnknownEscape e, cursor (pre ++ [92]) (e :: t1), ?_, rfl⟩
              simp only [List.headD_cons, parseStringLoop, read_cursor]
              simp +decide [he]
            · left
              subst he
              refine ⟨.stringUnicodeEscape, cursor (pre ++ [92]) (117 :: t1), ?_, rfl⟩
              simp only [List.headD_cons, parseStringLoop, read_cursor]
              simp +decide
            · obtain ⟨he1, he2⟩ := simpleEscape_spec he
              have h1 : hasBadEscape t1 = true ∨ hasClosingQuote t1 = false := by
                simpa [hasBadEscape_escape, hasClosingQuote_escape, he] using h
              have ih1 := ih t1 (by simp at hs; omega) f (pre ++ [92] ++ [e]) (stop + 1 + 1)
                (by simp at hf; omega) h1
              simp only [List.headD_cons, parseStringLoop, read_cursor]
              simp +decide only [he1, he2, Bool.not_true, if_false]
              exact ih1
        · have h1 : hasBadEscape t = true ∨ hasClosingQuote t = false := by
            simpa [hasBadEscape_plain c t h34 h92, hasClosingQuote_plain c t h34 h92] using h
          have ih1 := ih t (by simp at hs; omega) f (pre ++ [c]) (stop + 1)
            (by simp at hf; omega) h1
          simp only [List.headD_cons, parseStringLoop, read_cursor, h34, h0, h92, if_false]
          exact ih1

theorem parseString_invalid (s pre : List Nat)
    (h : hasBadEscape s = true ∨ hasClosingQuote s = false) :
    ∃ e l, parseString (cursor pre (34 :: s)) = .err e l ∧ e.kind = .InvalidString := by
  unfold parseString
  rw [read_cursor]
  simp only [peek_cursor]
  rcases parseStringLoop_invalid s.length s (Nat.le_refl _)
      ((cursor (pre ++ [34]) s).input.length + 1) (pre ++ [34])
      (cursor (pre ++ [34]) s).Position (by simp [cursor]; omega) h with
    ⟨e, l, h1, h2⟩ | ⟨stop1, l, h1⟩
  · rw [h1]; exact ⟨e, l, rfl, h2⟩
  · rw [h1]; exact ⟨.stringNoClosingQuote, l, by simp, rfl⟩

theorem isSpace_peek_lt (l : Lexer) (h : isSpace l.PeekChar = true) : l.pos < l.input.length := by
  by_contra hc
  have : l.PeekChar = 0 := by simp [Lexer.PeekChar]; omega
  rw [this] at h
  exact absurd h (by decide)

theorem skipLoop_total :
    ∀ (fuel : Nat) (l : Lexer), l.input.length - l.pos < fuel →
      ∃ l1, skipLoop fuel l.PeekChar l = .ok () l1 ∧ l1.input = l.input ∧ l.pos ≤ l1.pos ∧
        isSpace l1.PeekChar = false := by
  intro fuel
  induction fuel with
  | zero => intro l h; omega
  | succ f ih =>
    intro l h
    by_cases hs : isSpace l.PeekChar = true
    · have hlt := isSpace_peek_lt l hs
      obtain ⟨l1, h1, h2, h3, h4⟩ := ih ⟨l.input, l.pos + 1⟩ (by simp; omega)
      refine ⟨l1, ?_, h2, by simp at h3; omega, h4⟩
      simp only [skipLoop, hs, if_true, Lexer.ReadChar]
      rw [if_neg (by omega)]
      exact h1
    · refine ⟨l, ?_, rfl, Nat.le_refl _, by simpa using hs⟩
      simp [skipLoop, hs]

theorem skip_total (l : Lexer) :
    ∃ l1, l.SkipWhitespaces = .ok () l1 ∧ l1.input = l.input ∧ l.pos ≤ l1.pos ∧
      isSpace l1.PeekChar = false :=
  skipLoop_total (l.input.length + 1) l (by omega)

theorem skipAfter_err (e : Err) (l : Lexer) : ∃ l1, skipAfter (.err e l) = .err e l1 := by
  obtain ⟨l1, h1, _⟩ := skip_total l
  exact ⟨l1, by simp [skipAfter, h1]⟩

theorem parseNumberLoop_digits (fr ex : Bool) (tail : List Nat) (ds : List Nat)
    (hds : ∀ d ∈ ds, isDigit d = true) :
    ∀ (fuel : Nat) (pre : List Nat) (x stop : Nat), ds.length ≤ fuel →
      ∃ pre1 z, pre1 ++ [z] = pre ++ x :: ds ∧
        parseNumberLoop fuel stop fr ex (cursor pre (x :: (ds ++ tail))) =
          parseNumberLoop (fuel - ds.length) (stop + ds.length) fr ex (cursor pre1 (z :: tail)) := by
  induction ds with
  | nil => intro fuel pre x stop _; exact ⟨pre, x, rfl, by simp⟩
  | cons d ds ih =>
    intro fuel pre x stop hf
    cases fuel with
    | zero => simp at hf
    | succ f =>
      have hd : isDigit d = true := hds d (by simp)
      obtain ⟨pre1, z, h1, h2⟩ := ih (fun c hc => hds c (by simp [hc])) f (pre ++ [x]) d (stop + 1)
        (by simpa using hf)
      refine ⟨pre1, z, by simpa using h1, ?_⟩
      simp only [List.cons_append, parseNumberLoop, read_cursor, List.headD_cons, hd, if_true]
      rw [h2]
      simp [Nat.add_assoc, Nat.add_comm 1]

theorem parseNumberLoop_end (fr ex : Bool) (f stop : Nat) (p : List Nat) (z : Nat) (tail : List Nat)
    (ht : endsNumber (tail.headD 0) = true) :
    parseNumberLoop (f + 1) stop fr ex (cursor p (z :: tail)) =
      .ok (stop, fr) (cursor (p ++ [z]) tail) := by
  simp [endsNumber, -List.headD_eq_head?_getD] at ht
  obtain ⟨⟨⟨h1, h2⟩, h3⟩, h4⟩ := ht
  simp [parseNumberLoop, read_cursor, h1, h2, h3, h4, -List.headD_eq_head?_getD]

theorem parseNumberLoop_dot (ex : Bool) (f stop : Nat) (p : List Nat) (z y : Nat) (tail : List Nat)
    (hy : isDigit y = true) :
    parseNumberLoop (f + 1) stop false ex (cursor p (z :: 46 :: y :: tail)) =
      parseNumberLoop f (stop + 1 + 1) true ex (cursor (p ++ [z] ++ [46]) (y :: tail)) := by
  have h46 : isDigit 46 = false := by decide
  simp [parseNumberLoop, read_cursor, hy, h46]

theorem parseNumberLoop_exp (f stop : Nat) (p : List Nat) (z e sg y : Nat) (tail : List Nat)
    (he : e = 101 ∨ e = 69) (hsg : sg = 45 ∨ sg = 43) (hy : isDigit y = true) :
    parseNumberLoop (f + 1) stop true false (cursor p (z :: e :: sg :: y :: tail)) =
      parseNumberLoop f (stop + 1 + 1 + 1) true true (cursor (p ++ [z] ++ [e] ++ [sg]) (y :: tail)) := by
  have h1 : isDigit e = false := by rcases he with h | h <;> subst h <;> decide
  have h2 : e ≠ 46 := by rcases he with h | h <;> subst h <;> decide
  have h3 : ¬ (sg ≠ 45 ∧ sg ≠ 43) := by rcases hsg with h | h <;> subst h <;> decide
  simp only [parseNumberLoop, read_cursor, List.headD_cons, h1, h2, he, h3, hy]
  simp

theorem parseNumberLoop_expBeforeFraction (ex : Bool) (f stop : Nat) (p : List Nat) (z e : Nat)
    (rest : List Nat) (he : e = 101 ∨ e = 69) :
    parseNumberLoop (f + 1) stop false ex (cursor p (z :: e :: rest)) =
      .err .numberExponentBeforeFraction (cursor (p ++ [z]) (e :: rest)) := by
  have h1 : isDigit e = false := by rcases he with h | h <;> subst h <;> decide
  have h2 : e ≠ 46 := by rcases he with h | h <;> subst h <;> decide
  simp only [parseNumberLoop, read_cursor, List.headD_cons, h1, h2, he]
  simp

theorem isDigit_range {x : Nat} (h : isDigit x = true) : 48 ≤ x ∧ x ≤ 57 := by
  simpa [isDigit] using h

theorem numStart_not_space {x : Nat} (hx : x = 45 ∨ isDigit x = true) : isSpace x = false := by
  rcases hx with h | h
  · subst h; decide
  · have := isDigit_range h
    simp [isSpace]; omega

theorem parseValue_number (pf : List Nat → Option Nat) (fuel : Nat) (pre ws1 : List Nat) (x : Nat)
    (rest : List Nat) (hws1 : ∀ c ∈ ws1, isSpace c = true) (hx : x = 45 ∨ isDigit x = true) :
    parseValue pf (fuel + 1) (cursor pre (ws1 ++ x :: rest)) =
      skipAfter (parseNumber pf (cursor (pre ++ ws1) (x :: rest))) := by
  unfold parseValue
  rw [skip_cursor pre ws1 _ hws1 (by simpa using numStart_not_space hx)]
  simp only [peek_cursor, List.headD_cons]
  have h : x ≠ 0 ∧ x ≠ 34 ∧ x ≠ 91 ∧ x ≠ 123 ∧ x ≠ 116 ∧ x ≠ 102 ∧ x ≠ 110 := by
    rcases hx with h | h
    · subst h; decide
    · have := isDigit_range h; omega
  obtain ⟨h0, h1, h2, h3, h4, h5, h6⟩ := h
  simp only [h0, h1, h2, h3, h4, h5, h6, if_false]
  rw [if_pos hx]

theorem parseNumber_expBeforeFraction (pf : List Nat → Option Nat) (pre : List Nat) (x : Nat)
    (ds : List Nat) (e : Nat) (rest : List Nat) (hds : ∀ d ∈ ds, isDigit d = true)
    (he : e = 101 ∨ e = 69) :
    parseNumber pf (cursor pre (x :: (ds ++ e :: rest))) =
      .err .numberExponentBeforeFraction (cursor (pre ++ x :: ds) (e :: rest)) := by
  unfold parseNumber
  obtain ⟨pre1, z, h1, h2⟩ := parseNumberLoop_digits false false (e :: rest) ds hds
    ((cursor pre (x :: (ds ++ e :: rest))).input.length + 1) pre x
    ((cursor pre (x :: (ds ++ e :: rest))).Position + 1) (by simp [cursor]; omega)
  simp only [h2]
  obtain ⟨f, hf⟩ : ∃ f, (cursor pre (x :: (ds ++ e :: rest))).input.length + 1 - ds.length = f + 1 :=
    ⟨(cursor pre (x :: (ds ++ e :: rest))).input.length - ds.length, by simp [cursor]; omega⟩
  rw [hf, parseNumberLoop_expBeforeFraction false f _ pre1 z e rest he, h1]

theorem Parse_cursor (pf : List Nat → Option Nat) (t : List Nat) :
    Parse pf (cursor [] t) = parseValue pf (3 * t.length + 1) (cursor [] t) := by
  simp [Parse, parseFuel, cursor]

theorem parseNumberLoop_int (fr ex : Bool) (fuel : Nat) (pre : List Nat) (x : Nat) (ds tail : List Nat)
    (stop : Nat) (hds : ∀ d ∈ ds, isDigit d = true) (ht : endsNumber (tail.headD 0) = true)
    (hf : ds.length < fuel) :
    parseNumberLoop fuel stop fr ex (cursor pre (x :: (ds ++ tail))) =
      .ok (stop + ds.length, fr) (cursor (pre ++ x :: ds) tail) := by
  obtain ⟨pre1, z, h1, h2⟩ := parseNumberLoop_digits fr ex tail ds hds fuel pre x stop (by omega)
  obtain ⟨f, hf1⟩ : ∃ f, fuel - ds.length = f + 1 := ⟨fuel - ds.length - 1, by omega⟩
  rw [h2, hf1, parseNumberLoop_end fr ex f _ pre1 z tail ht, h1]

theorem parseNumber_of_loop (pf : List Nat → Option Nat) (pre tok tail : List Nat) (fr : Bool)
    (h : parseNumberLoop ((cursor pre (tok ++ tail)).input.length + 1)
        ((cursor pre (tok ++ tail)).Position + 1) false false (cursor pre (tok ++ tail)) =
      .ok (pre.length + tok.length, fr) (cursor (pre ++ tok) tail)) :
    parseNumber pf (cursor pre (tok ++ tail)) =
      convertNumber pf tok fr (cursor (pre ++ tok) tail) := by
  unfold parseNumber
  simp only [h]
  have hr := range_cursor pre tok tail (pre ++ tok).length
  simp only [cursor, Lexer.Position, List.append_assoc] at hr ⊢
  rw [hr]

theorem parseNumber_int (pf : List Nat → Option Nat) (pre : List Nat) (x : Nat) (ds tail : List Nat)
    (hds : ∀ d ∈ ds, isDigit d = true) (ht : endsNumber (tail.headD 0) = true) :
    parseNumber pf (cursor pre (x :: ds ++ tail)) =
      convertNumber pf (x :: ds) false (cursor (pre ++ x :: ds) tail) := by
  apply parseNumber_of_loop
  have h := parseNumberLoop_int false false ((cursor pre (x :: ds ++ tail)).input.length + 1)
    pre x ds tail ((cursor pre (x :: ds ++ tail)).Position + 1) hds ht (by simp [cursor]; omega)
  simp only [List.cons_append] at h ⊢
  rw [h]
  simp [cursor, Lexer.Position, Nat.add_assoc, Nat.add_comm 1]

theorem canonicalDigits_cons {d : Nat} {rest : List Nat} (h : canonicalDigits (d :: rest) = true) :
    isDigit d = true ∧ (∀ c ∈ rest, isDigit c = true) ∧ (rest = [] ∨ d ≠ 48) := by
  simp [canonicalDigits] at h
  obtain ⟨⟨h1, h2⟩, h3⟩ := h
  exact ⟨h1, h2, h3⟩

theorem atoi_digits (d : Nat) (rest : List Nat) (hd : isDigit d = true)
    (hr : ∀ c ∈ rest, isDigit c = true) (neg : Bool) :
    atoi (signBytes neg ++ d :: rest) =
      if inInt64 (signedValue neg (d :: rest)) then .value (signedValue neg (d :: rest))
      else .rangeError := by
  have hd1 := isDigit_range hd
  have hall : (d :: rest).all isDigit = true := by
    simp [hd]; exact hr
  cases neg with
  | true =>
    simp only [signBytes, if_true, List.singleton_append, atoi, List.head?_cons, List.tail_cons,
      signedValue, inInt64]
    simp [hall, hd, -List.all_cons, -List.all_eq_true]
    generalize digitsValue (d :: rest) = m
    split_ifs <;> first | rfl | (exfalso; omega)
  | false =>
    have h45 : d ≠ 45 := by omega
    have h43 : d ≠ 43 := by omega
    simp only [signBytes, List.nil_append, atoi, List.head?_cons, List.tail_cons,
      signedValue, inInt64]
    simp [hall, hd, h45, h43, -List.all_cons, -List.all_eq_true]
    generalize digitsValue (d :: rest) = m
    split_ifs <;> first | rfl | (exfalso; omega)

theorem convertNumber_int (pf : List Nat → Option Nat) (neg : Bool) (ds : List Nat)
    (hc : canonicalDigits ds = true) (l : Lexer) :
    convertNumber pf (signBytes neg ++ ds) false l =
      intResult (signBytes neg ++ ds) (signedValue neg ds) l := by
  cases ds with
  | nil => simp [canonicalDigits] at hc
  | cons d rest =>
    obtain ⟨hd, hr, hz⟩ := canonicalDigits_cons hc
    have hd1 := isDigit_range hd
    have ha := atoi_digits d rest hd hr neg
    have hzero : ∀ (head : Nat) (num : List Nat), num.getD head 0 = d → num.length = head + 1 + rest.length →
        ¬ (num.length > head + 1 ∧ num.getD head 0 = 48 ∧ isDigit (num.getD (head + 1) 0) = true) := by
      intro head num h1 h2 h3
      rcases hz with h | h
      · subst h; simp at h2; omega
      · exact h (h1 ▸ h3.2.1)
    cases neg with
    | true =>
      have h0 := hzero 1 (45 :: d :: rest) (by simp) (by simp; omega)
      simp only [signBytes, if_true, List.singleton_append] at ha h0 ⊢
      simp only [convertNumber, if_true, Nat.reduceAdd]
      rw [if_neg h0, ha]
      simp only [Bool.false_eq_true, if_false, intResult]
      split_ifs <;> rfl
    | false =>
      have h0 := hzero 0 (d :: rest) (by simp) (by simp; omega)
      have h45 : d ≠ 45 := by omega
      simp only [signBytes, Bool.false_eq_true, if_false, List.nil_append] at ha h0 ⊢
      simp only [convertNumber, h45, if_false, Nat.reduceAdd] at h0 ⊢
      rw [if_neg h0, ha]
      simp only [Bool.false_eq_true, if_false, intResult]
      split_ifs <;> rfl

theorem space_endsNumber {c : Nat} (h : isSpace c = true) : endsNumber c = true := by
  simp [isSpace] at h
  rcases h with ((h | h) | h) | h <;> subst h <;> decide

theorem endsNumber_append (ws2 post : List Nat) (hws2 : ∀ c ∈ ws2, isSpace c = true)
    (hp : endsNumber (post.headD 0) = true) : endsNumber ((ws2 ++ post).headD 0) = true := by
  cases ws2 with
  | nil => simpa using hp
  | cons c r => simpa using space_endsNumber (hws2 c (by simp))

theorem skipAfter_intResult (tok : List Nat) (v : Int) (l l1 : Lexer)
    (h : l.SkipWhitespaces = .ok () l1) :
    skipAfter (intResult tok v l) = intResult tok v l1 := by
  unfold intResult
  split_ifs <;> simp [skipAfter, h]

theorem intToken_split (neg : Bool) (ds : List Nat) (hc : canonicalDigits ds = true) :
    ∃ x r, signBytes neg ++ ds = x :: r ∧ (x = 45 ∨ isDigit x = true) ∧
      ∀ d ∈ r, isDigit d = true := by
  cases ds with
  | nil => simp [canonicalDigits] at hc
  | cons d rest =>
    obtain ⟨hd, hr, _⟩ := canonicalDigits_cons hc
    cases neg with
    | true =>
      refine ⟨45, d :: rest, by simp [signBytes], Or.inl rfl, ?_⟩
      intro c hcm
      rcases List.mem_cons.mp hcm with h | h
      · subst h; exact hd
      · exact hr c h
    | false => exact ⟨d, rest, by simp [signBytes], Or.inr hd, hr⟩

theorem parseValue_int (pf : List Nat → Option Nat) (fuel : Nat) (pre ws1 : List Nat) (neg : Bool)
    (ds ws2 post : List Nat) (hws1 : ∀ c ∈ ws1, isSpace c = true)
    (hc : canonicalDigits ds = true) (hws2 : ∀ c ∈ ws2, isSpace c = true)
    (hp : endsNumber (post.headD 0) = true) (hpost : isSpace (post.headD 0) = false) :
    parseValue pf (fuel + 1) (cursor pre (ws1 ++ ((signBytes neg ++ ds) ++ (ws2 ++ post)))) =
      intResult (signBytes neg ++ ds) (signedValue neg ds)
        (cursor (pre ++ ws1 ++ (signBytes neg ++ ds) ++ ws2) post) := by
  obtain ⟨x, r, h1, hx, hr⟩ := intToken_split neg ds hc
  have h2 := parseValue_number pf fuel pre ws1 x (r ++ (ws2 ++ post)) hws1 hx
  have h3 := parseNumber_int pf (pre ++ ws1) x r (ws2 ++ post) hr (endsNumber_append ws2 post hws2 hp)
  have h4 := convertNumber_int pf neg ds hc (cursor (pre ++ ws1 ++ x :: r) (ws2 ++ post))
  have h5 := skip_cursor (pre ++ ws1 ++ x :: r) ws2 post hws2 hpost
  rw [h1] at h4 ⊢
  simp only [List.cons_append] at h2 h3 ⊢
  rw [h2, h3, h4, skipAfter_intResult _ _ _ _ h5]

theorem digitsValue_append (xs : List Nat) (c : Nat) :
    digitsValue (xs ++ [c]) = 10 * digitsValue xs + (c - 48) := by
  simp [digitsValue, List.foldl_append]

theorem natDigits_spec : ∀ (fuel n : Nat), n < fuel →
    digitsValue (natDigits fuel n) = n ∧ (∀ d ∈ natDigits fuel n, isDigit d = true) ∧
      ∃ d rest, natDigits fuel n = d :: rest ∧ (n = 0 → rest = []) ∧ (0 < n → d ≠ 48) := by
  intro fuel
  induction fuel with
  | zero => intro n h; omega
  | succ f ih =>
    intro n h
    by_cases h10 : n < 10
    · simp only [natDigits, h10, if_true]
      refine ⟨by simp [digitsValue], ?_, n + 48, [], rfl, fun _ => rfl, fun h => by omega⟩
      intro d hd
      simp at hd
      subst hd
      simp [isDigit]; omega
    · simp only [natDigits, h10, if_false]
      obtain ⟨h1, h2, d, rest, h3, _, h5⟩ := ih (n / 10) (by omega)
      refine ⟨?_, ?_, d, rest ++ [n % 10 + 48], by simp [h3], fun h => by omega,
        fun _ => h5 (by omega)⟩
      · rw [digitsValue_append, h1]; omega
      · intro c hc
        rcases List.mem_append.mp hc with hc1 | hc1
        · exact h2 c hc1
        · simp at hc1
          subst hc1
          simp [isDigit]; omega

theorem natDigits_canonical (n : Nat) :
    canonicalDigits (natDigits (n + 1) n) = true ∧ digitsValue (natDigits (n + 1) n) = n := by
  obtain ⟨h1, h2, d, rest, h3, h4, h5⟩ := natDigits_spec (n + 1) n (by omega)
  refine ⟨?_, h1⟩
  rw [h3] at h2 ⊢
  have hall : (d :: rest).all isDigit = true := List.all_eq_true.mpr h2
  simp only [canonicalDigits, hall, Bool.true_and]
  by_cases hn : n = 0
  · simp [h4 hn]
  · simp [h5 (by omega)]

theorem signedValue_decimalText (n : Int) :
    signedValue (decide (n < 0)) (natDigits (n.natAbs + 1) n.natAbs) = n := by
  rw [signedValue, (natDigits_canonical n.natAbs).2]
  by_cases h : n < 0
  · simp only [h, decide_True, if_true]; omega
  · simp only [h, decide_False, Bool.false_eq_true, if_false]; omega

theorem parseValue_array (pf : List Nat → Option Nat) (fuel : Nat) (pre ws1 rest : List Nat)
    (hws1 : ∀ c ∈ ws1, isSpace c = true) :
    parseValue pf (fuel + 1) (cursor pre (ws1 ++ 91 :: rest)) =
      skipAfter (parseArray pf fuel (cursor (pre ++ ws1) (91 :: rest))) := by
  rw [parseValue]
  rw [skip_cursor pre ws1 _ hws1 (by rfl)]
  simp only [peek_cursor, List.headD_cons]
  simp +decide only [if_false, if_true]

theorem parseValue_object (pf : List Nat → Option Nat) (fuel : Nat) (pre ws1 rest : List Nat)
    (hws1 : ∀ c ∈ ws1, isSpace c = true) :
    parseValue pf (fuel + 1) (cursor pre (ws1 ++ 123 :: rest)) =
      skipAfter (parseObject pf fuel (cursor (pre ++ ws1) (123 :: rest))) := by
  rw [parseValue]
  rw [skip_cursor pre ws1 _ hws1 (by rfl)]
  simp only [peek_cursor, List.headD_cons]
  simp +decide only [if_false, if_true]

theorem parseArray_open (pf : List Nat → Option Nat) (fuel : Nat) (p : List Nat) (c : Nat)
    (rest : List Nat) :
    parseArray pf (fuel + 1) (cursor p (c :: rest)) =
      parseArrayLoop pf fuel [] (cursor (p ++ [c]) rest) := by
  rw [parseArray, read_cursor]

theorem parseObject_open (pf : List Nat → Option Nat) (fuel : Nat) (p : List Nat) (c : Nat)
    (rest : List Nat) :
    parseObject pf (fuel + 1) (cursor p (c :: rest)) =
      parseObjectLoop pf fuel [] (cursor (p ++ [c]) rest) := by
  rw [parseObject, read_cursor]

theorem parseValue_closing_bracket (pf : List Nat → Option Nat) (fuel : Nat) (pre ws1 rest : List Nat)
    (hws1 : ∀ c ∈ ws1, isSpace c = true) :
    parseValue pf (fuel + 1) (cursor pre (ws1 ++ 93 :: rest)) =
      .err (.unexpectedCharacter 93) (cursor (pre ++ ws1) (93 :: rest)) := by
  rw [parseValue]
  rw [skip_cursor pre ws1 _ hws1 (by rfl)]
  simp only [peek_cursor, List.headD_cons]
  simp +decide only [if_false, if_true]
  simp only [skipAfter, skip_cursor_none _ _ (show isSpace ((93 :: rest).headD 0) = false by rfl)]

theorem readMany_cursor (tok : List Nat) : ∀ (pre rest : List Nat),
    Lexer.ReadMany tok.length (cursor pre (tok ++ rest)) = .ok tok (cursor (pre ++ tok) rest) := by
  induction tok with
  | nil => intro pre rest; simp [Lexer.ReadMany]
  | cons c t ih =>
    intro pre rest
    have h := ih (pre ++ [c]) rest
    simp only [List.length_cons, List.cons_append, Lexer.ReadMany, peek_cursor, read_cursor,
      List.headD_cons, h]
    simp

theorem skipAfter_ok (v : Value) (pre ws2 post : List Nat) (hws2 : ∀ c ∈ ws2, isSpace c = true)
    (hpost : isSpace (post.headD 0) = false) :
    skipAfter (.ok v (cursor pre (ws2 ++ post))) = .ok v (cursor (pre ++ ws2) post) := by
  simp only [skipAfter, skip_cursor pre ws2 post hws2 hpost]

theorem parseValue_null (pf : List Nat → Option Nat) (fuel : Nat) (pre ws1 ws2 post : List Nat)
    (hws1 : ∀ c ∈ ws1, isSpace c = true) (hws2 : ∀ c ∈ ws2, isSpace c = true)
    (hpost : isSpace (post.headD 0) = false) :
    parseValue pf (fuel + 1) (cursor pre (ws1 ++ ([110, 117, 108, 108] ++ (ws2 ++ post)))) =
      .ok .null (cursor (pre ++ ws1 ++ [110, 117, 108, 108] ++ ws2) post) := by
  rw [parseValue]
  rw [skip_cursor pre ws1 _ hws1 (by rfl)]
  simp only [peek_cursor, List.cons_append, List.nil_append, List.headD_cons]
  simp +decide only [if_false, if_true]
  have h : Lexer.ReadMany 4 (cursor (pre ++ ws1) (110 :: 117 :: 108 :: 108 :: (ws2 ++ post))) =
      .ok [110, 117, 108, 108] (cursor (pre ++ ws1 ++ [110, 117, 108, 108]) (ws2 ++ post)) :=
    readMany_cursor [110, 117, 108, 108] (pre ++ ws1) (ws2 ++ post)
  simp only [parseNull]
  rw [h]
  simp only [ne_eq, not_true_eq_false, if_false]
  rw [skipAfter_ok _ _ ws2 post hws2 hpost]

theorem parseValue_true (pf : List Nat → Option Nat) (fuel : Nat) (pre ws1 ws2 post : List Nat)
    (hws1 : ∀ c ∈ ws1, isSpace c = true) (hws2 : ∀ c ∈ ws2, isSpace c = true)
    (hpost : isSpace (post.headD 0) = false) :
    parseValue pf (fuel + 1) (cursor pre (ws1 ++ ([116, 114, 117, 101] ++ (ws2 ++ post)))) =
      .ok (.bool true) (cursor (pre ++ ws1 ++ [116, 114, 117, 101] ++ ws2) post) := by
  rw [parseValue]
  rw [skip_cursor pre ws1 _ hws1 (by rfl)]
  simp only [peek_cursor, List.cons_append, List.nil_append, List.headD_cons]
  simp +decide only [if_false, if_true]
  have h : Lexer.ReadMany 4 (cursor (pre ++ ws1) (116 :: 114 :: 117 :: 101 :: (ws2 ++ post))) =
      .ok [116, 114, 117, 101] (cursor (pre ++ ws1 ++ [116, 114, 117, 101]) (ws2 ++ post)) :=
    readMany_cursor [116, 114, 117, 101] (pre ++ ws1) (ws2 ++ post)
  simp only [parseTrue]
  rw [h]
  simp only [ne_eq, not_true_eq_false, if_false]
  rw [skipAfter_ok _ _ ws2 post hws2 hpost]

theorem parseValue_false (pf : List Nat → Option Nat) (fuel : Nat) (pre ws1 ws2 post : List Nat)
    (hws1 : ∀ c ∈ ws1, isSpace c = true) (hws2 : ∀ c ∈ ws2, isSpace c = true)
    (hpost : isSpace (post.headD 0) = false) :
    parseValue pf (fuel + 1) (cursor pre (ws1 ++ ([102, 97, 108, 115, 101] ++ (ws2 ++ post)))) =
      .ok (.bool false) (cursor (pre ++ ws1 ++ [102, 97, 108, 115, 101] ++ ws2) post) := by
  rw [parseValue]
  rw [skip_cursor pre ws1 _ hws1 (by rfl)]
  simp only [peek_cursor, List.cons_append, List.nil_append, List.headD_cons]
  simp +decide only [if_false, if_true]
  have h : Lexer.ReadMany 5 (cursor (pre ++ ws1) (102 :: 97 :: 108 :: 115 :: 101 :: (ws2 ++ post))) =
      .ok [102, 97, 108, 115, 101] (cursor (pre ++ ws1 ++ [102, 97, 108, 115, 101]) (ws2 ++ post)) :=
    readMany_cursor [102, 97, 108, 115, 101] (pre ++ ws1) (ws2 ++ post)
  simp only [parseFalse]
  rw [h]
  simp only [ne_eq, not_true_eq_false, if_false]
  rw [skipAfter_ok _ _ ws2 post hws2 hpost]

theorem parseNumberLoop_frac (ex : Bool) (fuel : Nat) (pre : List Nat) (x : Nat) (r : List Nat)
    (y : Nat) (rest : List Nat) (stop : Nat) (hr : ∀ d ∈ r, isDigit d = true)
    (hy : isDigit y = true) (hf : r.length < fuel) :
    parseNumberLoop fuel stop false ex (cursor pre (x :: (r ++ 46 :: y :: rest))) =
      parseNumberLoop (fuel - (r.length + 1)) (stop + (r.length + 2)) true ex
        (cursor (pre ++ x :: (r ++ [46])) (y :: rest)) := by
  obtain ⟨p1, z, h1, h2⟩ := parseNumberLoop_digits false ex (46 :: y :: rest) r hr fuel pre x stop
    (by omega)
  obtain ⟨f, hf1⟩ : ∃ f, fuel - r.length = f + 1 := ⟨fuel - r.length - 1, by omega⟩
  have hf2 : fuel - (r.length + 1) = f := by omega
  rw [h2, hf1, parseNumberLoop_dot ex f _ p1 z y rest hy, h1, hf2]
  simp [Nat.add_assoc]

theorem parseNumberLoop_exponent (fuel : Nat) (pre : List Nat) (x : Nat) (r : List Nat)
    (e sg y : Nat) (rest : List Nat) (stop : Nat) (hr : ∀ d ∈ r, isDigit d = true)
    (he : e = 101 ∨ e = 69) (hsg : sg = 45 ∨ sg = 43) (hy : isDigit y = true)
    (hf : r.length < fuel) :
    parseNumberLoop fuel stop true false (cursor pre (x :: (r ++ e :: sg :: y :: rest))) =
      parseNumberLoop (fuel - (r.length + 1)) (stop + (r.length + 3)) true true
        (cursor (pre ++ x :: (r ++ [e, sg])) (y :: rest)) := by
  obtain ⟨p1, z, h1, h2⟩ := parseNumberLoop_digits true false (e :: sg :: y :: rest) r hr fuel pre x
    stop (by omega)
  obtain ⟨f, hf1⟩ : ∃ f, fuel - r.length = f + 1 := ⟨fuel - r.length - 1, by omega⟩
  have hf2 : fuel - (r.length + 1) = f := by omega
  rw [h2, hf1, parseNumberLoop_exp f _ p1 z e sg y rest he hsg hy, h1, hf2]
  simp [Nat.add_assoc]

/-- The loop of parseNumber over an integer part, a fraction and no exponent. -/
theorem parseNumberLoop_float (fuel : Nat) (pre : List Nat) (x : Nat) (r : List Nat) (y : Nat)
    (fr tail : List Nat) (stop : Nat) (hr : ∀ d ∈ r, isDigit d = true) (hy : isDigit y = true)
    (hfr : ∀ d ∈ fr, isDigit d = true) (ht : endsNumber (tail.headD 0) = true)
    (hf : r.length + fr.length + 1 < fuel) :
    parseNumberLoop fuel stop false false (cursor pre (x :: (r ++ 46 :: y :: (fr ++ tail)))) =
      .ok (stop + (r.length + 2 + fr.length), true)
        (cursor (pre ++ x :: (r ++ 46 :: y :: fr)) tail) := by
  rw [parseNumberLoop_frac false fuel pre x r y (fr ++ tail) stop hr hy (by omega),
    parseNumberLoop_int true false _ _ y fr tail _ hfr ht (by omega)]
  simp [Nat.add_assoc]

/-- The loop of parseNumber over an integer part, a fraction and a signed exponent. -/
theorem parseNumberLoop_floatExp (fuel : Nat) (pre : List Nat) (x : Nat) (r : List Nat) (y : Nat)
    (fr : List Nat) (e sg y2 : Nat) (er tail : List Nat) (stop : Nat)
    (hr : ∀ d ∈ r, isDigit d = true) (hy : isDigit y = true) (hfr : ∀ d ∈ fr, isDigit d = true)
    (he : e = 101 ∨ e = 69) (hsg : sg = 45 ∨ sg = 43) (hy2 : isDigit y2 = true)
    (her : ∀ d ∈ er, isDigit d = true) (ht : endsNumber (tail.headD 0) = true)
    (hf : r.length + fr.length + er.length + 2 < fuel) :
    parseNumberLoop fuel stop false false
        (cursor pre (x :: (r ++ 46 :: y :: (fr ++ e :: sg :: y2 :: (er ++ tail))))) =
      .ok (stop + (r.length + 2 + fr.length + 3 + er.length), true)
        (cursor (pre ++ x :: (r ++ 46 :: y :: (fr ++ e :: sg :: y2 :: er))) tail) := by
  rw [parseNumberLoop_frac false fuel pre x r y (fr ++ e :: sg :: y2 :: (er ++ tail)) stop hr hy
      (by omega),
    parseNumberLoop_exponent _ _ y fr e sg y2 (er ++ tail) _ hfr he hsg hy2 (by omega),
    parseNumberLoop_int true true _ _ y2 er tail _ her ht (by omega)]
  simp [Nat.add_assoc]

theorem convertNumber_float (pf : List Nat → Option Nat) (neg : Bool) (ds s : List Nat)
    (hc : canonicalDigits ds = true) (l : Lexer) (bits : Nat)
    (hpf : pf (signBytes neg ++ (ds ++ 46 :: s)) = some bits) :
    convertNumber pf (signBytes neg ++ (ds ++ 46 :: s)) true l = .ok (.float bits) l := by
  cases ds with
  | nil => simp [canonicalDigits] at hc
  | cons d rest =>
    obtain ⟨hd, hr, hz⟩ := canonicalDigits_cons hc
    have hd1 := isDigit_range hd
    have h46 : isDigit 46 = false := by decide
    cases neg with
    | true =>
      simp only [signBytes, if_true, List.singleton_append, List.cons_append] at hpf ⊢
      simp only [convertNumber, if_true, hpf]
      rw [if_neg]
      intro h
      rcases hz with hz | hz
      · subst hz
        simp [h46] at h
      · exact hz (by simpa using h.2.1)
    | false =>
      have h45 : d ≠ 45 := by omega
      simp only [signBytes, Bool.false_eq_true, if_false, List.nil_append, List.cons_append] at hpf ⊢
      simp only [convertNumber, h45, if_false, if_true, hpf]
      rw [if_neg]
      intro h
      rcases hz with hz | hz
      · subst hz
        simp [h46] at h
      · exact hz (by simpa using h.2.1)

theorem parseNumber_float (pf : List Nat → Option Nat) (pre : List Nat) (x : Nat) (r : List Nat)
    (y : Nat) (fr tail : List Nat) (hr : ∀ d ∈ r, isDigit d = true) (hy : isDigit y = true)
    (hfr : ∀ d ∈ fr, isDigit d = true) (ht : endsNumber (tail.headD 0) = true) :
    parseNumber pf (cursor pre ((x :: (r ++ 46 :: y :: fr)) ++ tail)) =
      convertNumber pf (x :: (r ++ 46 :: y :: fr)) true
        (cursor (pre ++ x :: (r ++ 46 :: y :: fr)) tail) := by
  apply parseNumber_of_loop
  have h := parseNumberLoop_float
    ((cursor pre ((x :: (r ++ 46 :: y :: fr)) ++ tail)).input.length + 1) pre x r y fr tail
    ((cursor pre ((x :: (r ++ 46 :: y :: fr)) ++ tail)).Position + 1) hr hy hfr ht
    (by simp [cursor]; omega)
  simp only [List.cons_append, List.append_assoc] at h ⊢
  rw [h]
  simp [cursor, Lexer.Position]
  omega

theorem parseNumber_floatExp (pf : List Nat → Option Nat) (pre : List Nat) (x : Nat) (r : List Nat)
    (y : Nat) (fr : List Nat) (e sg y2 : Nat) (er tail : List Nat)
    (hr : ∀ d ∈ r, isDigit d = true) (hy : isDigit y = true) (hfr : ∀ d ∈ fr, isDigit d = true)
    (he : e = 101 ∨ e = 69) (hsg : sg = 45 ∨ sg = 43) (hy2 : isDigit y2 = true)
    (her : ∀ d ∈ er, isDigit d = true) (ht : endsNumber (tail.headD 0) = true) :
    parseNumber pf (cursor pre ((x :: (r ++ 46 :: y :: (fr ++ e :: sg :: y2 :: er))) ++ tail)) =
      convertNumber pf (x :: (r ++ 46 :: y :: (fr ++ e :: sg :: y2 :: er))) true
        (cursor (pre ++ x :: (r ++ 46 :: y :: (fr ++ e :: sg :: y2 :: er))) tail) := by
  apply parseNumber_of_loop
  have h := parseNumberLoop_floatExp
    ((cursor pre ((x :: (r ++ 46 :: y :: (fr ++ e :: sg :: y2 :: er))) ++ tail)).input.length + 1)
    pre x r y fr e sg y2 er tail
    ((cursor pre ((x :: (r ++ 46 :: y :: (fr ++ e :: sg :: y2 :: er))) ++ tail)).Position + 1)
    hr hy hfr he hsg hy2 her ht (by simp [cursor]; omega)
  simp only [List.cons_append, List.append_assoc] at h ⊢
  rw [h]
  simp [cursor, Lexer.Position]
  omega

theorem nonempty_digits {f : List Nat} (h : (!f.isEmpty && f.all isDigit) = true) :
    ∃ y fr, f = y :: fr ∧ isDigit y = true ∧ ∀ d ∈ fr, isDigit d = true := by
  cases f with
  | nil => simp at h
  | cons y fr =>
    simp at h
    exact ⟨y, fr, rfl, h.1, h.2⟩

theorem parseValue_floatToken (pf : List Nat → Option Nat) (fuel : Nat) (pre ws1 : List Nat)
    (neg : Bool) (ds : List Nat) (x : Nat) (r s tok ws2 post : List Nat) (bits : Nat)
    (hws1 : ∀ c ∈ ws1, isSpace c = true) (hc : canonicalDigits ds = true)
    (hx : x = 45 ∨ isDigit x = true)
    (h1 : tok = x :: r) (h2 : tok = signBytes neg ++ (ds ++ 46 :: s))
    (hpf : pf tok = some bits)
    (hnum : parseNumber pf (cursor (pre ++ ws1) (tok ++ (ws2 ++ post))) =
      convertNumber pf tok true (cursor (pre ++ ws1 ++ tok) (ws2 ++ post)))
    (hws2 : ∀ c ∈ ws2, isSpace c = true) (hpost : isSpace (post.headD 0) = false) :
    parseValue pf (fuel + 1) (cursor pre (ws1 ++ (tok ++ (ws2 ++ post)))) =
      .ok (.float bits) (cursor (pre ++ ws1 ++ tok ++ ws2) post) := by
  have h3 := parseValue_number pf fuel pre ws1 x (r ++ (ws2 ++ post)) hws1 hx
  have h4 : tok ++ (ws2 ++ post) = x :: (r ++ (ws2 ++ post)) := by rw [h1]; simp
  rw [h4, h3, ← h4, hnum]
  have h5 := convertNumber_float pf neg ds s hc (cursor (pre ++ ws1 ++ tok) (ws2 ++ post)) bits
    (h2 ▸ hpf)
  rw [← h2] at h5
  rw [h5, skipAfter_ok _ _ ws2 post hws2 hpost]

theorem parseValue_jnumber (pf : List Nat → Option Nat) (fuel : Nat) (pre ws1 : List Nat)
    (n : JNumber) (ws2 post : List Nat) (hws1 : ∀ c ∈ ws1, isSpace c = true)
    (hv : n.valid = true) (hs : n.supported pf = true) (hws2 : ∀ c ∈ ws2, isSpace c = true)
    (hp : endsNumber (post.headD 0) = true) (hpost : isSpace (post.headD 0) = false) :
    parseValue pf (fuel + 1) (cursor pre (ws1 ++ (n.bytes ++ (ws2 ++ post)))) =
      .ok (n.refValue pf) (cursor (pre ++ ws1 ++ n.bytes ++ ws2) post) := by
  obtain ⟨neg, ds, frac, exp⟩ := n
  have ht := endsNumber_append ws2 post hws2 hp
  cases frac with
  | none =>
    cases exp with
    | some x => simp [JNumber.supported] at hs
    | none =>
      simp only [JNumber.valid, Bool.and_true] at hv
      simp only [JNumber.supported, JNumber.isInt, Option.isNone_none, Bool.and_self, if_true,
        Bool.true_and] at hs
      have h := parseValue_int pf fuel pre ws1 neg ds ws2 post hws1 hv hws2 hp hpost
      simp only [intResult, hs, if_true] at h
      simpa [JNumber.bytes, fracBytes, expBytes, JNumber.refValue, JNumber.isInt] using h
  | some f =>
    obtain ⟨x, r, hsplit, hx, hr⟩ : ∃ x r, signBytes neg ++ ds = x :: r ∧
        (x = 45 ∨ isDigit x = true) ∧ ∀ d ∈ r, isDigit d = true :=
      intToken_split neg ds (by simp [JNumber.valid] at hv; exact hv.1.1)
    have hc : canonicalDigits ds = true := by simp [JNumber.valid] at hv; exact hv.1.1
    obtain ⟨y, fr, hf, hy, hfr⟩ : ∃ y fr, f = y :: fr ∧ isDigit y = true ∧
        ∀ d ∈ fr, isDigit d = true :=
      nonempty_digits (by simp [JNumber.valid] at hv; simpa using hv.1.2)
    subst hf
    cases exp with
    | none =>
      obtain ⟨bits, hbits⟩ : ∃ bits, pf (JNumber.bytes ⟨neg, ds, some (y :: fr), none⟩) = some bits :=
        Option.isSome_iff_exists.mp (by simpa [JNumber.supported, JNumber.isInt] using hs)
      have hrv : JNumber.refValue pf ⟨neg, ds, some (y :: fr), none⟩ = .float bits := by
        simp [JNumber.refValue, JNumber.isInt, hbits]
      have hb1 : JNumber.bytes ⟨neg, ds, some (y :: fr), none⟩ = x :: (r ++ 46 :: y :: fr) := by
        simp only [JNumber.bytes, fracBytes, expBytes, List.append_nil]
        rw [← List.append_assoc, hsplit]; simp
      rw [hrv]
      apply parseValue_floatToken pf fuel pre ws1 neg ds x (r ++ 46 :: y :: fr) (y :: fr) _ ws2 post
        bits hws1 hc hx hb1 (by simp [JNumber.bytes, fracBytes, expBytes]) hbits _ hws2 hpost
      rw [hb1]
      exact parseNumber_float pf (pre ++ ws1) x r y fr (ws2 ++ post) hr hy hfr ht
    | some ex =>
      obtain ⟨e, sign, eds⟩ := ex
      have hv2 : (e = 101 ∨ e = 69) ∧ ((sign = none ∨ sign = some 43) ∨ sign = some 45) ∧
          (!eds.isEmpty && eds.all isDigit) = true := by
        simp [JNumber.valid, JExponent.valid] at hv
        obtain ⟨_, ⟨⟨h1, h2⟩, h3⟩, h4⟩ := hv
        exact ⟨h1, h2, by simp [h3]; exact h4⟩
      obtain ⟨he, hsign, hed⟩ := hv2
      obtain ⟨y2, er, hf2, hy2, her⟩ := nonempty_digits hed
      subst hf2
      have hs1 : sign.isSome = true := by
        simp [JNumber.supported] at hs; exact hs.1
      obtain ⟨sg, hsg⟩ := Option.isSome_iff_exists.mp hs1
      subst hsg
      have hsg2 : sg = 45 ∨ sg = 43 := by
        rcases hsign with (h | h) | h
        · simp at h
        · right; simpa using h
        · left; simpa using h
      obtain ⟨bits, hbits⟩ : ∃ bits,
          pf (JNumber.bytes ⟨neg, ds, some (y :: fr), some ⟨e, some sg, y2 :: er⟩⟩) = some bits :=
        Option.isSome_iff_exists.mp (by simpa [JNumber.supported, JNumber.isInt] using hs)
      have hrv : JNumber.refValue pf ⟨neg, ds, some (y :: fr), some ⟨e, some sg, y2 :: er⟩⟩ =
          .float bits := by
        simp [JNumber.refValue, JNumber.isInt, hbits]
      have hb1 : JNumber.bytes ⟨neg, ds, some (y :: fr), some ⟨e, some sg, y2 :: er⟩⟩ =
          x :: (r ++ 46 :: y :: (fr ++ e :: sg :: y2 :: er)) := by
        simp only [JNumber.bytes, fracBytes, expBytes, JExponent.bytes, expSignBytes]
        rw [← List.append_assoc, hsplit]; simp
      rw [hrv]
      apply parseValue_floatToken pf fuel pre ws1 neg ds x
        (r ++ 46 :: y :: (fr ++ e :: sg :: y2 :: er)) (y :: (fr ++ e :: sg :: y2 :: er)) _ ws2 post
        bits hws1 hc hx hb1
        (by simp [JNumber.bytes, fracBytes, expBytes, JExponent.bytes, expSignBytes]) hbits _
        hws2 hpost
      rw [hb1]
      exact parseNumber_floatExp pf (pre ++ ws1) x r y fr e sg y2 er (ws2 ++ post) hr hy hfr he
        hsg2 hy2 her ht

theorem parseArrayLoop_step (pf : List Nat → Option Nat) (f : Nat) (vs : List Value) (l : Lexer)
    (v : Value) (p : List Nat) (c : Nat) (post : List Nat)
    (hval : parseValue pf f l = .ok v (cursor p (c :: post))) :
    parseArrayLoop pf (f + 1) vs l =
      if c = 44 then parseArrayLoop pf f (vs ++ [v]) (cursor (p ++ [c]) post)
      else if c = 93 then .ok (.arr (vs ++ [v])) (cursor (p ++ [c]) post)
      else .err (.arrayExpectedBracket c) (cursor p (c :: post)) := by
  rw [parseArrayLoop]
  simp only [hval, peek_cursor, List.headD_cons, read_cursor]

theorem parseObjectLoop_step (pf : List Nat → Option Nat) (f : Nat) (obj : List (List Nat × Value))
    (pre ws1 : List Nat) (key : List StrUnit) (ws2 rest : List Nat) (v : Value) (p : List Nat)
    (c : Nat) (post : List Nat)
    (hws1 : ∀ c ∈ ws1, isSpace c = true) (hkey : ∀ u ∈ key, u.accepted = true)
    (hws2 : ∀ c ∈ ws2, isSpace c = true)
    (hval : parseValue pf f (cursor (pre ++ ws1 ++ quoted key ++ ws2 ++ [58]) rest) =
      .ok v (cursor p (c :: post))) :
    parseObjectLoop pf (f + 1) obj (cursor pre (ws1 ++ (quoted key ++ (ws2 ++ 58 :: rest)))) =
      if c = 44 then parseObjectLoop pf f (mapSet obj (strBytes key) v) (cursor (p ++ [c]) post)
      else if c = 125 then .ok (.obj (mapSet obj (strBytes key) v)) (cursor (p ++ [c]) post)
      else .err (.objectExpectedBrace c) (cursor p (c :: post)) := by
  rw [parseObjectLoop]
  have e1 : quoted key ++ (ws2 ++ 58 :: rest) = 34 :: (strBytes key ++ 34 :: (ws2 ++ 58 :: rest)) := by
    simp [quoted]
  rw [e1, skip_cursor pre ws1 _ hws1 (by rfl)]
  simp only [parseString_units key hkey]
  rw [skip_cursor _ ws2 _ hws2 (by rfl)]
  simp only [peek_cursor, List.headD_cons, ne_eq, not_true_eq_false, if_false, read_cursor]
  have e2 : pre ++ ws1 ++ 34 :: (strBytes key ++ [34]) ++ ws2 ++ [58] =
      pre ++ ws1 ++ quoted key ++ ws2 ++ [58] := by simp [quoted]
  rw [e2]
  simp only [hval, peek_cursor, List.headD_cons, read_cursor]

theorem valid_accepted {u : StrUnit} (hv : u.valid = true) (hn : (!u.isUnicode) = true) :
    u.accepted = true := by
  cases u with
  | plain c =>
    simp [StrUnit.valid] at hv
    simp [StrUnit.accepted]
    omega
  | escape e => simpa [StrUnit.valid, StrUnit.accepted] using hv
  | unicode h1 h2 h3 h4 => simp [StrUnit.isUnicode] at hn

theorem units_accepted {us : List StrUnit} (hv : us.all StrUnit.valid = true)
    (hn : us.all (fun u => !u.isUnicode) = true) : ∀ u ∈ us, u.accepted = true := by
  intro u hu
  exact valid_accepted (List.all_eq_true.mp hv u hu) (List.all_eq_true.mp hn u hu)

theorem all_space {ws : List Nat} (h : ws.all isSpace = true) : ∀ c ∈ ws, isSpace c = true :=
  fun c hc => List.all_eq_true.mp h c hc

mutual

/-- On the text of a well-formed tree within the design of the parser, read
from any position and followed by a byte that neither is whitespace nor
continues a number, parseValue returns the value of the tree and stops after
the text and the whitespace behind it. -/
theorem json_parse_sound (pf : List Nat → Option Nat) :
    ∀ (j : Json), j.valid = true → j.supported pf = true →
      ∀ (fuel : Nat) (pre ws1 ws2 post : List Nat),
        (∀ c ∈ ws1, isSpace c = true) → (∀ c ∈ ws2, isSpace c = true) →
        endsNumber (post.headD 0) = true → isSpace (post.headD 0) = false →
        3 * j.render.length + 1 ≤ fuel →
        parseValue pf fuel (cursor pre (ws1 ++ (j.render ++ (ws2 ++ post)))) =
          .ok (j.refValue pf) (cursor (pre ++ ws1 ++ j.render ++ ws2) post)
  | .null, _, _, fuel, pre, ws1, ws2, post, hws1, hws2, _, hpost, hf => by
    obtain ⟨f, rfl⟩ : ∃ f, fuel = f + 1 := ⟨fuel - 1, by omega⟩
    exact parseValue_null pf f pre ws1 ws2 post hws1 hws2 hpost
  | .bool true, _, _, fuel, pre, ws1, ws2, post, hws1, hws2, _, hpost, hf => by
    obtain ⟨f, rfl⟩ : ∃ f, fuel = f + 1 := ⟨fuel - 1, by omega⟩
    exact parseValue_true pf f pre ws1 ws2 post hws1 hws2 hpost
  | .bool false, _, _, fuel, pre, ws1, ws2, post, hws1, hws2, _, hpost, hf => by
    obtain ⟨f, rfl⟩ : ∃ f, fuel = f + 1 := ⟨fuel - 1, by omega⟩
    exact parseValue_false pf f pre ws1 ws2 post hws1 hws2 hpost
  | .number n, hv, hs, fuel, pre, ws1, ws2, post, hws1, hws2, hp, hpost, hf => by
    obtain ⟨f, rfl⟩ : ∃ f, fuel = f + 1 := ⟨fuel - 1, by omega⟩
    simp only [Json.valid, Json.supported] at hv hs
    exact parseValue_jnumber pf f pre ws1 n ws2 post hws1 hv hs hws2 hp hpost
  | .string us, hv, hs, fuel, pre, ws1, ws2, post, hws1, hws2, _, hpost, hf => by
    obtain ⟨f, rfl⟩ : ∃ f, fuel = f + 1 := ⟨fuel - 1, by omega⟩
    simp only [Json.valid, Json.supported] at hv hs
    have h := parseValue_string pf f pre ws1 us ws2 post hws1 (units_accepted hv hs) hws2 hpost
    simpa [Json.render, Json.refValue, quoted] using h
  | .emptyArray _, _, hs, _, _, _, _, _, _, _, _, _, _ => by
    simp [Json.supported] at hs
  | .emptyObject _, _, hs, _, _, _, _, _, _, _, _, _, _ => by
    simp [Json.supported] at hs
  | .array es, hv, hs, fuel, pre, ws1, ws2, post, hws1, hws2, _, hpost, hf => by
    simp only [Json.valid, Json.supported] at hv hs
    simp only [Json.render, List.length_cons, List.length_append, List.length_nil] at hf
    obtain ⟨f, rfl⟩ : ∃ f, fuel = f + 1 + 1 := ⟨fuel - 2, by omega⟩
    have ih := elems_parse_sound pf es hv hs f (pre ++ ws1 ++ [91]) [] (ws2 ++ post) (by omega)
    have e1 : ws1 ++ ((Json.array es).render ++ (ws2 ++ post)) =
        ws1 ++ 91 :: (es.render ++ 93 :: (ws2 ++ post)) := by simp [Json.render]
    rw [e1, parseValue_array pf (f + 1) pre ws1 _ hws1, parseArray_open, ih,
      skipAfter_ok _ _ ws2 post hws2 hpost]
    simp [Json.render, Json.refValue]
  | .object ms, hv, hs, fuel, pre, ws1, ws2, post, hws1, hws2, _, hpost, hf => by
    simp only [Json.valid, Json.supported] at hv hs
    simp only [Json.render, List.length_cons, List.length_append, List.length_nil] at hf
    obtain ⟨f, rfl⟩ : ∃ f, fuel = f + 1 + 1 := ⟨fuel - 2, by omega⟩
    have ih := members_parse_sound pf ms hv hs f (pre ++ ws1 ++ [123]) [] (ws2 ++ post) (by omega)
    have e1 : ws1 ++ ((Json.object ms).render ++ (ws2 ++ post)) =
        ws1 ++ 123 :: (ms.render ++ 125 :: (ws2 ++ post)) := by simp [Json.render]
    rw [e1, parseValue_object pf (f + 1) pre ws1 _ hws1, parseObject_open, ih,
      skipAfter_ok _ _ ws2 post hws2 hpost]
    simp [Json.render, Json.refValue]
  | .pad a v b, hv, hs, fuel, pre, ws1, ws2, post, hws1, hws2, hp, hpost, hf => by
    simp only [Json.valid, Json.supported, Bool.and_eq_true] at hv hs
    simp only [Json.render, List.length_append] at hf
    have ha := all_space hv.1.1
    have hb := all_space hv.2
    have ih := json_parse_sound pf v hv.1.2 hs fuel pre (ws1 ++ a) (b ++ ws2) post
      (fun c hc => (List.mem_append.mp hc).elim (hws1 c) (ha c))
      (fun c hc => (List.mem_append.mp hc).elim (hb c) (hws2 c)) hp hpost (by omega)
    simpa [Json.render, Json.refValue, List.append_assoc] using ih

/-- The loop of parseArray over the text of the elements and the closing bracket. -/
theorem elems_parse_sound (pf : List Nat → Option Nat) :
    ∀ (es : Elems), es.valid = true → es.supported pf = true →
      ∀ (fuel : Nat) (pre : List Nat) (vs : List Value) (post : List Nat),
        3 * es.render.length + 2 ≤ fuel →
        parseArrayLoop pf fuel vs (cursor pre (es.render ++ 93 :: post)) =
          .ok (.arr (vs ++ es.refValues pf)) (cursor (pre ++ es.render ++ [93]) post)
  | .one v, hv, hs, fuel, pre, vs, post, hf => by
    simp only [Elems.valid, Elems.supported] at hv hs
    simp only [Elems.render] at hf ⊢
    obtain ⟨f, rfl⟩ : ∃ f, fuel = f + 1 := ⟨fuel - 1, by omega⟩
    have ih := json_parse_sound pf v hv hs f pre [] [] (93 :: post) (by simp) (by simp)
      (by rfl) (by rfl) (by omega)
    simp only [List.nil_append, List.append_nil] at ih
    rw [parseArrayLoop_step pf f vs _ _ _ 93 post ih]
    simp [Elems.refValues]
  | .cons v rest, hv, hs, fuel, pre, vs, post, hf => by
    simp only [Elems.valid, Elems.supported, Bool.and_eq_true] at hv hs
    simp only [Elems.render, List.length_append, List.length_cons] at hf
    obtain ⟨f, rfl⟩ : ∃ f, fuel = f + 1 := ⟨fuel - 1, by omega⟩
    have ih := json_parse_sound pf v hv.1 hs.1 f pre [] [] (44 :: (rest.render ++ 93 :: post))
      (by simp) (by simp) (by rfl) (by rfl) (by omega)
    simp only [List.nil_append, List.append_nil] at ih
    have ih2 := elems_parse_sound pf rest hv.2 hs.2 f (pre ++ v.render ++ [44]) (vs ++ [v.refValue pf])
      post (by omega)
    have e1 : (Elems.cons v rest).render ++ 93 :: post =
        v.render ++ 44 :: (rest.render ++ 93 :: post) := by simp [Elems.render]
    rw [e1, parseArrayLoop_step pf f vs _ _ _ 44 _ ih]
    simp only [if_true, ih2]
    simp [Elems.render, Elems.refValues]

/-- The loop of parseObject over the text of the members and the closing brace. -/
theorem members_parse_sound (pf : List Nat → Option Nat) :
    ∀ (ms : Members), ms.valid = true → ms.supported pf = true →
      ∀ (fuel : Nat) (pre : List Nat) (obj : List (List Nat × Value)) (post : List Nat),
        3 * ms.render.length + 2 ≤ fuel →
        parseObjectLoop pf fuel obj (cursor pre (ms.render ++ 125 :: post)) =
          .ok (.obj (ms.refBindings pf obj)) (cursor (pre ++ ms.render ++ [125]) post)
  | .one ws1 key ws2 v, hv, hs, fuel, pre, obj, post, hf => by
    simp only [Members.valid, Members.supported, Bool.and_eq_true] at hv hs
    simp only [Members.render, List.length_append, List.length_cons] at hf
    obtain ⟨f, rfl⟩ : ∃ f, fuel = f + 1 := ⟨fuel - 1, by omega⟩
    have ih := json_parse_sound pf v hv.2 hs.2 f (pre ++ ws1 ++ quoted key ++ ws2 ++ [58]) [] []
      (125 :: post) (by simp) (by simp) (by rfl) (by rfl) (by omega)
    simp only [List.nil_append, List.append_nil] at ih
    have e1 : (Members.one ws1 key ws2 v).render ++ 125 :: post =
        ws1 ++ (quoted key ++ (ws2 ++ 58 :: (v.render ++ 125 :: post))) := by
      simp [Members.render]
    rw [e1, parseObjectLoop_step pf f obj pre ws1 key ws2 _ _ _ 125 post (all_space hv.1.1.1)
      (units_accepted hv.1.1.2 hs.1) (all_space hv.1.2) ih]
    simp [Members.render, Members.refBindings]
  | .cons ws1 key ws2 v rest, hv, hs, fuel, pre, obj, post, hf => by
    simp only [Members.valid, Members.supported, Bool.and_eq_true] at hv hs
    simp only [Members.render, List.length_append, List.length_cons] at hf
    obtain ⟨f, rfl⟩ : ∃ f, fuel = f + 1 := ⟨fuel - 1, by omega⟩
    have ih := json_parse_sound pf v hv.1.2 hs.1.2 f (pre ++ ws1 ++ quoted key ++ ws2 ++ [58]) [] []
      (44 :: (rest.render ++ 125 :: post)) (by simp) (by simp) (by rfl) (by rfl) (by omega)
    simp only [List.nil_append, List.append_nil] at ih
    have ih2 := members_parse_sound pf rest hv.2 hs.2 f
      (pre ++ ws1 ++ quoted key ++ ws2 ++ [58] ++ v.render ++ [44])
      (mapSet obj (strBytes key) (v.refValue pf)) post (by omega)
    have e1 : (Members.cons ws1 key ws2 v rest).render ++ 125 :: post =
        ws1 ++ (quoted key ++ (ws2 ++ 58 :: (v.render ++ 44 :: (rest.render ++ 125 :: post)))) := by
      simp [Members.render]
    rw [e1, parseObjectLoop_step pf f obj pre ws1 key ws2 _ _ _ 44 _ (all_space hv.1.1.1.1)
      (units_accepted hv.1.1.1.2 hs.1.1) (all_space hv.1.1.2) ih]
    simp only [if_true, ih2]
    simp [Members.render, Members.refBindings]

end

theorem parseValue_keyword (pf : List Nat → Option Nat) (fuel : Nat) (pre ws1 : List Nat)
    (c : Nat) (rest : List Nat) (hws1 : ∀ c ∈ ws1, isSpace c = true)
    (hc : c = 116 ∨ c = 102 ∨ c = 110) :
    parseValue pf (fuel + 1) (cursor pre (ws1 ++ c :: rest)) =
      skipAfter
        (if c = 116 then parseTrue (cursor (pre ++ ws1) (c :: rest))
        else if c = 102 then parseFalse (cursor (pre ++ ws1) (c :: rest))
        else parseNull (cursor (pre ++ ws1) (c :: rest))) := by
  rw [parseValue]
  rw [skip_cursor pre ws1 _ hws1 (by rcases hc with h | h | h <;> subst h <;> rfl)]
  simp only [peek_cursor, List.headD_cons]
  rcases hc with h | h | h <;> subst h <;> simp +decide only [if_false, if_true]

theorem skipAfter_err_cursor (e : Err) (pre ws2 post : List Nat)
    (hws2 : ∀ c ∈ ws2, isSpace c = true) (hpost : isSpace (post.headD 0) = false) :
    skipAfter (.err e (cursor pre (ws2 ++ post))) = .err e (cursor (pre ++ ws2) post) := by
  simp only [skipAfter, skip_cursor pre ws2 post hws2 hpost]

theorem parseTrue_cursor (pre : List Nat) (a b c d : Nat) (rest : List Nat) :
    parseTrue (cursor pre (a :: b :: c :: d :: rest)) =
      if [a, b, c, d] = [116, 114, 117, 101] then .ok (.bool true) (cursor (pre ++ [a, b, c, d]) rest)
      else .err (.expectedTrue [a, b, c, d]) (cursor (pre ++ [a, b, c, d]) rest) := by
  have h : Lexer.ReadMany 4 (cursor pre (a :: b :: c :: d :: rest)) =
      .ok [a, b, c, d] (cursor (pre ++ [a, b, c, d]) rest) := readMany_cursor [a, b, c, d] pre rest
  simp only [parseTrue, h]
  split_ifs <;> simp_all

theorem parseNull_cursor (pre : List Nat) (a b c d : Nat) (rest : List Nat) :
    parseNull (cursor pre (a :: b :: c :: d :: rest)) =
      if [a, b, c, d] = [110, 117, 108, 108] then .ok .null (cursor (pre ++ [a, b, c, d]) rest)
      else .err (.expectedNull [a, b, c, d]) (cursor (pre ++ [a, b, c, d]) rest) := by
  have h : Lexer.ReadMany 4 (cursor pre (a :: b :: c :: d :: rest)) =
      .ok [a, b, c, d] (cursor (pre ++ [a, b, c, d]) rest) := readMany_cursor [a, b, c, d] pre rest
  simp only [parseNull, h]
  split_ifs <;> simp_all

theorem parseFalse_cursor (pre : List Nat) (a b c d e : Nat) (rest : List Nat) :
    parseFalse (cursor pre (a :: b :: c :: d :: e :: rest)) =
      if [a, b, c, d, e] = [102, 97, 108, 115, 101] then
        .ok (.bool false) (cursor (pre ++ [a, b, c, d, e]) rest)
      else .err (.expectedFalse [a, b, c, d, e]) (cursor (pre ++ [a, b, c, d, e]) rest) := by
  have h : Lexer.ReadMany 5 (cursor pre (a :: b :: c :: d :: e :: rest)) =
      .ok [a, b, c, d, e] (cursor (pre ++ [a, b, c, d, e]) rest) :=
    readMany_cursor [a, b, c, d, e] pre rest
  simp only [parseFalse, h]
  split_ifs <;> simp_all

theorem isSpace_iff (c : Nat) : isSpace c = true ↔ (c = 32 ∨ c = 9 ∨ c = 10 ∨ c = 13) := by
  simp [isSpace, or_assoc]

theorem peek_of_lt (l : Lexer) (h : l.pos < l.input.length) :
    l.PeekChar = l.input.getD l.pos 0 := by
  simp [Lexer.PeekChar]
  intro h2
  omega

theorem skipLoop_spec :
    ∀ (fuel : Nat) (l : Lexer), l.pos ≤ l.input.length → l.input.length - l.pos < fuel →
      ∃ p, skipLoop fuel l.PeekChar l = .ok () ⟨l.input, p⟩ ∧ l.pos ≤ p ∧ p ≤ l.input.length ∧
        (∀ i, l.pos ≤ i → i < p → isSpace (l.input.getD i 0) = true) ∧
        (p = l.input.length ∨ isSpace (l.input.getD p 0) = false) := by
  intro fuel
  induction fuel with
  | zero => intro l _ h; omega
  | succ f ih =>
    intro l hle h
    by_cases hs : isSpace l.PeekChar = true
    · have hlt := isSpace_peek_lt l hs
      obtain ⟨p, h1, h2, h3, h4, h5⟩ := ih ⟨l.input, l.pos + 1⟩ (by simp; omega) (by simp; omega)
      refine ⟨p, ?_, by simp at h2; omega, h3, ?_, h5⟩
      · simp only [skipLoop, hs, if_true, Lexer.ReadChar]
        rw [if_neg (by omega)]
        exact h1
      · intro i hi1 hi2
        by_cases hi : i = l.pos
        · subst hi
          rw [← peek_of_lt l hlt]; exact hs
        · exact h4 i (by simp; omega) hi2
    · refine ⟨l.pos, ?_, Nat.le_refl _, hle, fun i h1 h2 => by omega, ?_⟩
      · simp [skipLoop, hs]
      · by_cases hlt : l.pos < l.input.length
        · right
          rw [← peek_of_lt l hlt]
          simpa using hs
        · left; omega

theorem parseNumberLoop_dotDigit (ex : Bool) (f stop : Nat) (p : List Nat) (z : Nat)
    (rest : List Nat) (hr : isDigit (rest.headD 0) = false) :
    parseNumberLoop (f + 1) stop false ex (cursor p (z :: 46 :: rest)) =
      .err .numberDotDigit (cursor (p ++ [z] ++ [46]) rest) := by
  have h46 : isDigit 46 = false := by decide
  simp [parseNumberLoop, read_cursor, hr, h46, -List.headD_eq_head?_getD]

theorem parseNumberLoop_doubleDot (ex : Bool) (f stop : Nat) (p : List Nat) (z : Nat)
    (rest : List Nat) :
    parseNumberLoop (f + 1) stop true ex (cursor p (z :: 46 :: rest)) =
      .err .numberDoubleDot (cursor (p ++ [z]) (46 :: rest)) := by
  have h46 : isDigit 46 = false := by decide
  simp [parseNumberLoop, read_cursor, h46]

theorem parseNumber_of_loop_err (pf : List Nat → Option Nat) (l l1 : Lexer) (e : Err)
    (h : parseNumberLoop (l.input.length + 1) (l.Position + 1) false false l = .err e l1) :
    parseNumber pf l = .err e l1 := by
  unfold parseNumber
  simp only [h]

/-- The loop of parseNumber after digits and a dot that no digit follows. -/
theorem parseNumberLoop_digits_dotDigit (ex : Bool) (fuel : Nat) (pre : List Nat) (x : Nat)
    (ds rest : List Nat) (stop : Nat) (hds : ∀ d ∈ ds, isDigit d = true)
    (hr : isDigit (rest.headD 0) = false) (hf : ds.length < fuel) :
    parseNumberLoop fuel stop false ex (cursor pre (x :: (ds ++ 46 :: rest))) =
      .err .numberDotDigit (cursor (pre ++ x :: (ds ++ [46])) rest) := by
  obtain ⟨p1, z, h1, h2⟩ := parseNumberLoop_digits false ex (46 :: rest) ds hds fuel pre x stop
    (by omega)
  obtain ⟨f, hf1⟩ : ∃ f, fuel - ds.length = f + 1 := ⟨fuel - ds.length - 1, by omega⟩
  rw [h2, hf1, parseNumberLoop_dotDigit ex f _ p1 z rest hr, h1]
  simp

/-- The loop of parseNumber, fraction already seen, after digits and a dot. -/
theorem parseNumberLoop_digits_doubleDot (ex : Bool) (fuel : Nat) (pre : List Nat) (x : Nat)
    (ds rest : List Nat) (stop : Nat) (hds : ∀ d ∈ ds, isDigit d = true)
    (hf : ds.length < fuel) :
    parseNumberLoop fuel stop true ex (cursor pre (x :: (ds ++ 46 :: rest))) =
      .err .numberDoubleDot (cursor (pre ++ x :: ds) (46 :: rest)) := by
  obtain ⟨p1, z, h1, h2⟩ := parseNumberLoop_digits true ex (46 :: rest) ds hds fuel pre x stop
    (by omega)
  obtain ⟨f, hf1⟩ : ∃ f, fuel - ds.length = f + 1 := ⟨fuel - ds.length - 1, by omega⟩
  rw [h2, hf1, parseNumberLoop_doubleDot ex f _ p1 z rest, h1]

theorem parse_number_err (pf : List Nat → Option Nat) (x : Nat) (rest : List Nat) (e : Err)
    (l1 : Lexer) (hx : x = 45 ∨ isDigit x = true)
    (h : parseNumberLoop ((x :: rest).length + 1) 1 false false (cursor [] (x :: rest)) =
      .err e l1) :
    ∃ l, Parse pf (NewLexer (x :: rest)) = .err e l ∧ (skipAfter (.err e l1) = .err e l) := by
  obtain ⟨l, hl⟩ := skipAfter_err e l1
  refine ⟨l, ?_, hl⟩
  have h2 := parseValue_number pf (3 * (x :: rest).length) [] [] x rest (by simp) hx
  simp only [List.nil_append] at h2
  rw [cursor_nil, Parse_cursor, h2, parseNumber_of_loop_err pf _ l1 e (by simpa [cursor, Lexer.Position] using h)]
  exact hl

theorem skipAfter_err_dot (e : Err) (pre rest : List Nat) :
    skipAfter (.err e (cursor pre (46 :: rest))) = .err e (cursor pre (46 :: rest)) := by
  simp only [skipAfter, skip_cursor_none pre (46 :: rest) (by rfl)]

/-- The loop of parseNumber, started on any byte `z` with any text behind it,
either returns one of the "invalid number" errors or stops after a token
`z :: tok`, with `end` moved by the length of `tok`. -/
theorem parseNumberLoop_outcome :
    ∀ (n : Nat) (rest : List Nat), rest.length ≤ n →
      ∀ (fuel : Nat) (pre : List Nat) (z stop : Nat) (fr ex : Bool), rest.length < fuel →
        (∃ e l, parseNumberLoop fuel stop fr ex (cursor pre (z :: rest)) = .err e l ∧
          e.kind = .InvalidNumber) ∨
        (∃ tok tail fr1, rest = tok ++ tail ∧
          parseNumberLoop fuel stop fr ex (cursor pre (z :: rest)) =
            .ok (stop + tok.length, fr1) (cursor (pre ++ z :: tok) tail)) := by
  intro n
  induction n using Nat.strong_induction_on with
  | _ n ih =>
    intro rest hn fuel pre z stop fr ex hf
    obtain ⟨f, rfl⟩ : ∃ f, fuel = f + 1 := ⟨fuel - 1, by omega⟩
    by_cases hend : endsNumber (rest.headD 0) = true
    · right
      exact ⟨[], rest, fr, rfl, by simpa using parseNumberLoop_end fr ex f stop pre z rest hend⟩
    cases rest with
    | nil => exact absurd (by decide) hend
    | cons c r =>
      simp only [List.headD_cons] at hend
      by_cases hd : isDigit c = true
      · have h := ih r.length (by simp at hn; omega) r (Nat.le_refl _) f (pre ++ [z]) c (stop + 1) fr
          ex (by simp at hf; omega)
        have hstep : parseNumberLoop (f + 1) stop fr ex (cursor pre (z :: c :: r)) =
            parseNumberLoop f (stop + 1) fr ex (cursor (pre ++ [z]) (c :: r)) := by
          simp [parseNumberLoop, read_cursor, hd]
        rw [hstep]
        rcases h with h | ⟨tok, tail, fr1, h1, h2⟩
        · exact Or.inl h
        · right
          refine ⟨c :: tok, tail, fr1, by simp [h1], ?_⟩
          rw [h2]
          simp [Nat.add_assoc, Nat.add_comm 1]
      by_cases h46 : c = 46
      · subst h46
        cases fr with
        | true =>
          left
          exact ⟨_, _, parseNumberLoop_doubleDot ex f stop pre z r, rfl⟩
        | false =>
          by_cases hy : isDigit (r.headD 0) = true
          · cases r with
            | nil => exact absurd hy (by decide)
            | cons y r1 =>
              simp only [List.headD_cons] at hy
              have h := ih r1.length (by simp at hn; omega) r1 (Nat.le_refl _) f (pre ++ [z] ++ [46])
                y (stop + 1 + 1) true ex (by simp at hf; omega)
              rw [parseNumberLoop_dot ex f stop pre z y r1 hy]
              rcases h with h | ⟨tok, tail, fr1, h1, h2⟩
              · exact Or.inl h
              · right
                refine ⟨46 :: y :: tok, tail, fr1, by simp [h1], ?_⟩
                rw [h2]
                simp [Nat.add_assoc]
                omega
          · left
            exact ⟨_, _, parseNumberLoop_dotDigit ex f stop pre z r (by simpa using hy), rfl⟩
      · have he : c = 101 ∨ c = 69 := by
          simp [endsNumber, hd, h46] at hend
          by_cases h1 : c = 101
          · exact Or.inl h1
          · exact Or.inr (hend h1)
        have hde : isDigit c = false := by simpa using hd
        cases fr with
        | false =>
          left
          exact ⟨_, _, parseNumberLoop_expBeforeFraction ex f stop pre z c r he, rfl⟩
        | true =>
          cases ex with
          | true =>
            left
            refine ⟨.numberDoubleExponent, cursor (pre ++ [z]) (c :: r), ?_, rfl⟩
            simp [parseNumberLoop, read_cursor, hde, h46, he]
          | false =>
            by_cases hsg : r.headD 0 = 45 ∨ r.headD 0 = 43
            · cases r with
              | nil => simp at hsg
              | cons sg r1 =>
                simp only [List.headD_cons] at hsg
                by_cases hy : isDigit (r1.headD 0) = true
                · cases r1 with
                  | nil => exact absurd hy (by decide)
                  | cons y r2 =>
                    simp only [List.headD_cons] at hy
                    have h := ih r2.length (by simp at hn; omega) r2 (Nat.le_refl _) f
                      (pre ++ [z] ++ [c] ++ [sg]) y (stop + 1 + 1 + 1) true true
                      (by simp at hf; omega)
                    rw [parseNumberLoop_exp f stop pre z c sg y r2 he hsg hy]
                    rcases h with h | ⟨tok, tail, fr1, h1, h2⟩
                    · exact Or.inl h
                    · right
                      refine ⟨c :: sg :: y :: tok, tail, fr1, by simp [h1], ?_⟩
                      rw [h2]
                      simp [Nat.add_assoc]
                      omega
                · left
                  refine ⟨.numberExponentDigit, cursor (pre ++ [z] ++ [c] ++ [sg]) r1, ?_, rfl⟩
                  have hsg2 : ¬ (sg ≠ 45 ∧ sg ≠ 43) := by omega
                  have hy2 : isDigit (r1.headD 0) = false := by simpa using hy
                  simp only [parseNumberLoop, read_cursor, List.headD_cons, hde, h46, he, hsg2, hy2]
                  simp
            · left
              refine ⟨.numberExponentSign, cursor (pre ++ [z] ++ [c]) r, ?_, rfl⟩
              have hsg2 : r.headD 0 ≠ 45 ∧ r.headD 0 ≠ 43 := by omega
              simp only [parseNumberLoop, read_cursor, List.headD_cons, hde, h46, he]
              simp [hsg2.1, hsg2.2, -List.headD_eq_head?_getD]

/-- After its first byte `x` and a run of digits, parseNumber either returns an
"invalid number" error of its loop or hands a token `x :: (ds ++ tok)` to the
leading zero check and the conversion. -/
theorem parseNumber_outcome (pf : List Nat → Option Nat) (pre : List Nat) (x : Nat)
    (ds rest : List Nat) (hds : ∀ d ∈ ds, isDigit d = true) :
    (∃ e l, parseNumber pf (cursor pre (x :: (ds ++ rest))) = .err e l ∧
      e.kind = .InvalidNumber) ∨
    (∃ tok tail fr1, rest = tok ++ tail ∧
      parseNumber pf (cursor pre (x :: (ds ++ rest))) =
        convertNumber pf (x :: (ds ++ tok)) fr1 (cursor (pre ++ x :: (ds ++ tok)) tail)) := by
  obtain ⟨p1, z, h1, h2⟩ := parseNumberLoop_digits false false rest ds hds
    ((cursor pre (x :: (ds ++ rest))).input.length + 1) pre x
    ((cursor pre (x :: (ds ++ rest))).Position + 1) (by simp [cursor]; omega)
  rcases parseNumberLoop_outcome rest.length rest (Nat.le_refl _)
      ((cursor pre (x :: (ds ++ rest))).input.length + 1 - ds.length) p1 z
      ((cursor pre (x :: (ds ++ rest))).Position + 1 + ds.length) false false
      (by simp [cursor]; omega) with ⟨e, l, h3, h4⟩ | ⟨tok, tail, fr1, h3, h4⟩
  · left
    exact ⟨e, l, parseNumber_of_loop_err pf _ l e (h2.trans h3), h4⟩
  · right
    refine ⟨tok, tail, fr1, h3, ?_⟩
    subst h3
    have h5 := parseNumber_of_loop pf pre (x :: (ds ++ tok)) tail fr1
    simp only [List.cons_append, List.append_assoc] at h5
    apply h5
    rw [h2, h4]
    have h6 : p1 ++ z :: tok = pre ++ x :: (ds ++ tok) := by
      rw [← List.singleton_append, ← List.append_assoc, h1]; simp
    rw [h6]
    simp [cursor, Lexer.Position]
    omega

theorem convertNumber_zeroStart (pf : List Nat → Option Nat) (neg : Bool) (d : Nat) (t : List Nat)
    (fr : Bool) (l : Lexer) (hd : isDigit d = true) :
    convertNumber pf (signBytes neg ++ 48 :: d :: t) fr l = .err .numberZeroStart l := by
  cases neg with
  | true => simp [signBytes, convertNumber, hd]
  | false => simp [signBytes, convertNumber, hd]

theorem parseValue_decimal (pf : List Nat → Option Nat) (fuel : Nat) (pre ws1 : List Nat) (n : Int)
    (ws2 post : List Nat) (hws1 : ∀ c ∈ ws1, isSpace c = true) (hn : inInt64 n = true)
    (hws2 : ∀ c ∈ ws2, isSpace c = true) (hp : endsNumber (post.headD 0) = true)
    (hpost : isSpace (post.headD 0) = false) :
    parseValue pf (fuel + 1) (cursor pre (ws1 ++ (decimalText n ++ (ws2 ++ post)))) =
      .ok (.int n) (cursor (pre ++ ws1 ++ decimalText n ++ ws2) post) := by
  have h := parseValue_int pf fuel pre ws1 (decide (n < 0)) (natDigits (n.natAbs + 1) n.natAbs) ws2
    post hws1 (natDigits_canonical n.natAbs).1 hws2 hp hpost
  rw [signedValue_decimalText] at h
  simp only [intResult, hn, if_true] at h
  exact h

theorem parseArrayLoop_ints (pf : List Nat → Option Nat) :
    ∀ (es : List IntElem) (e : IntElem), (∀ x ∈ e :: es, x.wellFormed = true) →
      ∀ (fuel : Nat) (pre : List Nat) (vs : List Value) (post : List Nat), es.length + 1 < fuel →
        parseArrayLoop pf fuel vs (cursor pre (intElemsText e es ++ 93 :: post)) =
          .ok (.arr (vs ++ (e :: es).map (fun x => Value.int x.n)))
            (cursor (pre ++ intElemsText e es ++ [93]) post) := by
  intro es
  induction es with
  | nil =>
    intro e he fuel pre vs post hf
    obtain ⟨f, rfl⟩ : ∃ f, fuel = f + 1 + 1 := ⟨fuel - 2, by simp at hf; omega⟩
    have hwf := he e (by simp)
    simp only [IntElem.wellFormed, Bool.and_eq_true] at hwf
    have h := parseValue_decimal pf f pre e.ws1 e.n e.ws2 (93 :: post) (all_space hwf.1.1) hwf.2
      (all_space hwf.1.2) (by rfl) (by rfl)
    have e1 : intElemsText e [] ++ 93 :: post = e.ws1 ++ (decimalText e.n ++ (e.ws2 ++ 93 :: post)) := by
      simp [intElemsText, IntElem.bytes]
    rw [e1, parseArrayLoop_step pf (f + 1) vs _ _ _ 93 post h]
    simp [intElemsText, IntElem.bytes]
  | cons e2 es ih =>
    intro e he fuel pre vs post hf
    obtain ⟨f, rfl⟩ : ∃ f, fuel = f + 1 + 1 := ⟨fuel - 2, by simp at hf; omega⟩
    have hwf := he e (by simp)
    simp only [IntElem.wellFormed, Bool.and_eq_true] at hwf
    have h := parseValue_decimal pf f pre e.ws1 e.n e.ws2 (44 :: (intElemsText e2 es ++ 93 :: post))
      (all_space hwf.1.1) hwf.2 (all_space hwf.1.2) (by rfl) (by rfl)
    have ih2 := ih e2 (fun x hx => he x (by simp at hx ⊢; right; exact hx)) (f + 1)
      (pre ++ e.ws1 ++ decimalText e.n ++ e.ws2 ++ [44]) (vs ++ [Value.int e.n]) post
      (by simp at hf ⊢; omega)
    have e1 : intElemsText e (e2 :: es) ++ 93 :: post =
        e.ws1 ++ (decimalText e.n ++ (e.ws2 ++ 44 :: (intElemsText e2 es ++ 93 :: post))) := by
      simp [intElemsText, IntElem.bytes]
    rw [e1, parseArrayLoop_step pf (f + 1) vs _ _ _ 44 _ h]
    simp only [if_true, ih2]
    simp [intElemsText, IntElem.bytes]

theorem strBytes_plain (k : List Nat) : strBytes (k.map StrUnit.plain) = k := by
  induction k with
  | nil => rfl
  | cons c k ih => simp [strBytes, StrUnit.bytes, ih]

theorem plainKey_accepted {k : List Nat} (h : plainKey k = true) :
    ∀ u ∈ k.map StrUnit.plain, u.accepted = true := by
  intro u hu
  obtain ⟨c, hc, rfl⟩ := List.mem_map.mp hu
  exact List.all_eq_true.mp h c hc

theorem mapGet_mapSet (m : List (List Nat × Value)) (k : List Nat) (v : Value) (k1 : List Nat) :
    mapGet (mapSet m k v) k1 = if k1 = k then some v else mapGet m k1 := by
  unfold mapGet mapSet
  rw [List.find?_append]
  by_cases h : k1 = k
  · subst h
    have h1 : (m.filter (fun p => decide (p.1 ≠ k1))).find? (fun p => decide (p.1 = k1)) = none := by
      rw [List.find?_eq_none]
      intro x hx
      have := (List.mem_filter.mp hx).2
      simpa using this
    simp [h1]
  · have h1 : (m.filter (fun p => decide (p.1 ≠ k))).find? (fun p => decide (p.1 = k1)) =
        m.find? (fun p => decide (p.1 = k1)) := by
      induction m with
      | nil => rfl
      | cons a m ih =>
        rw [List.filter_cons]
        by_cases ha : a.1 = k
        · have hne : ¬ a.1 = k1 := fun hc => h (hc.symm.trans ha)
          rw [if_neg (by simp [ha]), ih, List.find?_cons_of_neg _ (by simpa using hne)]
        · rw [if_pos (by simp [ha])]
          by_cases hb : a.1 = k1
          · rw [List.find?_cons_of_pos _ (by simp [hb]), List.find?_cons_of_pos _ (by simp [hb])]
          · rw [List.find?_cons_of_neg _ (by simpa using hb),
              List.find?_cons_of_neg _ (by simpa using hb), ih]
    rw [h1]
    have h2 : (([(k, v)] : List (List Nat × Value)).find? (fun p => decide (p.1 = k1))) = none := by
      have hne : ¬ k = k1 := fun hc => h hc.symm
      rw [List.find?_cons_of_neg _ (by simpa using hne)]
      rfl
    rw [h2]
    simp [h]

theorem mapGet_intBindings (ms : List (List Nat × Int)) :
    ∀ (acc : List (List Nat × Value)) (k : List Nat),
      mapGet (intBindings acc ms) k =
        match lastValue ms k with
        | some v => some (.int v)
        | none => mapGet acc k := by
  induction ms with
  | nil => intro acc k; simp [intBindings, lastValue]
  | cons m rest ih =>
    intro acc k
    have h := ih (mapSet acc m.1 (.int m.2)) k
    simp only [intBindings, List.foldl_cons] at h ⊢
    rw [h, mapGet_mapSet]
    simp only [lastValue]
    cases lastValue rest k with
    | some v => rfl
    | none =>
      by_cases hk : k = m.1
      · subst hk; simp
      · have : ¬ m.1 = k := fun hc => hk hc.symm
        simp [hk, this]

theorem lastValue_isSome (ms : List (List Nat × Int)) (k : List Nat) :
    (lastValue ms k).isSome = true ↔ k ∈ ms.map (fun m => m.1) := by
  induction ms with
  | nil => simp [lastValue]
  | cons m rest ih =>
    simp only [lastValue, List.map_cons, List.mem_cons]
    cases h : lastValue rest k with
    | some v =>
      rw [h] at ih
      simp at ih ⊢
      right
      simpa using ih
    | none =>
      rw [h] at ih
      simp at ih
      by_cases hk : m.1 = k
      · simp [hk]
      · have : ¬ k = m.1 := fun hc => hk hc.symm
        simp [hk, this]
        intro x hx
        exact ih x hx

theorem quoted_plain (k : List Nat) : quoted (k.map StrUnit.plain) = 34 :: (k ++ [34]) := by
  simp [quoted, strBytes_plain]

theorem parseObjectLoop_intMember (pf : List Nat → Option Nat) (f : Nat)
    (obj : List (List Nat × Value)) (pre : List Nat) (m : List Nat × Int) (c : Nat)
    (post : List Nat) (hk : plainKey m.1 = true) (hn : inInt64 m.2 = true)
    (hp : endsNumber c = true) (hc : isSpace c = false) :
    parseObjectLoop pf (f + 1 + 1) obj (cursor pre (intMemberText m ++ c :: post)) =
      if c = 44 then
        parseObjectLoop pf (f + 1) (mapSet obj m.1 (.int m.2)) (cursor (pre ++ intMemberText m ++ [c]) post)
      else if c = 125 then
        .ok (.obj (mapSet obj m.1 (.int m.2))) (cursor (pre ++ intMemberText m ++ [c]) post)
      else .err (.objectExpectedBrace c) (cursor (pre ++ intMemberText m) (c :: post)) := by
  have hv := parseValue_decimal pf f (pre ++ [] ++ quoted (m.1.map StrUnit.plain) ++ [] ++ [58]) []
    m.2 [] (c :: post) (by simp) hn (by simp) (by simpa using hp) (by simpa using hc)
  simp only [List.nil_append, List.append_nil] at hv
  have h := parseObjectLoop_step pf (f + 1) obj pre [] (m.1.map StrUnit.plain) []
    (decimalText m.2 ++ c :: post) (.int m.2)
    (pre ++ quoted (m.1.map StrUnit.plain) ++ [58] ++ decimalText m.2) c post (by simp)
    (plainKey_accepted hk) (by simp) (by simpa using hv)
  simp only [List.nil_append, strBytes_plain] at h
  have e1 : intMemberText m ++ c :: post =
      quoted (m.1.map StrUnit.plain) ++ 58 :: (decimalText m.2 ++ c :: post) := by
    simp [intMemberText, quoted_plain]
  have e2 : pre ++ quoted (m.1.map StrUnit.plain) ++ [58] ++ decimalText m.2 =
      pre ++ intMemberText m := by
    simp [intMemberText, quoted_plain]
  rw [e1, h, e2]

theorem parseObjectLoop_ints (pf : List Nat → Option Nat) :
    ∀ (ms : List (List Nat × Int)) (m : List Nat × Int),
      (∀ x ∈ m :: ms, plainKey x.1 = true ∧ inInt64 x.2 = true) →
      ∀ (fuel : Nat) (pre : List Nat) (obj : List (List Nat × Value)) (post : List Nat),
        ms.length + 1 < fuel →
        parseObjectLoop pf fuel obj (cursor pre (intMembersText m ms ++ 125 :: post)) =
          .ok (.obj (intBindings obj (m :: ms)))
            (cursor (pre ++ intMembersText m ms ++ [125]) post) := by
  intro ms
  induction ms with
  | nil =>
    intro m hm fuel pre obj post hf
    obtain ⟨f, rfl⟩ : ∃ f, fuel = f + 1 + 1 := ⟨fuel - 2, by simp at hf; omega⟩
    have h := parseObjectLoop_intMember pf f obj pre m 125 post (hm m (by simp)).1
      (hm m (by simp)).2 (by rfl) (by rfl)
    simp only [intMembersText]
    rw [h]
    simp [intBindings]
  | cons m2 ms ih =>
    intro m hm fuel pre obj post hf
    obtain ⟨f, rfl⟩ : ∃ f, fuel = f + 1 + 1 := ⟨fuel - 2, by simp at hf; omega⟩
    have h := parseObjectLoop_intMember pf f obj pre m 44 (intMembersText m2 ms ++ 125 :: post)
      (hm m (by simp)).1 (hm m (by simp)).2 (by rfl) (by rfl)
    have ih2 := ih m2 (fun x hx => hm x (by simp at hx ⊢; right; exact hx)) (f + 1)
      (pre ++ intMemberText m ++ [44]) (mapSet obj m.1 (.int m.2)) post (by simp at hf ⊢; omega)
    have e1 : intMembersText m (m2 :: ms) ++ 125 :: post =
        intMemberText m ++ 44 :: (intMembersText m2 ms ++ 125 :: post) := by
      simp [intMembersText]
    rw [e1, h]
    simp only [if_true, ih2]
    simp [intMembersText, intBindings]

theorem skipAfter_bind (r : Res Value) :
    skipAfter r =
      match r with
      | .ok v l => l.SkipWhitespaces.bind fun _ l1 => .ok v l1
      | .err e l => l.SkipWhitespaces.bind fun _ l1 => .err e l1
      | .panic p => .panic p
      | .fuelOut => .fuelOut := by
  cases r <;> simp only [skipAfter] <;> unfold Res.bind <;> repeat (first | rfl | (split <;> try simp only [*]))

theorem parseValue_bind (pf : List Nat → Option Nat) (f : Nat) (l : Lexer) :
    parseValue pf (f + 1) l =
      l.SkipWhitespaces.bind fun _ l1 =>
        skipAfter
          (if l1.PeekChar = 0 then .ok .null l1
          else if l1.PeekChar = 34 then (parseString l1).bind fun s l2 => .ok (.str s) l2
          else if l1.PeekChar = 91 then parseArray pf f l1
          else if l1.PeekChar = 123 then parseObject pf f l1
          else if l1.PeekChar = 116 then parseTrue l1
          else if l1.PeekChar = 102 then parseFalse l1
          else if l1.PeekChar = 110 then parseNull l1
          else if l1.PeekChar = 45 ∨ isDigit l1.PeekChar then parseNumber pf l1
          else .err (.unexpectedCharacter l1.PeekChar) l1) := by
  rw [parseValue]
  unfold Res.bind
  repeat (first | rfl | (split <;> try simp only [*]))

theorem parseArray_bind (pf : List Nat → Option Nat) (f : Nat) (l : Lexer) :
    parseArray pf (f + 1) l = l.ReadChar.bind fun _ l1 => parseArrayLoop pf f [] l1 := by
  rw [parseArray]
  unfold Res.bind
  repeat (first | rfl | (split <;> try simp only [*]))

theorem parseObject_bind (pf : List Nat → Option Nat) (f : Nat) (l : Lexer) :
    parseObject pf (f + 1) l = l.ReadChar.bind fun _ l1 => parseObjectLoop pf f [] l1 := by
  rw [parseObject]
  unfold Res.bind
  repeat (first | rfl | (split <;> try simp only [*]))

theorem parseArrayLoop_bind (pf : List Nat → Option Nat) (f : Nat) (vs : List Value) (l : Lexer) :
    parseArrayLoop pf (f + 1) vs l =
      (parseValue pf f l).bind fun v l1 =>
        if l1.PeekChar = 44 then l1.ReadChar.bind fun _ l2 => parseArrayLoop pf f (vs ++ [v]) l2
        else if l1.PeekChar = 93 then l1.ReadChar.bind fun _ l2 => .ok (.arr (vs ++ [v])) l2
        else .err (.arrayExpectedBracket l1.PeekChar) l1 := by
  rw [parseArrayLoop]
  unfold Res.bind
  repeat (first | rfl | (split <;> try simp only [*]))

theorem parseObjectLoop_bind (pf : List Nat → Option Nat) (f : Nat)
    (obj : List (List Nat × Value)) (l : Lexer) :
    parseObjectLoop pf (f + 1) obj l =
      l.SkipWhitespaces.bind fun _ l1 =>
        (parseString l1).bind fun key l2 =>
          l2.SkipWhitespaces.bind fun _ l3 =>
            if l3.PeekChar ≠ 58 then .err (.objectExpectedColon l3.PeekChar) l3
            else
              l3.ReadChar.bind fun _ l4 =>
                (parseValue pf f l4).bind fun v l5 =>
                  if l5.PeekChar = 44 then
                    l5.ReadChar.bind fun _ l6 => parseObjectLoop pf f (mapSet obj key v) l6
                  else if l5.PeekChar = 125 then
                    l5.ReadChar.bind fun _ l6 => .ok (.obj (mapSet obj key v)) l6
                  else .err (.objectExpectedBrace l5.PeekChar) l5 := by
  rw [parseObjectLoop]
  unfold Res.bind
  repeat (first | rfl | (split <;> try simp only [*]))

theorem adv_refl {l : Lexer} (h : l.pos ≤ l.input.length) : Adv 0 l l :=
  ⟨rfl, Nat.le_refl _, h⟩

theorem adv_trans {n m : Nat} {l l1 l2 : Lexer} (h1 : Adv n l l1) (h2 : Adv m l1 l2) :
    Adv 0 l l2 := by
  obtain ⟨a1, a2, a3⟩ := h1
  obtain ⟨b1, b2, b3⟩ := h2
  refine ⟨b1.trans a1, by omega, ?_⟩
  rw [a1] at b3
  exact b3

theorem adv_len {n : Nat} {l l1 : Lexer} (h : Adv n l l1) :
    l1.input.length = l.input.length ∧ l.pos + n ≤ l1.pos ∧ l1.pos ≤ l1.input.length := by
  obtain ⟨a1, a2, a3⟩ := h
  rw [a1]
  exact ⟨rfl, a2, a3⟩

theorem fine_ok {α : Type} {T : Prop} {l : Lexer} (v : α) (h : l.pos ≤ l.input.length) :
    Res.Fine T l (.ok v l) := adv_refl h

theorem fine_err {α : Type} {T : Prop} {l : Lexer} (e : Err) (h : l.pos ≤ l.input.length) :
    Res.Fine (α := α) T l (.err e l) := adv_refl h

theorem fine_mono {α : Type} {T T1 : Prop} {l : Lexer} {r : Res α} (h : Res.Fine T1 l r)
    (hT : T → T1) : Res.Fine T l r := by
  cases r with
  | ok v l1 => exact h
  | err e l1 => exact h
  | panic p => trivial
  | fuelOut => exact fun t => h (hT t)

theorem fine_trans {α : Type} {T : Prop} {n : Nat} {l l1 : Lexer} {r : Res α} (h1 : Adv n l l1)
    (h2 : Res.Fine T l1 r) : Res.Fine T l r := by
  cases r with
  | ok v l2 => exact adv_trans h1 h2
  | err e l2 => exact adv_trans h1 h2
  | panic p => trivial
  | fuelOut => exact h2

theorem fine_bind {α β : Type} {T U : Prop} {l : Lexer} {r : Res α} {k : α → Lexer → Res β}
    (h1 : Res.Fine U l r) (hT : T → U)
    (h2 : ∀ v l1, Adv 0 l l1 → Res.Fine T l1 (k v l1)) : Res.Fine T l (r.bind k) := by
  cases r with
  | ok v l1 => exact fine_trans h1 (h2 v l1 h1)
  | err e l1 => exact h1
  | panic p => trivial
  | fuelOut => exact fun t => h1 (hT t)

theorem fine_read {β : Type} {T : Prop} {l : Lexer} {k : Nat → Lexer → Res β}
    (h2 : ∀ ch l1, Adv 1 l l1 → Res.Fine T l1 (k ch l1)) : Res.Fine T l (l.ReadChar.bind k) := by
  unfold Lexer.ReadChar
  by_cases h : l.pos ≥ l.input.length
  · simp only [h, if_true, Res.bind]; trivial
  · simp only [h, if_false, Res.bind]
    have hadv : Adv 1 l ⟨l.input, l.pos + 1⟩ := ⟨rfl, Nat.le_refl _, by simp at h ⊢; omega⟩
    exact fine_trans hadv (h2 _ _ hadv)

theorem fine_skip {T : Prop} {l : Lexer} (h : l.pos ≤ l.input.length) :
    Res.Fine T l l.SkipWhitespaces := by
  obtain ⟨p, h1, h2, h3, _⟩ := skipLoop_spec (l.input.length + 1) l h (by omega)
  unfold Lexer.SkipWhitespaces
  rw [h1]
  exact ⟨rfl, by simpa using h2, h3⟩

theorem fine_skipAfter {T : Prop} {l : Lexer} {r : Res Value} (h : Res.Fine T l r) :
    Res.Fine T l (skipAfter r) := by
  rw [skipAfter_bind]
  cases r with
  | ok v l1 =>
    exact fine_trans h (fine_bind (fine_skip (adv_len h).2.2) id
      (fun _ l2 h2 => fine_ok v (adv_len h2).2.2))
  | err e l1 =>
    exact fine_trans h (fine_bind (fine_skip (adv_len h).2.2) id
      (fun _ l2 h2 => fine_err e (adv_len h2).2.2))
  | panic p => trivial
  | fuelOut => exact h

theorem fine_readMany {T : Prop} : ∀ (n : Nat) (l : Lexer), l.pos ≤ l.input.length →
    Res.Fine T l (Lexer.ReadMany n l) := by
  intro n
  induction n with
  | zero => intro l h; exact fine_ok _ h
  | succ n ih =>
    intro l h
    have e : Lexer.ReadMany (n + 1) l =
        l.ReadChar.bind fun _ l1 => (Lexer.ReadMany n l1).bind fun bs l2 => .ok (l.PeekChar :: bs) l2 := by
      rw [Lexer.ReadMany]
      unfold Res.bind
      repeat (first | rfl | (split <;> try simp only [*]))
    rw [e]
    exact fine_read fun _ l1 h1 =>
      fine_bind (ih l1 (adv_len h1).2.2) id fun bs l2 h2 => fine_ok _ (adv_len h2).2.2

theorem parseStringLoop_bind (f ch stop : Nat) (l : Lexer) :
    parseStringLoop (f + 1) ch stop l =
      if ch = 34 then .ok (true, stop) l
      else if ch = 0 then .ok (false, stop) l
      else if ch = 92 then
        l.ReadChar.bind fun esc l1 =>
          if !escapeChars esc then .err (.stringUnknownEscape esc) l1
          else if esc = 117 then .err .stringUnicodeEscape l1
          else l1.ReadChar.bind fun ch1 l2 => parseStringLoop f ch1 (stop + 1 + 1) l2
      else l.ReadChar.bind fun ch1 l1 => parseStringLoop f ch1 (stop + 1) l1 := by
  rw [parseStringLoop]
  unfold Res.bind
  repeat (first | rfl | (split <;> try simp only [*]))

theorem fine_parseStringLoop {T : Prop} : ∀ (fuel ch stop : Nat) (l : Lexer),
    l.pos ≤ l.input.length → l.input.length - l.pos < fuel →
    Res.Fine T l (parseStringLoop fuel ch stop l) := by
  intro fuel
  induction fuel with
  | zero => intro ch stop l _ h; omega
  | succ f ih =>
    intro ch stop l hl hf
    rw [parseStringLoop_bind]
    split_ifs
    · exact fine_ok _ hl
    · exact fine_ok _ hl
    · refine fine_read fun esc l1 h1 => ?_
      have a1 := adv_len h1
      split_ifs
      · exact fine_err _ a1.2.2
      · exact fine_err _ a1.2.2
      · refine fine_read fun ch1 l2 h2 => ?_
        have a2 := adv_len h2
        exact ih _ _ l2 a2.2.2 (by omega)
    · refine fine_read fun ch1 l1 h1 => ?_
      have a1 := adv_len h1
      exact ih _ _ l1 a1.2.2 (by omega)

theorem parseString_bind (l : Lexer) :
    parseString l =
      l.ReadChar.bind fun _ l0 =>
        (parseStringLoop (l0.input.length + 1) l0.PeekChar l0.Position l0).bind fun cs l1 =>
          if !cs.1 then .err .stringNoClosingQuote l1
          else
            l1.ReadChar.bind fun _ l2 =>
              match l2.Range l0.Position cs.2 with
              | some s => .ok s l2
              | none => .panic .sliceBounds := by
  rw [parseString]
  unfold Res.bind
  repeat (first | rfl | (split <;> try simp only [*]))

theorem fine_parseString {T : Prop} (l : Lexer) : Res.Fine T l (parseString l) := by
  rw [parseString_bind]
  refine fine_read fun _ l0 h0 => ?_
  have a0 := adv_len h0
  refine fine_bind (U := T) (fine_parseStringLoop _ _ _ l0 a0.2.2 (by omega)) id ?_
  intro cs l1 h1
  have a1 := adv_len h1
  split_ifs
  · exact fine_err _ a1.2.2
  · refine fine_read fun _ l2 h2 => ?_
    have a2 := adv_len h2
    split
    · exact fine_ok _ a2.2.2
    · trivial

theorem parseNumberLoop_bind (f stop : Nat) (fraction exponent : Bool) (l : Lexer) :
    parseNumberLoop (f + 1) stop fraction exponent l =
      l.ReadChar.bind fun ch l1 =>
        if isDigit ch then parseNumberLoop f (stop + 1) fraction exponent l1
        else if ch = 46 then
          if fraction then .err .numberDoubleDot l1
          else
            l1.ReadChar.bind fun next l2 =>
              if isDigit next then parseNumberLoop f (stop + 1 + 1) true exponent l2
              else .err .numberDotDigit l2
        else if ch = 101 ∨ ch = 69 then
          if !fraction then .err .numberExponentBeforeFraction l1
          else if exponent then .err .numberDoubleExponent l1
          else
            l1.ReadChar.bind fun sign l2 =>
              if sign ≠ 45 ∧ sign ≠ 43 then .err .numberExponentSign l2
              else
                l2.ReadChar.bind fun digit l3 =>
                  if !isDigit digit then .err .numberExponentDigit l3
                  else parseNumberLoop f (stop + 1 + 1 + 1) fraction true l3
        else .ok (stop, fraction) l1 := by
  rw [parseNumberLoop]
  unfold Res.bind
  repeat (first | rfl | (split <;> try simp only [*]))

theorem fine_parseNumberLoop {T : Prop} : ∀ (fuel stop : Nat) (fraction exponent : Bool)
    (l : Lexer), l.input.length - l.pos < fuel →
    Res.Fine T l (parseNumberLoop fuel stop fraction exponent l) := by
  intro fuel
  induction fuel with
  | zero => intro stop fr ex l h; omega
  | succ f ih =>
    intro stop fr ex l hf
    rw [parseNumberLoop_bind]
    refine fine_read fun ch l1 h1 => ?_
    have a1 := adv_len h1
    split_ifs
    · exact ih _ _ _ l1 (by omega)
    · exact fine_err _ a1.2.2
    · refine fine_read fun next l2 h2 => ?_
      have a2 := adv_len h2
      split_ifs
      · exact ih _ _ _ l2 (by omega)
      · exact fine_err _ a2.2.2
    · exact fine_err _ a1.2.2
    · exact fine_err _ a1.2.2
    · refine fine_read fun sign l2 h2 => ?_
      have a2 := adv_len h2
      split_ifs
      · exact fine_err _ a2.2.2
      · refine fine_read fun digit l3 h3 => ?_
        have a3 := adv_len h3
        split_ifs
        · exact fine_err _ a3.2.2
        · exact ih _ _ _ l3 (by omega)
    · exact fine_ok _ a1.2.2

theorem fine_convertNumber {T : Prop} (pf : List Nat → Option Nat) (num : List Nat) (fraction : Bool)
    (l : Lexer) (h : l.pos ≤ l.input.length) :
    Res.Fine T l (convertNumber pf num fraction l) := by
  unfold convertNumber
  split
  · trivial
  · dsimp only
    repeat (first | exact fine_ok _ h | exact fine_err _ h | split)

theorem parseNumber_bind (pf : List Nat → Option Nat) (l : Lexer) :
    parseNumber pf l =
      (parseNumberLoop (l.input.length + 1) (l.Position + 1) false false l).bind fun sf l1 =>
        match l1.Range l.Position sf.1 with
        | some num => convertNumber pf num sf.2 l1
        | none => .panic .sliceBounds := by
  rw [parseNumber]
  unfold Res.bind
  repeat (first | rfl | (split <;> try simp only [*]))

theorem fine_parseNumber {T : Prop} (pf : List Nat → Option Nat) (l : Lexer) :
    Res.Fine T l (parseNumber pf l) := by
  rw [parseNumber_bind]
  refine fine_bind (U := T) (fine_parseNumberLoop _ _ _ _ l (by omega)) id ?_
  intro sf l1 h1
  split
  · exact fine_convertNumber pf _ _ l1 (adv_len h1).2.2
  · trivial

theorem fine_parseTrue {T : Prop} (l : Lexer) (h : l.pos ≤ l.input.length) :
    Res.Fine T l (parseTrue l) := by
  have e : parseTrue l = (l.ReadMany 4).bind fun token l1 =>
      if token ≠ [116, 114, 117, 101] then .err (.expectedTrue token) l1
      else .ok (.bool true) l1 := by
    rw [parseTrue]
    unfold Res.bind
    repeat (first | rfl | (split <;> try simp only [*]))
  rw [e]
  refine fine_bind (U := T) (fine_readMany 4 l h) id fun token l1 h1 => ?_
  split_ifs
  · exact fine_err _ (adv_len h1).2.2
  · exact fine_ok _ (adv_len h1).2.2

theorem fine_parseFalse {T : Prop} (l : Lexer) (h : l.pos ≤ l.input.length) :
    Res.Fine T l (parseFalse l) := by
  have e : parseFalse l = (l.ReadMany 5).bind fun token l1 =>
      if token ≠ [102, 97, 108, 115, 101] then .err (.expectedFalse token) l1
      else .ok (.bool false) l1 := by
    rw [parseFalse]
    unfold Res.bind
    repeat (first | rfl | (split <;> try simp only [*]))
  rw [e]
  refine fine_bind (U := T) (fine_readMany 5 l h) id fun token l1 h1 => ?_
  split_ifs
  · exact fine_err _ (adv_len h1).2.2
  · exact fine_ok _ (adv_len h1).2.2

theorem fine_parseNull {T : Prop} (l : Lexer) (h : l.pos ≤ l.input.length) :
    Res.Fine T l (parseNull l) := by
  have e : parseNull l = (l.ReadMany 4).bind fun token l1 =>
      if token ≠ [110, 117, 108, 108] then .err (.expectedNull token) l1
      else .ok .null l1 := by
    rw [parseNull]
    unfold Res.bind
    repeat (first | rfl | (split <;> try simp only [*]))
  rw [e]
  refine fine_bind (U := T) (fine_readMany 4 l h) id fun token l1 h1 => ?_
  split_ifs
  · exact fine_err _ (adv_len h1).2.2
  · exact fine_ok _ (adv_len h1).2.2

theorem peek_ne_zero_lt (l : Lexer) (h : l.PeekChar ≠ 0) : l.pos < l.input.length := by
  by_contra hc
  exact h (by simp [Lexer.PeekChar]; omega)

/-- The invariant and the fuel bounds of the five mutually recursive routines:
a returned lexer is the start lexer moved on within the input, and the fuel
runs out only below three units for each byte left. -/
theorem fine_mutual (pf : List Nat → Option Nat) : ∀ (f : Nat),
    (∀ l : Lexer, l.pos ≤ l.input.length →
      Res.Fine (3 * (l.input.length - l.pos) + 1 ≤ f) l (parseValue pf f l)) ∧
    (∀ l : Lexer, l.pos ≤ l.input.length →
      Res.Fine (l.pos < l.input.length ∧ 3 * (l.input.length - l.pos) ≤ f) l (parseArray pf f l)) ∧
    (∀ (vs : List Value) (l : Lexer), l.pos ≤ l.input.length →
      Res.Fine (3 * (l.input.length - l.pos) + 2 ≤ f) l (parseArrayLoop pf f vs l)) ∧
    (∀ l : Lexer, l.pos ≤ l.input.length →
      Res.Fine (l.pos < l.input.length ∧ 3 * (l.input.length - l.pos) ≤ f) l
        (parseObject pf f l)) ∧
    (∀ (obj : List (List Nat × Value)) (l : Lexer), l.pos ≤ l.input.length →
      Res.Fine (3 * (l.input.length - l.pos) + 2 ≤ f) l (parseObjectLoop pf f obj l)) := by
  intro f
  induction f with
  | zero =>
    refine ⟨?_, ?_, ?_, ?_, ?_⟩
    · intro l _; rw [parseValue]; intro h; omega
    · intro l _; rw [parseArray]; intro h; omega
    · intro vs l _; rw [parseArrayLoop]; intro h; omega
    · intro l _; rw [parseObject]; intro h; omega
    · intro obj l _; rw [parseObjectLoop]; intro h; omega
  | succ f ih =>
    obtain ⟨ihV, ihA, ihAL, ihO, ihOL⟩ := ih
    refine ⟨?_, ?_, ?_, ?_, ?_⟩
    · intro l hl
      rw [parseValue_bind]
      refine fine_bind (U := 3 * (l.input.length - l.pos) + 1 ≤ f + 1) (fine_skip hl) id ?_
      intro _ l1 h1
      have a1 := adv_len h1
      refine fine_skipAfter ?_
      split_ifs with c0 c1 c2 c3 c4 c5 c6 c7
      · exact fine_ok _ a1.2.2
      · exact fine_bind (U := 3 * (l.input.length - l.pos) + 1 ≤ f + 1) (fine_parseString l1) id
          fun s l2 h2 => fine_ok _ (adv_len h2).2.2
      · have hlt := peek_ne_zero_lt l1 c0
        exact fine_mono (ihA l1 a1.2.2) (fun t => ⟨hlt, by omega⟩)
      · have hlt := peek_ne_zero_lt l1 c0
        exact fine_mono (ihO l1 a1.2.2) (fun t => ⟨hlt, by omega⟩)
      · exact fine_parseTrue l1 a1.2.2
      · exact fine_parseFalse l1 a1.2.2
      · exact fine_parseNull l1 a1.2.2
      · exact fine_parseNumber pf l1
      · exact fine_err _ a1.2.2
    · intro l hl
      rw [parseArray_bind]
      refine fine_read fun _ l1 h1 => ?_
      have a1 := adv_len h1
      exact fine_mono (ihAL [] l1 a1.2.2) (fun t => by omega)
    · intro vs l hl
      rw [parseArrayLoop_bind]
      refine fine_bind (ihV l hl) (fun t => by omega) ?_
      intro v l1 h1
      have a1 := adv_len h1
      split_ifs
      · refine fine_read fun _ l2 h2 => ?_
        have a2 := adv_len h2
        exact fine_mono (ihAL _ l2 a2.2.2) (fun t => by omega)
      · exact fine_read fun _ l2 h2 => fine_ok _ (adv_len h2).2.2
      · exact fine_err _ a1.2.2
    · intro l hl
      rw [parseObject_bind]
      refine fine_read fun _ l1 h1 => ?_
      have a1 := adv_len h1
      exact fine_mono (ihOL [] l1 a1.2.2) (fun t => by omega)
    · intro obj l hl
      rw [parseObjectLoop_bind]
      refine fine_bind (U := 3 * (l.input.length - l.pos) + 2 ≤ f + 1) (fine_skip hl) id ?_
      intro _ l1 h1
      have a1 := adv_len h1
      refine fine_bind (U := 3 * (l.input.length - l.pos) + 2 ≤ f + 1) (fine_parseString l1) id ?_
      intro key l2 h2
      have a2 := adv_len h2
      refine fine_bind (U := 3 * (l.input.length - l.pos) + 2 ≤ f + 1) (fine_skip a2.2.2) id ?_
      intro _ l3 h3
      have a3 := adv_len h3
      split_ifs
      · exact fine_err _ a3.2.2
      · refine fine_read fun _ l4 h4 => ?_
        have a4 := adv_len h4
        refine fine_bind (ihV l4 a4.2.2) (fun t => by omega) ?_
        intro v l5 h5
        have a5 := adv_len h5
        split_ifs
        · refine fine_read fun _ l6 h6 => ?_
          have a6 := adv_len h6
          exact fine_mono (ihOL _ l6 a6.2.2) (fun t => by omega)
        · exact fine_read fun _ l6 h6 => fine_ok _ (adv_len h6).2.2
        · exact fine_err _ a5.2.2

theorem fine_keeps {α : Type} {T : Prop} {l : Lexer} {r : Res α} (h : Res.Fine T l r) :
    Res.Keeps l r := by
  cases r with
  | ok v l1 => exact ⟨h.1, by simpa using h.2.1, (adv_len h).2.2⟩
  | err e l1 => exact ⟨h.1, by simpa using h.2.1, (adv_len h).2.2⟩
  | panic p => trivial
  | fuelOut => trivial

theorem fine_not_fuelOut {α : Type} {T : Prop} {l : Lexer} {r : Res α} (h : Res.Fine T l r)
    (t : T) : r ≠ .fuelOut := by
  intro hr
  subst hr
  exact h t

theorem fine_readChar {T : Prop} (l : Lexer) : Res.Fine T l l.ReadChar := by
  have h : Res.Fine T l (l.ReadChar.bind fun ch l1 => .ok ch l1) :=
    fine_read fun ch l1 h1 => fine_ok ch (adv_len h1).2.2
  have e : (l.ReadChar.bind fun ch l1 => Res.ok ch l1) = l.ReadChar := by
    cases l.ReadChar <;> rfl
  rwa [e] at h

theorem readMany_not_fuelOut : ∀ (n : Nat) (l : Lexer), Lexer.ReadMany n l ≠ .fuelOut := by
  intro n
  induction n with
  | zero => intro l; simp [Lexer.ReadMany]
  | succ n ih =>
    intro l
    rw [Lexer.ReadMany]
    unfold Lexer.ReadChar
    by_cases h : l.pos ≥ l.input.length
    · simp [h]
    · simp only [h, if_false]
      have := ih ⟨l.input, l.pos + 1⟩
      cases hr : Lexer.ReadMany n ⟨l.input, l.pos + 1⟩ with
      | ok bs l2 => simp
      | err e l2 => simp
      | panic p => simp
      | fuelOut => exact absurd hr this

theorem fine_Parse (pf : List Nat → Option Nat) (l : Lexer) (h : l.pos ≤ l.input.length) :
    Res.Fine True l (Parse pf l) := by
  unfold Parse parseFuel
  exact fine_mono ((fine_mutual pf _).1 l h) (fun _ => by omega)

/-! ## The claims -/

/-- C1 (as stated, fails): `1e5` is a text of the JSON grammar, and Parse returns
on it the error "invalid number: exponent before fraction", whatever
strconv.ParseFloat does. -/
theorem parse_rejects_valid_json :
    oneE5.valid = true ∧ oneE5.render = ascii "1e5" ∧
      ∀ pf : List Nat → Option Nat,
        Parse pf (NewLexer oneE5.render) = .err .numberExponentBeforeFraction ⟨ascii "1e5", 1⟩ :=
  ⟨by decide, by decide, fun _ => rfl⟩

/-- C1 (amended): for every JSON text of the grammar (a well-formed tree) within
the design of the parser -- every array and object has at least one entry,
no string holds a `\u` escape, a number has an exponent only after a fraction
and with an explicit sign, an integer fits in 64 bits and strconv.ParseFloat
converts a float -- Parse returns with a nil error the value of the text, with
strings and keys as the raw text between their quotes, and the cursor at the
end of the input. -/
theorem parse_supported_json (pf : List Nat → Option Nat) (j : Json) (hv : j.valid = true)
    (hs : j.supported pf = true) :
    Parse pf (NewLexer j.render) = .ok (j.refValue pf) ⟨j.render, j.render.length⟩ := by
  have h := json_parse_sound pf j hv hs (3 * j.render.length + 1) [] [] [] [] (by simp) (by simp)
    (by rfl) (by rfl) (Nat.le_refl _)
  simp only [List.nil_append, List.append_nil] at h
  rw [cursor_nil, Parse_cursor, h]
  simp [cursor]

theorem parse_supported_json_witness :
    (sampleJson.valid = true ∧ sampleJson.supported sampleParseFloat = true) ∧
    Parse sampleParseFloat (NewLexer sampleJson.render) =
      .ok (sampleJson.refValue sampleParseFloat) ⟨sampleJson.render, sampleJson.render.length⟩ :=
  ⟨⟨by decide, by decide⟩, parse_supported_json sampleParseFloat sampleJson (by decide) (by decide)⟩

/-- C2 (the claim fails on the code): on the one-byte input `{` Parse reaches the
panic of ReadChar. parseObject reads the brace, and parseString then calls
ReadChar at the end of the input without peeking first. -/
theorem parse_open_brace_panics (pf : List Nat → Option Nat) :
    Parse pf (NewLexer (ascii "\x7b")) = .panic .readAfterEOF := by
  rfl

/-- C3 (the claim fails on the code): on `[`, any run of whitespace, `]` Parse
returns the error "unexpected character ]", with the cursor on the closing
bracket, and no empty array: parseArray parses a value before it looks for
the closing bracket. -/
theorem parse_empty_array (pf : List Nat → Option Nat) (ws : List Nat)
    (hws : ∀ c ∈ ws, isSpace c = true) :
    Parse pf (NewLexer (91 :: (ws ++ [93]))) =
      .err (.unexpectedCharacter 93) ⟨91 :: (ws ++ [93]), 1 + ws.length⟩ := by
  have hf : 3 * (91 :: (ws ++ [93])).length + 1 = (3 * ws.length + 3) + 1 + 1 + 1 + 1 := by
    simp; omega
  rw [cursor_nil, Parse_cursor, hf]
  have h1 := parseValue_array pf ((3 * ws.length + 3) + 1 + 1 + 1) [] [] (ws ++ [93]) (by simp)
  simp only [List.nil_append] at h1
  rw [h1, parseArray_open, parseArrayLoop,
    parseValue_closing_bracket pf (3 * ws.length + 3) ([] ++ [91]) ws [] hws]
  simp only [skipAfter, skip_cursor_none _ _ (show isSpace (([93] : List Nat).headD 0) = false by decide)]
  simp [cursor, Nat.add_comm]

theorem parse_empty_array_witness :
    (∀ c ∈ [32, 10], isSpace c = true) ∧
    Parse (fun _ => none) (NewLexer (91 :: ([32, 10] ++ [93]))) =
      .err (.unexpectedCharacter 93) ⟨91 :: ([32, 10] ++ [93]), 1 + [32, 10].length⟩ :=
  ⟨by decide, parse_empty_array (fun _ => none) [32, 10] (by decide)⟩

/-- C4 (the claim fails on the code): on `{}` Parse returns the error
"invalid string: no closing quote" and no empty object: parseObject parses a
key before it looks for the closing brace, and parseString steps over the `}`
as if it were the opening quote. -/
theorem parse_empty_object (pf : List Nat → Option Nat) :
    Parse pf (NewLexer (ascii "\x7b\x7d")) =
      .err .stringNoClosingQuote ⟨ascii "\x7b\x7d", 2⟩ := by
  rfl

/-- C5 (the claim fails on the code for `tru`): on `tru` Parse aborts with the
panic of ReadChar, because ReadMany(4) reads a fourth byte that is not there;
on `[1,2` it returns the InvalidArray error "expected ], got" and on `{"a":1`
the InvalidObject error "expected }, got", both at the end of the input. -/
theorem parse_truncated_inputs (pf : List Nat → Option Nat) :
    Parse pf (NewLexer (ascii "tru")) = .panic .readAfterEOF ∧
    (Parse pf (NewLexer (ascii "[1,2")) = .err (.arrayExpectedBracket 0) ⟨ascii "[1,2", 4⟩ ∧
      (Err.arrayExpectedBracket 0).kind = .InvalidArray) ∧
    (Parse pf (NewLexer (ascii "\x7b\"a\":1")) =
        .err (.objectExpectedBrace 0) ⟨ascii "\x7b\"a\":1", 6⟩ ∧
      (Err.objectExpectedBrace 0).kind = .InvalidObject) :=
  ⟨rfl, ⟨rfl, rfl⟩, ⟨rfl, rfl⟩⟩

/-- C6 (the claim fails on the code): on `{a":1}`, whose key lacks its opening
quote, Parse returns with a nil error the object that maps the empty string to
1: parseString steps over the byte `a` as if it were the opening quote. -/
theorem parse_object_key_without_quote (pf : List Nat → Option Nat) :
    Parse pf (NewLexer (ascii "\x7ba\":1\x7d")) =
      .ok (.obj [([], .int 1)]) ⟨ascii "\x7ba\":1\x7d", 6⟩ := by
  rfl

/-- C7: for every run of units, each a byte other than `"`, `\` and NUL or a
backslash before one of `"`, `\`, `/`, `b`, `f`, `n`, `r`, `t`, Parse on the
quoted text returns the string of exactly the bytes between the quotes,
escapes left as written, with a nil error and the cursor at the end of the
input. -/
theorem parse_string_raw (pf : List Nat → Option Nat) (us : List StrUnit)
    (hus : ∀ u ∈ us, u.accepted = true) :
    Parse pf (NewLexer (34 :: (strBytes us ++ [34]))) =
      .ok (.str (strBytes us)) ⟨34 :: (strBytes us ++ [34]), (34 :: (strBytes us ++ [34])).length⟩ := by
  have h := parseValue_string pf (3 * (34 :: (strBytes us ++ [34])).length) [] [] us [] []
    (by simp) hus (by simp) (by simp [isSpace_zero])
  simpa [Parse, parseFuel, NewLexer, cursor] using h

theorem parse_string_raw_witness :
    (∀ u ∈ [StrUnit.plain 97, .escape 34, .plain 98, .escape 110], u.accepted = true) ∧
    Parse (fun _ => none) (NewLexer (34 :: (strBytes [.plain 97, .escape 34, .plain 98, .escape 110] ++ [34]))) =
      .ok (.str [97, 92, 34, 98, 92, 110]) ⟨[34, 97, 92, 34, 98, 92, 110, 34], 8⟩ :=
  ⟨by decide, parse_string_raw (fun _ => none) [.plain 97, .escape 34, .plain 98, .escape 110] (by decide)⟩

/-- C8: when the text after an opening quote has, before any closing quote, an
unescaped backslash followed by a byte outside `"`, `\`, `/`, `b`, `f`, `n`,
`r`, `t` (the byte `u` and the end of the input included), or when it has no
unescaped closing quote at all, parseString and Parse both return an error of
the InvalidString kind. -/
theorem invalid_string_error (pf : List Nat → Option Nat) (s : List Nat)
    (h : hasBadEscape s = true ∨ hasClosingQuote s = false) :
    (∃ e l, parseString (NewLexer (34 :: s)) = .err e l ∧ e.kind = .InvalidString) ∧
    (∃ e l, Parse pf (NewLexer (34 :: s)) = .err e l ∧ e.kind = .InvalidString) := by
  obtain ⟨e, l, h1, h2⟩ := parseString_invalid s [] h
  refine ⟨⟨e, l, h1, h2⟩, ?_⟩
  obtain ⟨l1, h3⟩ := skipAfter_err e l
  refine ⟨e, l1, ?_, h2⟩
  unfold Parse parseFuel parseValue
  rw [cursor_nil, skip_cursor_none _ _ (by simp [isSpace_quote])]
  simp only [peek_cursor, List.headD_cons]
  simp +decide only [if_false, if_true]
  rw [h1]
  exact h3

theorem invalid_string_error_witness :
    (hasBadEscape [97, 92, 117, 48, 48, 52, 49, 34] = true ∨
      hasClosingQuote [97, 92, 117, 48, 48, 52, 49, 34] = false) ∧
    ((∃ e l, parseString (NewLexer (34 :: [97, 92, 117, 48, 48, 52, 49, 34])) = .err e l ∧
        e.kind = .InvalidString) ∧
    (∃ e l, Parse (fun _ => none) (NewLexer (34 :: [97, 92, 117, 48, 48, 52, 49, 34])) = .err e l ∧
        e.kind = .InvalidString)) :=
  ⟨Or.inl (by decide), invalid_string_error (fun _ => none) [97, 92, 117, 48, 48, 52, 49, 34]
    (Or.inl (by decide))⟩

/-- C9: on the canonical decimal text of an integer `n`, Parse returns the
`int` value `n` with a nil error when `n` fits in 64 bits, and the range error
of strconv.Atoi (a NumberFormat error) when it does not; in both cases the
cursor is at the end of the input. -/
theorem parse_integer (pf : List Nat → Option Nat) (n : Int) :
    Parse pf (NewLexer (decimalText n)) =
        (if -(2 : Int) ^ 63 ≤ n ∧ n ≤ (2 : Int) ^ 63 - 1 then
          .ok (.int n) ⟨decimalText n, (decimalText n).length⟩
        else .err (.atoiRange (decimalText n)) ⟨decimalText n, (decimalText n).length⟩) ∧
      (Err.atoiRange (decimalText n)).kind = .NumberFormat := by
  refine ⟨?_, rfl⟩
  have h := parseValue_int pf (3 * (decimalText n).length) [] [] (decide (n < 0))
    (natDigits (n.natAbs + 1) n.natAbs) [] [] (by simp) (natDigits_canonical n.natAbs).1 (by simp)
    (by decide) (by decide)
  rw [signedValue_decimalText] at h
  simp only [List.nil_append, List.append_nil] at h
  rw [cursor_nil, Parse_cursor]
  unfold decimalText at h ⊢
  rw [h]
  simp only [intResult, inInt64, cursor, List.append_nil, Bool.and_eq_true, decide_eq_true_eq]

/-- C10: on an input that starts with an optional `-`, then one or more digits,
then `e` or `E`, whatever follows, Parse returns the InvalidNumber error
"exponent before fraction", with the cursor on the `e`. -/
theorem parse_exponent_before_fraction (pf : List Nat → Option Nat) (neg : Bool) (ds : List Nat)
    (e : Nat) (rest : List Nat) (hne : ds ≠ []) (hds : ∀ d ∈ ds, isDigit d = true)
    (he : e = 101 ∨ e = 69) :
    Parse pf (NewLexer ((if neg then [45] else []) ++ ds ++ e :: rest)) =
        .err .numberExponentBeforeFraction
          ⟨(if neg then [45] else []) ++ ds ++ e :: rest, ((if neg then [45] else []) ++ ds).length⟩ ∧
      Err.numberExponentBeforeFraction.kind = .InvalidNumber := by
  refine ⟨?_, rfl⟩
  have hsp : isSpace ((e :: rest).headD 0) = false := by
    rcases he with h | h <;> subst h <;> rfl
  have key : ∀ (x : Nat) (ds1 : List Nat), (x = 45 ∨ isDigit x = true) →
      (∀ d ∈ ds1, isDigit d = true) →
      Parse pf (cursor [] (x :: (ds1 ++ e :: rest))) =
        .err .numberExponentBeforeFraction (cursor (x :: ds1) (e :: rest)) := by
    intro x ds1 hx h1
    have h2 := parseValue_number pf (3 * (x :: (ds1 ++ e :: rest)).length) [] [] x
      (ds1 ++ e :: rest) (by simp) hx
    have h3 := parseNumber_expBeforeFraction pf [] x ds1 e rest h1 he
    have h4 := skip_cursor_none (x :: ds1) (e :: rest) hsp
    simp only [List.nil_append] at h2 h3
    rw [Parse_cursor, h2, h3]
    simp only [skipAfter, h4]
  rw [cursor_nil]
  cases neg with
  | true => simpa [cursor] using key 45 ds (Or.inl rfl) hds
  | false =>
    cases ds with
    | nil => exact absurd rfl hne
    | cons d ds1 =>
      simpa [cursor] using key d ds1 (Or.inr (hds d (by simp))) (fun c hc => hds c (by simp [hc]))

theorem parse_exponent_before_fraction_witness :
    ([49] ≠ [] ∧ (∀ d ∈ [49], isDigit d = true) ∧ ((101 : Nat) = 101 ∨ (101 : Nat) = 69)) ∧
    (Parse (fun _ => none) (NewLexer ((if false then [45] else []) ++ [49] ++ 101 :: [53])) =
        .err .numberExponentBeforeFraction
          ⟨(if false then [45] else []) ++ [49] ++ 101 :: [53], ((if false then [45] else []) ++ [49]).length⟩ ∧
      Err.numberExponentBeforeFraction.kind = .InvalidNumber) :=
  ⟨⟨by decide, by decide, Or.inl rfl⟩,
    parse_exponent_before_fraction (fun _ => none) false [49] 101 [53] (by decide) (by decide)
      (Or.inl rfl)⟩

/-- C11: on every input that starts with an optional `-`, then the digit `0`,
then one more digit, whatever follows, Parse returns an error of the
InvalidNumber kind (the "0 start" error of the leading zero check, or an
error of the scanning loop when the rest of the token is malformed); on `0`
and on `-0` alone it returns the integer 0 with a nil error. -/
theorem parse_leading_zero (pf : List Nat → Option Nat) (neg : Bool) (d : Nat) (rest : List Nat)
    (hd : isDigit d = true) :
    (∃ e l, Parse pf (NewLexer (signBytes neg ++ 48 :: d :: rest)) = .err e l ∧
      e.kind = .InvalidNumber) ∧
    Parse pf (NewLexer [48]) = .ok (.int 0) ⟨[48], 1⟩ ∧
    Parse pf (NewLexer [45, 48]) = .ok (.int 0) ⟨[45, 48], 2⟩ := by
  refine ⟨?_, rfl, rfl⟩
  have h48 : isDigit 48 = true := by decide
  obtain ⟨x, ds, hsplit, hx, hds⟩ : ∃ x ds, signBytes neg ++ [48, d] = x :: ds ∧
      (x = 45 ∨ isDigit x = true) ∧ ∀ c ∈ ds, isDigit c = true := by
    cases neg with
    | true =>
      refine ⟨45, [48, d], by simp [signBytes], Or.inl rfl, ?_⟩
      intro c hc
      simp at hc
      rcases hc with h | h <;> subst h <;> assumption
    | false =>
      refine ⟨48, [d], by simp [signBytes], Or.inr h48, ?_⟩
      intro c hc
      simp at hc
      subst hc
      exact hd
  have hin : signBytes neg ++ 48 :: d :: rest = x :: (ds ++ rest) := by
    have : signBytes neg ++ 48 :: d :: rest = (signBytes neg ++ [48, d]) ++ rest := by simp
    rw [this, hsplit]; simp
  have h2 := parseValue_number pf (3 * (x :: (ds ++ rest)).length) [] [] x (ds ++ rest) (by simp) hx
  simp only [List.nil_append] at h2
  rw [hin, cursor_nil, Parse_cursor, h2]
  rcases parseNumber_outcome pf [] x ds rest hds with ⟨e, l, h3, h4⟩ | ⟨tok, tail, fr1, _, h4⟩
  · obtain ⟨l1, h5⟩ := skipAfter_err e l
    exact ⟨e, l1, by rw [h3, h5], h4⟩
  · have h5 : x :: (ds ++ tok) = signBytes neg ++ 48 :: d :: tok := by
      have : signBytes neg ++ 48 :: d :: tok = (signBytes neg ++ [48, d]) ++ tok := by simp
      rw [this, hsplit]; simp
    rw [h4, h5, convertNumber_zeroStart pf neg d tok fr1 _ hd]
    obtain ⟨l1, h6⟩ := skipAfter_err .numberZeroStart (cursor ([] ++ (signBytes neg ++ 48 :: d :: tok)) tail)
    exact ⟨.numberZeroStart, l1, h6, rfl⟩

theorem parse_leading_zero_witness :
    isDigit 49 = true ∧
    ((∃ e l, Parse (fun _ => none) (NewLexer (signBytes false ++ 48 :: 49 :: [])) = .err e l ∧
      e.kind = .InvalidNumber) ∧
    Parse (fun _ => none) (NewLexer [48]) = .ok (.int 0) ⟨[48], 1⟩ ∧
    Parse (fun _ => none) (NewLexer [45, 48]) = .ok (.int 0) ⟨[45, 48], 2⟩) :=
  ⟨by decide, parse_leading_zero (fun _ => none) false 49 [] (by decide)⟩

/-- C12: in a number token -- a first byte that is `-` or a digit, then a run of
digits -- a `.` that no digit follows (the end of the input included, as in
`1.`) makes Parse return the InvalidNumber error "dot must be followed by
digit"; a second `.` after a fraction part, directly after its digits (as in
`1.2.3`) or after an exponent, makes Parse return the InvalidNumber error
"double dot", with the cursor on that second dot. -/
theorem parse_dot_errors (pf : List Nat → Option Nat) (x : Nat) (ds rest1 : List Nat) (y : Nat)
    (fds rest2 : List Nat) (e sg y2 : Nat) (eds rest3 : List Nat)
    (hx : x = 45 ∨ isDigit x = true) (hds : ∀ d ∈ ds, isDigit d = true)
    (hr : isDigit (rest1.headD 0) = false) (hy : isDigit y = true)
    (hfds : ∀ d ∈ fds, isDigit d = true) (he : e = 101 ∨ e = 69) (hsg : sg = 45 ∨ sg = 43)
    (hy2 : isDigit y2 = true) (heds : ∀ d ∈ eds, isDigit d = true) :
    (∃ l, Parse pf (NewLexer (x :: (ds ++ 46 :: rest1))) = .err .numberDotDigit l) ∧
    Parse pf (NewLexer (x :: (ds ++ 46 :: y :: (fds ++ 46 :: rest2)))) =
      .err .numberDoubleDot
        ⟨x :: (ds ++ 46 :: y :: (fds ++ 46 :: rest2)), (x :: (ds ++ 46 :: y :: fds)).length⟩ ∧
    Parse pf (NewLexer (x :: (ds ++ 46 :: y :: (fds ++ e :: sg :: y2 :: (eds ++ 46 :: rest3))))) =
      .err .numberDoubleDot
        ⟨x :: (ds ++ 46 :: y :: (fds ++ e :: sg :: y2 :: (eds ++ 46 :: rest3))),
          (x :: (ds ++ 46 :: y :: (fds ++ e :: sg :: y2 :: eds))).length⟩ ∧
    Err.numberDotDigit.kind = .InvalidNumber ∧ Err.numberDoubleDot.kind = .InvalidNumber := by
  refine ⟨?_, ?_, ?_, rfl, rfl⟩
  · obtain ⟨l, h, _⟩ := parse_number_err pf x (ds ++ 46 :: rest1) .numberDotDigit _ hx
      (parseNumberLoop_digits_dotDigit false _ [] x ds rest1 1 hds hr (by simp; omega))
    exact ⟨l, h⟩
  · have h1 : parseNumberLoop ((x :: (ds ++ 46 :: y :: (fds ++ 46 :: rest2))).length + 1) 1 false
        false (cursor [] (x :: (ds ++ 46 :: y :: (fds ++ 46 :: rest2)))) =
        .err .numberDoubleDot (cursor ([] ++ x :: (ds ++ [46]) ++ y :: fds) (46 :: rest2)) := by
      rw [parseNumberLoop_frac false _ [] x ds y (fds ++ 46 :: rest2) 1 hds hy (by simp; omega),
        parseNumberLoop_digits_doubleDot false _ _ y fds rest2 _ hfds (by simp; omega)]
    obtain ⟨l, h, h2⟩ := parse_number_err pf x _ .numberDoubleDot _ hx h1
    rw [skipAfter_err_dot] at h2
    rw [h]
    injection h2 with _ h3
    rw [← h3]
    simp [cursor]
  · have h1 : parseNumberLoop
        ((x :: (ds ++ 46 :: y :: (fds ++ e :: sg :: y2 :: (eds ++ 46 :: rest3)))).length + 1) 1
        false false
        (cursor [] (x :: (ds ++ 46 :: y :: (fds ++ e :: sg :: y2 :: (eds ++ 46 :: rest3))))) =
        .err .numberDoubleDot
          (cursor ([] ++ x :: (ds ++ [46]) ++ y :: (fds ++ [e, sg]) ++ y2 :: eds) (46 :: rest3)) := by
      rw [parseNumberLoop_frac false _ [] x ds y (fds ++ e :: sg :: y2 :: (eds ++ 46 :: rest3)) 1
          hds hy (by simp; omega),
        parseNumberLoop_exponent _ _ y fds e sg y2 (eds ++ 46 :: rest3) _ hfds he hsg hy2
          (by simp; omega),
        parseNumberLoop_digits_doubleDot true _ _ y2 eds rest3 _ heds (by simp; omega)]
    obtain ⟨l, h, h2⟩ := parse_number_err pf x _ .numberDoubleDot _ hx h1
    rw [skipAfter_err_dot] at h2
    rw [h]
    injection h2 with _ h3
    rw [← h3]
    simp [cursor]

theorem parse_dot_errors_witness :
    (((49 : Nat) = 45 ∨ isDigit 49 = true) ∧ (∀ d ∈ ([] : List Nat), isDigit d = true) ∧
      isDigit (([] : List Nat).headD 0) = false ∧ isDigit 50 = true ∧
      (∀ d ∈ ([] : List Nat), isDigit d = true) ∧ ((101 : Nat) = 101 ∨ (101 : Nat) = 69) ∧
      ((43 : Nat) = 45 ∨ (43 : Nat) = 43) ∧ isDigit 51 = true ∧
      (∀ d ∈ ([] : List Nat), isDigit d = true)) ∧
    ((∃ l, Parse (fun _ => none) (NewLexer (49 :: ([] ++ 46 :: []))) = .err .numberDotDigit l) ∧
    Parse (fun _ => none) (NewLexer (49 :: ([] ++ 46 :: 50 :: ([] ++ 46 :: [51])))) =
      .err .numberDoubleDot
        ⟨49 :: ([] ++ 46 :: 50 :: ([] ++ 46 :: [51])), (49 :: ([] ++ 46 :: 50 :: [])).length⟩ ∧
    Parse (fun _ => none)
        (NewLexer (49 :: ([] ++ 46 :: 50 :: ([] ++ 101 :: 43 :: 51 :: ([] ++ 46 :: [52]))))) =
      .err .numberDoubleDot
        ⟨49 :: ([] ++ 46 :: 50 :: ([] ++ 101 :: 43 :: 51 :: ([] ++ 46 :: [52]))),
          (49 :: ([] ++ 46 :: 50 :: ([] ++ 101 :: 43 :: 51 :: []))).length⟩ ∧
    Err.numberDotDigit.kind = .InvalidNumber ∧ Err.numberDoubleDot.kind = .InvalidNumber) :=
  ⟨⟨Or.inr (by decide), by simp, by decide, by decide, by simp, Or.inl rfl, Or.inr rfl, by decide,
      by simp⟩,
    parse_dot_errors (fun _ => none) 49 [] [] 50 [] [51] 101 43 51 [] [52] (Or.inr (by decide))
      (by simp) (by decide) (by decide) (by simp) (Or.inl rfl) (Or.inr rfl) (by decide) (by simp)⟩

/-- C13: for every non-empty list of members whose keys hold no `"`, no `\` and
no NUL byte and whose values are 64-bit integers, Parse on the text
`{"k_1":n_1,...,"k_m":n_m}` (the integers in canonical decimal text) returns
with a nil error, the cursor at the end of the input, an object that maps
every key to the integer of its last occurrence in the list and that has a
binding for exactly the keys of the list. -/
theorem parse_int_object (pf : List Nat → Option Nat) (m : List Nat × Int)
    (ms : List (List Nat × Int))
    (h : ∀ x ∈ m :: ms, plainKey x.1 = true ∧ inInt64 x.2 = true) :
    Parse pf (NewLexer (intObjectText m ms)) =
        .ok (.obj (intBindings [] (m :: ms))) ⟨intObjectText m ms, (intObjectText m ms).length⟩ ∧
      (∀ k, mapGet (intBindings [] (m :: ms)) k = (lastValue (m :: ms) k).map Value.int) ∧
      (∀ k, (mapGet (intBindings [] (m :: ms)) k).isSome = true ↔
        k ∈ (m :: ms).map (fun x => x.1)) := by
  have hget : ∀ k, mapGet (intBindings [] (m :: ms)) k = (lastValue (m :: ms) k).map Value.int := by
    intro k
    rw [mapGet_intBindings]
    cases lastValue (m :: ms) k <;> simp [mapGet]
  refine ⟨?_, hget, ?_⟩
  · have hlen : ms.length + 1 ≤ (intMembersText m ms).length := by
      clear h hget
      induction ms generalizing m with
      | nil => simp [intMembersText, intMemberText]
      | cons m2 ms ih =>
        have := ih m2
        simp [intMembersText] at this ⊢
        omega
    obtain ⟨f, hf⟩ : ∃ f, 3 * (intObjectText m ms).length + 1 = f + 1 + 1 :=
      ⟨3 * (intObjectText m ms).length - 1, by simp [intObjectText]; omega⟩
    have h1 := parseValue_object pf (f + 1) [] [] (intMembersText m ms ++ [125]) (by simp)
    have h2 := parseObjectLoop_ints pf ms m h f ([] ++ [] ++ [123]) [] []
      (by simp [intObjectText] at hf; omega)
    simp only [List.nil_append] at h1 h2
    rw [cursor_nil, Parse_cursor, hf]
    unfold intObjectText
    rw [h1, parseObject_open]
    simp only [List.nil_append]
    rw [h2]
    have h3 := skipAfter_ok (.obj (intBindings [] (m :: ms)))
      ([123] ++ intMembersText m ms ++ [125]) [] [] (by simp) (by rfl)
    simp only [List.nil_append, List.append_nil] at h3
    rw [h3]
    simp [cursor]
  · intro k
    rw [hget, ← lastValue_isSome]
    cases lastValue (m :: ms) k <;> simp

theorem parse_int_object_witness :
    (∀ x ∈ (([97], 1) : List Nat × Int) :: [([97], 2)],
      plainKey x.1 = true ∧ inInt64 x.2 = true) ∧
    (Parse (fun _ => none) (NewLexer (intObjectText ([97], 1) [([97], 2)])) =
        .ok (.obj (intBindings [] (([97], 1) :: [([97], 2)])))
          ⟨intObjectText ([97], 1) [([97], 2)], (intObjectText ([97], 1) [([97], 2)]).length⟩ ∧
      (∀ k, mapGet (intBindings [] (([97], 1) :: [([97], 2)])) k =
        (lastValue (([97], 1) :: [([97], 2)]) k).map Value.int) ∧
      (∀ k, (mapGet (intBindings [] (([97], 1) :: [([97], 2)])) k).isSome = true ↔
        k ∈ ((([97], 1) : List Nat × Int) :: [([97], 2)]).map (fun x => x.1))) :=
  ⟨by decide, parse_int_object (fun _ => none) ([97], 1) [([97], 2)] (by decide)⟩

/-- C14: for every non-empty list of 64-bit integers written in canonical
decimal text, each with any run of space, tab, LF and CR before and after it,
Parse on the text `[n_1,...,n_k]` returns with a nil error, the cursor at
the end of the input, the array whose i-th element is the integer `n_i`: as
many elements as the source has, in the order of the source. -/
theorem parse_int_array (pf : List Nat → Option Nat) (e : IntElem) (es : List IntElem)
    (h : ∀ x ∈ e :: es, x.wellFormed = true) :
    Parse pf (NewLexer (intArrayText e es)) =
        .ok (.arr ((e :: es).map (fun x => Value.int x.n)))
          ⟨intArrayText e es, (intArrayText e es).length⟩ ∧
      ((e :: es).map (fun x => Value.int x.n)).length = (e :: es).length := by
  refine ⟨?_, by simp⟩
  have hlen : es.length + 1 ≤ (intElemsText e es).length := by
    clear h
    induction es generalizing e with
    | nil =>
      have := (natDigits_spec (e.n.natAbs + 1) e.n.natAbs (by omega)).2.2
      obtain ⟨d, rest, hd, _⟩ := this
      simp [intElemsText, IntElem.bytes, decimalText, hd]
      omega
    | cons e2 es ih =>
      have := ih e2
      simp [intElemsText] at this ⊢
      omega
  obtain ⟨f, hf⟩ : ∃ f, 3 * (intArrayText e es).length + 1 = f + 1 + 1 :=
    ⟨3 * (intArrayText e es).length - 1, by simp [intArrayText]; omega⟩
  have h1 := parseValue_array pf (f + 1) [] [] (intElemsText e es ++ [93]) (by simp)
  have h2 := parseArrayLoop_ints pf es e h f ([] ++ [] ++ [91]) [] []
    (by simp [intArrayText] at hf; omega)
  simp only [List.nil_append] at h1 h2
  rw [cursor_nil, Parse_cursor, hf]
  unfold intArrayText
  rw [h1, parseArray_open]
  simp only [List.nil_append]
  rw [h2]
  have h3 := skipAfter_ok (.arr ((e :: es).map (fun x => Value.int x.n)))
    ([91] ++ intElemsText e es ++ [93]) [] [] (by simp) (by rfl)
  simp only [List.nil_append, List.append_nil] at h3
  rw [h3]
  simp [cursor]

theorem parse_int_array_witness :
    (∀ x ∈ (⟨[32], 12, []⟩ : IntElem) :: [⟨[], -3, [10]⟩, ⟨[], 12, []⟩], x.wellFormed = true) ∧
    (Parse (fun _ => none) (NewLexer (intArrayText ⟨[32], 12, []⟩ [⟨[], -3, [10]⟩, ⟨[], 12, []⟩])) =
        .ok (.arr (((⟨[32], 12, []⟩ : IntElem) :: [⟨[], -3, [10]⟩, ⟨[], 12, []⟩]).map
            (fun x => Value.int x.n)))
          ⟨intArrayText ⟨[32], 12, []⟩ [⟨[], -3, [10]⟩, ⟨[], 12, []⟩],
            (intArrayText ⟨[32], 12, []⟩ [⟨[], -3, [10]⟩, ⟨[], 12, []⟩]).length⟩ ∧
      (((⟨[32], 12, []⟩ : IntElem) :: [⟨[], -3, [10]⟩, ⟨[], 12, []⟩]).map
          (fun x => Value.int x.n)).length =
        ((⟨[32], 12, []⟩ : IntElem) :: [⟨[], -3, [10]⟩, ⟨[], 12, []⟩]).length) :=
  ⟨by decide, parse_int_array (fun _ => none) ⟨[32], 12, []⟩ [⟨[], -3, [10]⟩, ⟨[], 12, []⟩]
    (by decide)⟩

/-- C15: on an input made of whitespace, then 4 bytes the first of which is `t`
(5 bytes for `f`, 4 bytes for `n`), then whitespace, then a rest that does not
start with whitespace: when the bytes are `true` (`false`, `null`) Parse
returns the boolean true (the boolean false, null) with a nil error, and
otherwise the UnexpectedLiteral error "expected true" ("expected false",
"expected null") with the bytes read; in both cases the cursor stands after
those bytes and the whitespace that follows them. -/
theorem parse_keyword (pf : List Nat → Option Nat) (ws ws2 post : List Nat)
    (hws : ∀ c ∈ ws, isSpace c = true) (hws2 : ∀ c ∈ ws2, isSpace c = true)
    (hpost : isSpace (post.headD 0) = false) :
    (∀ b c d : Nat,
      Parse pf (NewLexer (ws ++ 116 :: b :: c :: d :: (ws2 ++ post))) =
        if [116, b, c, d] = [116, 114, 117, 101] then
          .ok (.bool true) ⟨ws ++ 116 :: b :: c :: d :: (ws2 ++ post), ws.length + 4 + ws2.length⟩
        else
          .err (.expectedTrue [116, b, c, d])
            ⟨ws ++ 116 :: b :: c :: d :: (ws2 ++ post), ws.length + 4 + ws2.length⟩) ∧
    (∀ b c d e : Nat,
      Parse pf (NewLexer (ws ++ 102 :: b :: c :: d :: e :: (ws2 ++ post))) =
        if [102, b, c, d, e] = [102, 97, 108, 115, 101] then
          .ok (.bool false) ⟨ws ++ 102 :: b :: c :: d :: e :: (ws2 ++ post), ws.length + 5 + ws2.length⟩
        else
          .err (.expectedFalse [102, b, c, d, e])
            ⟨ws ++ 102 :: b :: c :: d :: e :: (ws2 ++ post), ws.length + 5 + ws2.length⟩) ∧
    (∀ b c d : Nat,
      Parse pf (NewLexer (ws ++ 110 :: b :: c :: d :: (ws2 ++ post))) =
        if [110, b, c, d] = [110, 117, 108, 108] then
          .ok .null ⟨ws ++ 110 :: b :: c :: d :: (ws2 ++ post), ws.length + 4 + ws2.length⟩
        else
          .err (.expectedNull [110, b, c, d])
            ⟨ws ++ 110 :: b :: c :: d :: (ws2 ++ post), ws.length + 4 + ws2.length⟩) ∧
    (∀ tok : List Nat, (Err.expectedTrue tok).kind = .UnexpectedLiteral ∧
      (Err.expectedFalse tok).kind = .UnexpectedLiteral ∧
      (Err.expectedNull tok).kind = .UnexpectedLiteral) := by
  refine ⟨?_, ?_, ?_, fun _ => ⟨rfl, rfl, rfl⟩⟩
  · intro b c d
    rw [cursor_nil, Parse_cursor,
      parseValue_keyword pf _ [] ws 116 _ hws (Or.inl rfl)]
    simp only [if_true, List.nil_append, parseTrue_cursor]
    split_ifs
    · rw [skipAfter_ok _ _ ws2 post hws2 hpost]; simp [cursor, Nat.add_assoc]; omega
    · rw [skipAfter_err_cursor _ _ ws2 post hws2 hpost]; simp [cursor, Nat.add_assoc]; omega
  · intro b c d e
    rw [cursor_nil, Parse_cursor,
      parseValue_keyword pf _ [] ws 102 _ hws (Or.inr (Or.inl rfl))]
    simp +decide only [if_true, if_false, List.nil_append, parseFalse_cursor]
    split_ifs
    · rw [skipAfter_ok _ _ ws2 post hws2 hpost]; simp [cursor, Nat.add_assoc]; omega
    · rw [skipAfter_err_cursor _ _ ws2 post hws2 hpost]; simp [cursor, Nat.add_assoc]; omega
  · intro b c d
    rw [cursor_nil, Parse_cursor,
      parseValue_keyword pf _ [] ws 110 _ hws (Or.inr (Or.inr rfl))]
    simp +decide only [if_true, if_false, List.nil_append, parseNull_cursor]
    split_ifs
    · rw [skipAfter_ok _ _ ws2 post hws2 hpost]; simp [cursor, Nat.add_assoc]; omega
    · rw [skipAfter_err_cursor _ _ ws2 post hws2 hpost]; simp [cursor, Nat.add_assoc]; omega

theorem parse_keyword_witness :
    ((∀ c ∈ [32, 9], isSpace c = true) ∧ (∀ c ∈ [10], isSpace c = true) ∧
      isSpace (([93] : List Nat).headD 0) = false) ∧
    ((∀ b c d : Nat,
      Parse (fun _ => none) (NewLexer ([32, 9] ++ 116 :: b :: c :: d :: ([10] ++ [93]))) =
        if [116, b, c, d] = [116, 114, 117, 101] then
          .ok (.bool true)
            ⟨[32, 9] ++ 116 :: b :: c :: d :: ([10] ++ [93]), [32, 9].length + 4 + [10].length⟩
        else
          .err (.expectedTrue [116, b, c, d])
            ⟨[32, 9] ++ 116 :: b :: c :: d :: ([10] ++ [93]), [32, 9].length + 4 + [10].length⟩) ∧
    (∀ b c d e : Nat,
      Parse (fun _ => none) (NewLexer ([32, 9] ++ 102 :: b :: c :: d :: e :: ([10] ++ [93]))) =
        if [102, b, c, d, e] = [102, 97, 108, 115, 101] then
          .ok (.bool false)
            ⟨[32, 9] ++ 102 :: b :: c :: d :: e :: ([10] ++ [93]), [32, 9].length + 5 + [10].length⟩
        else
          .err (.expectedFalse [102, b, c, d, e])
            ⟨[32, 9] ++ 102 :: b :: c :: d :: e :: ([10] ++ [93]), [32, 9].length + 5 + [10].length⟩) ∧
    (∀ b c d : Nat,
      Parse (fun _ => none) (NewLexer ([32, 9] ++ 110 :: b :: c :: d :: ([10] ++ [93]))) =
        if [110, b, c, d] = [110, 117, 108, 108] then
          .ok .null
            ⟨[32, 9] ++ 110 :: b :: c :: d :: ([10] ++ [93]), [32, 9].length + 4 + [10].length⟩
        else
          .err (.expectedNull [110, b, c, d])
            ⟨[32, 9] ++ 110 :: b :: c :: d :: ([10] ++ [93]), [32, 9].length + 4 + [10].length⟩) ∧
    (∀ tok : List Nat, (Err.expectedTrue tok).kind = .UnexpectedLiteral ∧
      (Err.expectedFalse tok).kind = .UnexpectedLiteral ∧
      (Err.expectedNull tok).kind = .UnexpectedLiteral)) :=
  ⟨⟨by decide, by decide, by decide⟩,
    parse_keyword (fun _ => none) [32, 9] [10] [93] (by decide) (by decide) (by decide)⟩

/-- C16: from every lexer state with `pos <= len(input)`, SkipWhitespaces returns
normally, leaves the input unchanged and sets the position to the smallest
index `p` from the old position on at which the input ends or holds a byte
other than 0x20, 0x09, 0x0A and 0x0D: every byte it stepped over is one of
these four. -/
theorem skipWhitespaces_spec (l : Lexer) (h : l.pos ≤ l.input.length) :
    ∃ p, l.SkipWhitespaces = .ok () ⟨l.input, p⟩ ∧ l.pos ≤ p ∧ p ≤ l.input.length ∧
      (∀ i, l.pos ≤ i → i < p →
        (l.input.getD i 0 = 32 ∨ l.input.getD i 0 = 9 ∨ l.input.getD i 0 = 10 ∨
          l.input.getD i 0 = 13)) ∧
      (p = l.input.length ∨
        ¬ (l.input.getD p 0 = 32 ∨ l.input.getD p 0 = 9 ∨ l.input.getD p 0 = 10 ∨
          l.input.getD p 0 = 13)) := by
  obtain ⟨p, h1, h2, h3, h4, h5⟩ := skipLoop_spec (l.input.length + 1) l h (by omega)
  refine ⟨p, h1, h2, h3, fun i hi1 hi2 => (isSpace_iff _).mp (h4 i hi1 hi2), ?_⟩
  rcases h5 with h5 | h5
  · exact Or.inl h5
  · right
    intro hc
    rw [(isSpace_iff _).mpr hc] at h5
    exact absurd h5 (by decide)

theorem skipWhitespaces_spec_witness :
    (1 : Nat) ≤ [49, 32, 9, 11, 32].length ∧
    ∃ p, (Lexer.mk [49, 32, 9, 11, 32] 1).SkipWhitespaces = .ok () ⟨[49, 32, 9, 11, 32], p⟩ ∧
      1 ≤ p ∧ p ≤ [49, 32, 9, 11, 32].length ∧
      (∀ i, 1 ≤ i → i < p →
        (([49, 32, 9, 11, 32] : List Nat).getD i 0 = 32 ∨ ([49, 32, 9, 11, 32] : List Nat).getD i 0 = 9 ∨
          ([49, 32, 9, 11, 32] : List Nat).getD i 0 = 10 ∨ ([49, 32, 9, 11, 32] : List Nat).getD i 0 = 13)) ∧
      (p = [49, 32, 9, 11, 32].length ∨
        ¬ (([49, 32, 9, 11, 32] : List Nat).getD p 0 = 32 ∨ ([49, 32, 9, 11, 32] : List Nat).getD p 0 = 9 ∨
          ([49, 32, 9, 11, 32] : List Nat).getD p 0 = 10 ∨ ([49, 32, 9, 11, 32] : List Nat).getD p 0 = 13)) :=
  ⟨by decide, skipWhitespaces_spec ⟨[49, 32, 9, 11, 32], 1⟩ (by decide)⟩

/-- C17: the lexer of NewLexer satisfies `pos <= len(input)` over the input it
was given, and from a lexer that satisfies it every operation that returns (a
value or an error) -- ReadChar, ReadMany, SkipWhitespaces, each parse routine
and Parse -- leaves a lexer with the same input, a position that is not
smaller than before, and `pos <= len(input)`. PeekChar is a pure read of the
lexer. -/
theorem lexer_invariant (pf : List Nat → Option Nat) (l : Lexer) (h : l.pos ≤ l.input.length)
    (n fuel : Nat) (vs : List Value) (obj : List (List Nat × Value)) :
    (NewLexer l.input).pos ≤ (NewLexer l.input).input.length ∧
    (NewLexer l.input).input = l.input ∧
    Res.Keeps l l.ReadChar ∧
    Res.Keeps l (l.ReadMany n) ∧
    Res.Keeps l l.SkipWhitespaces ∧
    Res.Keeps l (parseString l) ∧
    Res.Keeps l (parseNumber pf l) ∧
    Res.Keeps l (parseTrue l) ∧
    Res.Keeps l (parseFalse l) ∧
    Res.Keeps l (parseNull l) ∧
    Res.Keeps l (parseValue pf fuel l) ∧
    Res.Keeps l (parseArray pf fuel l) ∧
    Res.Keeps l (parseArrayLoop pf fuel vs l) ∧
    Res.Keeps l (parseObject pf fuel l) ∧
    Res.Keeps l (parseObjectLoop pf fuel obj l) ∧
    Res.Keeps l (Parse pf l) := by
  obtain ⟨hV, hA, hAL, hO, hOL⟩ := fine_mutual pf fuel
  exact ⟨Nat.zero_le _, rfl, fine_keeps (fine_readChar (T := True) l),
    fine_keeps (fine_readMany (T := True) n l h), fine_keeps (fine_skip (T := True) h),
    fine_keeps (fine_parseString (T := True) l), fine_keeps (fine_parseNumber (T := True) pf l),
    fine_keeps (fine_parseTrue (T := True) l h), fine_keeps (fine_parseFalse (T := True) l h),
    fine_keeps (fine_parseNull (T := True) l h), fine_keeps (hV l h), fine_keeps (hA l h),
    fine_keeps (hAL vs l h), fine_keeps (hO l h), fine_keeps (hOL obj l h),
    fine_keeps (fine_Parse pf l h)⟩

theorem lexer_invariant_witness :
    (0 : Nat) ≤ [91, 49, 93].length ∧
    ((NewLexer [91, 49, 93]).pos ≤ (NewLexer [91, 49, 93]).input.length ∧
    (NewLexer [91, 49, 93]).input = [91, 49, 93] ∧
    Res.Keeps ⟨[91, 49, 93], 0⟩ (Lexer.mk [91, 49, 93] 0).ReadChar ∧
    Res.Keeps ⟨[91, 49, 93], 0⟩ ((Lexer.mk [91, 49, 93] 0).ReadMany 2) ∧
    Res.Keeps ⟨[91, 49, 93], 0⟩ (Lexer.mk [91, 49, 93] 0).SkipWhitespaces ∧
    Res.Keeps ⟨[91, 49, 93], 0⟩ (parseString ⟨[91, 49, 93], 0⟩) ∧
    Res.Keeps ⟨[91, 49, 93], 0⟩ (parseNumber (fun _ => none) ⟨[91, 49, 93], 0⟩) ∧
    Res.Keeps ⟨[91, 49, 93], 0⟩ (parseTrue ⟨[91, 49, 93], 0⟩) ∧
    Res.Keeps ⟨[91, 49, 93], 0⟩ (parseFalse ⟨[91, 49, 93], 0⟩) ∧
    Res.Keeps ⟨[91, 49, 93], 0⟩ (parseNull ⟨[91, 49, 93], 0⟩) ∧
    Res.Keeps ⟨[91, 49, 93], 0⟩ (parseValue (fun _ => none) 10 ⟨[91, 49, 93], 0⟩) ∧
    Res.Keeps ⟨[91, 49, 93], 0⟩ (parseArray (fun _ => none) 10 ⟨[91, 49, 93], 0⟩) ∧
    Res.Keeps ⟨[91, 49, 93], 0⟩ (parseArrayLoop (fun _ => none) 10 [] ⟨[91, 49, 93], 0⟩) ∧
    Res.Keeps ⟨[91, 49, 93], 0⟩ (parseObject (fun _ => none) 10 ⟨[91, 49, 93], 0⟩) ∧
    Res.Keeps ⟨[91, 49, 93], 0⟩ (parseObjectLoop (fun _ => none) 10 [] ⟨[91, 49, 93], 0⟩) ∧
    Res.Keeps ⟨[91, 49, 93], 0⟩ (Parse (fun _ => none) ⟨[91, 49, 93], 0⟩)) :=
  ⟨by decide, lexer_invariant (fun _ => none) ⟨[91, 49, 93], 0⟩ (by decide) 2 10 [] []⟩

/-- C18 (the claim fails on the code): parseNumber never looks at the byte it is
called on, so the tokens `-.5` and `-`, whose integer part is empty, pass all
its lexical checks. On `-.5` parseNumber hands the token to
strconv.ParseFloat and Parse returns what the conversion gives: a float with
a nil error when it converts the token. On `-` the token goes to
strconv.Atoi, whose syntax error Parse returns; neither error is of the
InvalidNumber kind. -/
theorem parse_minus_without_digits (pf : List Nat → Option Nat) :
    parseNumber pf (NewLexer (ascii "-.5")) =
        convertNumber pf (ascii "-.5") true ⟨ascii "-.5", 3⟩ ∧
      Parse pf (NewLexer (ascii "-.5")) =
        (match pf (ascii "-.5") with
          | some bits => .ok (.float bits) ⟨ascii "-.5", 3⟩
          | none => .err (.parseFloat (ascii "-.5")) ⟨ascii "-.5", 3⟩) ∧
      parseNumber pf (NewLexer (ascii "-")) = convertNumber pf (ascii "-") false ⟨ascii "-", 1⟩ ∧
      Parse pf (NewLexer (ascii "-")) = .err (.atoiSyntax (ascii "-")) ⟨ascii "-", 1⟩ ∧
      (Err.atoiSyntax (ascii "-")).kind ≠ .InvalidNumber ∧
      (Err.parseFloat (ascii "-.5")).kind ≠ .InvalidNumber := by
  refine ⟨rfl, ?_, rfl, rfl, by decide, by decide⟩
  have h : Parse pf (NewLexer (ascii "-.5")) =
      skipAfter (convertNumber pf (ascii "-.5") true ⟨ascii "-.5", 3⟩) := rfl
  rw [h]
  have h2 : convertNumber pf (ascii "-.5") true ⟨ascii "-.5", 3⟩ =
      (match pf (ascii "-.5") with
        | some bits => .ok (.float bits) ⟨ascii "-.5", 3⟩
        | none => .err (.parseFloat (ascii "-.5")) ⟨ascii "-.5", 3⟩) := rfl
  rw [h2]
  cases pf (ascii "-.5") <;> rfl

/-- C19: on `1 x` Parse returns the integer 1 with a nil error and leaves the
cursor at index 2, on the byte `x`; on `null]` it returns null with a nil
error and leaves the cursor at index 4, on the byte `]`; both positions are
strictly before the end of the input. -/
theorem parse_leaves_trailing_bytes (pf : List Nat → Option Nat) :
    (Parse pf (NewLexer (ascii "1 x")) = .ok (.int 1) ⟨ascii "1 x", 2⟩ ∧
      (2 : Nat) < (ascii "1 x").length ∧ (ascii "1 x").getD 2 0 = 120) ∧
    (Parse pf (NewLexer (ascii "null]")) = .ok .null ⟨ascii "null]", 4⟩ ∧
      (4 : Nat) < (ascii "null]").length ∧ (ascii "null]").getD 4 0 = 93) :=
  ⟨⟨rfl, by decide, by decide⟩, ⟨rfl, by decide, by decide⟩⟩

/-- C20: for every input, Parse on NewLexer(input) terminates: with the fuel
`3 * len(input) + 1` the evaluation never runs out of fuel, so it returns or
reaches the panic of ReadChar, and when it returns the position is within
the input. The measure is `len(input) - pos`: a successful ReadChar needs
`pos < len(input)` and adds exactly one to `pos`; parseValue, parseArray,
parseObject and their loops need no more fuel than three times the measure
plus two; the loops of SkipWhitespaces, parseString and parseNumber need no
more iterations than the measure plus one; ReadMany is bounded by its
argument. -/
theorem parse_terminates (pf : List Nat → Option Nat) (input : List Nat) :
    Parse pf (NewLexer input) ≠ .fuelOut ∧
    Res.Keeps (NewLexer input) (Parse pf (NewLexer input)) ∧
    (∀ (l : Lexer) (ch : Nat) (l1 : Lexer), l.ReadChar = .ok ch l1 →
      l.pos < l.input.length ∧ l1.pos = l.pos + 1) ∧
    (∀ (fuel : Nat) (l : Lexer), l.pos ≤ l.input.length →
      3 * (l.input.length - l.pos) + 1 ≤ fuel → parseValue pf fuel l ≠ .fuelOut) ∧
    (∀ (fuel : Nat) (l : Lexer), l.pos < l.input.length →
      3 * (l.input.length - l.pos) ≤ fuel →
      parseArray pf fuel l ≠ .fuelOut ∧ parseObject pf fuel l ≠ .fuelOut) ∧
    (∀ (fuel : Nat) (vs : List Value) (obj : List (List Nat × Value)) (l : Lexer),
      l.pos ≤ l.input.length → 3 * (l.input.length - l.pos) + 2 ≤ fuel →
      parseArrayLoop pf fuel vs l ≠ .fuelOut ∧ parseObjectLoop pf fuel obj l ≠ .fuelOut) ∧
    (∀ (fuel : Nat) (l : Lexer), l.input.length - l.pos < fuel →
      skipLoop fuel l.PeekChar l ≠ .fuelOut) ∧
    (∀ (fuel ch stop : Nat) (l : Lexer), l.pos ≤ l.input.length →
      l.input.length - l.pos < fuel → parseStringLoop fuel ch stop l ≠ .fuelOut) ∧
    (∀ (fuel stop : Nat) (fraction exponent : Bool) (l : Lexer),
      l.input.length - l.pos < fuel →
      parseNumberLoop fuel stop fraction exponent l ≠ .fuelOut) ∧
    (∀ l : Lexer, l.SkipWhitespaces ≠ .fuelOut ∧ parseString l ≠ .fuelOut ∧
      parseNumber pf l ≠ .fuelOut) ∧
    (∀ (n : Nat) (l : Lexer), l.ReadMany n ≠ .fuelOut) := by
  have h0 : (NewLexer input).pos ≤ (NewLexer input).input.length := Nat.zero_le _
  refine ⟨fine_not_fuelOut (fine_Parse pf _ h0) trivial, fine_keeps (fine_Parse pf _ h0), ?_, ?_,
    ?_, ?_, ?_, ?_, ?_, ?_, readMany_not_fuelOut⟩
  · intro l ch l1 hr
    unfold Lexer.ReadChar at hr
    by_cases h : l.pos ≥ l.input.length
    · simp [h] at hr
    · simp only [h, if_false] at hr
      injection hr with _ h2
      subst h2
      exact ⟨by omega, rfl⟩
  · intro fuel l hl hf
    exact fine_not_fuelOut ((fine_mutual pf fuel).1 l hl) hf
  · intro fuel l hl hf
    exact ⟨fine_not_fuelOut ((fine_mutual pf fuel).2.1 l (by omega)) ⟨hl, hf⟩,
      fine_not_fuelOut ((fine_mutual pf fuel).2.2.2.1 l (by omega)) ⟨hl, hf⟩⟩
  · intro fuel vs obj l hl hf
    exact ⟨fine_not_fuelOut ((fine_mutual pf fuel).2.2.1 vs l hl) hf,
      fine_not_fuelOut ((fine_mutual pf fuel).2.2.2.2 obj l hl) hf⟩
  · intro fuel l hf
    obtain ⟨l1, h1, _⟩ := skipLoop_total fuel l hf
    rw [h1]
    exact fun hc => by cases hc
  · intro fuel ch stop l hl hf
    exact fine_not_fuelOut (fine_parseStringLoop (T := True) fuel ch stop l hl hf) trivial
  · intro fuel stop fr ex l hf
    exact fine_not_fuelOut (fine_parseNumberLoop (T := True) fuel stop fr ex l hf) trivial
  · intro l
    refine ⟨?_, fine_not_fuelOut (fine_parseString (T := True) l) trivial,
      fine_not_fuelOut (fine_parseNumber (T := True) pf l) trivial⟩
    obtain ⟨l1, h1, _⟩ := skip_total l
    rw [h1]
    exact fun hc => by cases hc

end Gjsp
